import Mathlib

/-! The application state machine of todo-tui, with its pagination and sorting.

A shallow embedding of `internal/models` (models.go, update.go, animations.go),
with the parts of `internal/api` and `internal/themes` it reads.

Conventions of the embedding

* Go `int` is `Int`; `/` and `%` are the truncating `Int.tdiv` and `Int.tmod`.
  Values are list indices, page numbers and lengths, and are not reduced
  modulo `2^64`: the definitions give the value of the Go code as long as no
  sum or product leaves the range of `int`. Where a property reaches past
  that range (a page number as large as one likes), the methods are given a
  second time with every sum and product reduced to 64 bits by `goInt`, in
  the namespace `Wrap64`.
* A Go slice is a `List`; `nil` and the empty slice are both `[]`.
* A pointer that may be `nil` is an `Option`.
* `time.Time` is an instant in nanoseconds, `time.Duration` a number of
  nanoseconds. One handler call reads one clock value, `Env.now`.
* A function that can panic (division by zero, index or slice bounds out of
  range) or fail to return returns `Option`, `none` standing for the panic.
* What the handlers take from outside the repository is a field of `Env`:
  the clock, `sort.Slice`, the random draws, the text-input widget.
* A `tea.Cmd` is the list of effects it stands for; `tea.Batch` concatenates.
-/

/-- An instant, in nanoseconds (Go `time.Time`). -/
abbrev Time := Int

/-- A span of time, in nanoseconds (Go `time.Duration`). -/
abbrev Duration := Int

/-- Go `a / b` on `int`: truncated division, a panic when `b = 0`. -/
def goDiv (a b : Int) : Option Int :=
  if b = 0 then none else some (Int.tdiv a b)

/-- Go `a % b` on `int`: truncated remainder, a panic when `b = 0`. -/
def goMod (a b : Int) : Option Int :=
  if b = 0 then none else some (Int.tmod a b)

/-- Go `xs[i]` for an `int` index: a panic when `i` is out of range. -/
def goIndex {α : Type} (xs : List α) (i : Int) : Option α :=
  if 0 ≤ i then xs[i.toNat]? else none

/-- Go `xs[lo:hi]`: a panic unless `0 ≤ lo ≤ hi ≤ len(xs)`. -/
def goSlice {α : Type} (xs : List α) (lo hi : Int) : Option (List α) :=
  if 0 ≤ lo ∧ lo ≤ hi ∧ hi ≤ (xs.length : Int) then
    some ((xs.drop lo.toNat).take (hi.toNat - lo.toNat))
  else none

/-- Go `len(xs)` as an `int`. -/
def goLen {α : Type} (xs : List α) : Int := (xs.length : Int)

/-- The largest Go `int` (64 bits). -/
def maxInt : Int := 2 ^ 63 - 1

/-- The value a Go `int` holds for the integer `x`: `x` reduced modulo `2^64`
into the range from `-2^63` to `2^63 - 1`. -/
def goInt (x : Int) : Int := (x + 2 ^ 63) % 2 ^ 64 - 2 ^ 63

namespace themes

/-- The colour scheme record of themes.go (colours are their hex strings). -/
structure Theme where
  Name : String
  Bg : String
  Fg : String
  Dim : String
  Accent : String
  Secondary : String
  Success : String
  Warning : String
deriving DecidableEq, Repr

/-- The table `themes.All`. -/
def All : List Theme :=
  [ ⟨"Catppuccin", "#000000", "#cdd6f4", "#6c7086", "#cba6f7", "#f5c2e7", "#a6e3a1", "#f38ba8"⟩,
    ⟨"Nord", "#2e3440", "#eceff4", "#4c566a", "#88c0d0", "#81a1c1", "#a3be8c", "#bf616a"⟩,
    ⟨"Gruvbox", "#282828", "#ebdbb2", "#928374", "#fabd2f", "#fe8019", "#b8bb26", "#fb4934"⟩,
    ⟨"Dracula", "#282a36", "#f8f8f2", "#6272a4", "#bd93f9", "#ff79c6", "#50fa7b", "#ff5555"⟩,
    ⟨"Tokyo Night", "#1a1b26", "#c0caf5", "#565f89", "#7aa2f7", "#bb9af7", "#9ece6a", "#f7768e"⟩,
    ⟨"Rose Pine", "#191724", "#e0def4", "#6e6a86", "#ebbcba", "#c4a7e7", "#31748f", "#eb6f92"⟩,
    ⟨"Everforest", "#272e33", "#d3c6aa", "#859289", "#a7c080", "#7fbbb3", "#a7c080", "#e67e80"⟩,
    ⟨"One Dark", "#282c34", "#abb2bf", "#5c6370", "#61afef", "#c678dd", "#98c379", "#e06c75"⟩,
    ⟨"Solarized", "#002b36", "#839496", "#586e75", "#268bd2", "#2aa198", "#859900", "#dc322f"⟩,
    ⟨"Kanagawa", "#1f1f28", "#dcd7ba", "#727169", "#7e9cd8", "#957fb8", "#76946a", "#c34043"⟩ ]

end themes

namespace api

/-- The record `api.Category`. -/
structure Category where
  ID : Int
  Name : String
  Color : String
  CreatedAt : Time
deriving DecidableEq, Repr

/-- The record `api.Subtask` (its field `Sort` is `SortIdx` here, `Sort`
being reserved). -/
structure Subtask where
  ID : Int
  Title : String
  Status : String
  SortIdx : Int
deriving DecidableEq, Repr

/-- The record `api.ShareInfo`. -/
structure ShareInfo where
  UserID : Option Int
  Email : String
  Pending : Bool
deriving DecidableEq, Repr

/-- The record `api.UserInfo`. -/
structure UserInfo where
  ID : Int
  Email : String
  IsAdmin : Bool
deriving DecidableEq, Repr

/-- The record `api.Task`, a task as the service returns it. -/
structure Task where
  ID : Int
  Title : String
  Notes : Option String
  Status : String
  DueAt : Option Time
  Priority : Int
  EffortMin : Int
  NotificationsEnabled : Bool
  ScheduledStart : Option Time
  ScheduledEnd : Option Time
  AutoScheduled : Bool
  PreferredTimeOfDay : Option String
  CategoryID : Option Int
  Category : Option Category
  Subtasks : List Subtask
  Tags : List String
  IsOwner : Option Bool
  CanComplete : Option Bool
  CanDelete : Option Bool
  CanShare : Option Bool
  SharedWith : List ShareInfo
  OwnerEmail : Option String
  CommentCount : Int
deriving DecidableEq, Repr

/-- The client `api.Client`, with the two files it keeps on disk: `tokenFile`
is the content of the file at `tokenPath` and `credsFile` of the one at
`credsPath`, `none` when the file does not exist. -/
structure Client where
  baseURL : String
  tokenPath : String
  credsPath : String
  token : String
  tokenFile : Option String
  credsFile : Option String
deriving DecidableEq, Repr

/-- The method `clearToken`: forget the token and remove its file. -/
def Client.clearToken (c : Client) : Client :=
  { c with token := "", tokenFile := none }

/-- The method `ClearToken`. -/
def Client.ClearToken (c : Client) : Client := c.clearToken

/-- The method `HasToken`. -/
def Client.HasToken (c : Client) : Bool := c.token != ""

/-- The method `ClearCredentials`: remove the credentials file. -/
def Client.ClearCredentials (c : Client) : Client :=
  { c with credsFile := none }

/-- The method `Logout`, as far as the client and its files go (the request
to the logout endpoint has its result ignored). -/
def Client.Logout (c : Client) : Client := c.ClearCredentials.clearToken

/-- A Go `error` value: an `*api.APIError`, or any other error with its text. -/
inductive GoError where
  | apiError (StatusCode : Int) (Message : String)
  | other (text : String)
deriving DecidableEq, Repr

/-- The method `IsUnauthorized` of `*api.APIError`. -/
def IsUnauthorized (StatusCode : Int) : Bool := StatusCode == 401

/-- The method `Error()`: for an API error, the format
`"API error %d: %s"`. -/
def GoError.Error : GoError → String
  | .apiError code message => "API error " ++ toString code ++ ": " ++ message
  | .other text => text

end api

namespace models

/-- The view states, `AppState`. -/
inductive AppState where
  | StateLogin
  | StateRegister
  | StateBrowse
  | StateEditing
  | StateCreating
  | StateEditingNotes
  | StateCreatingNotes
  | StateViewTask
  | StateCategorySelect
  | StateCategoryCreate
  | StateHelp
  | StateConfirmDelete
deriving DecidableEq, Repr

/-- The list filters, `ViewMode`. -/
inductive ViewMode where
  | ViewOpen
  | ViewCompleted
  | ViewShared
deriving DecidableEq, Repr

/-- The step `(v + 1) % 3` on view modes. -/
def ViewMode.next : ViewMode → ViewMode
  | .ViewOpen => .ViewCompleted
  | .ViewCompleted => .ViewShared
  | .ViewShared => .ViewOpen

/-- The sort orders, `SortMode`. -/
inductive SortMode where
  | SortPriority
  | SortDueDate
  | SortAlphabetical
  | SortCreated
deriving DecidableEq, Repr

/-- The step `(s + 1) % 4` on sort modes. -/
def SortMode.next : SortMode → SortMode
  | .SortPriority => .SortDueDate
  | .SortDueDate => .SortAlphabetical
  | .SortAlphabetical => .SortCreated
  | .SortCreated => .SortPriority

/-- The focused field of the login form, `InputField`. -/
inductive InputField where
  | FieldEmail
  | FieldPassword
deriving DecidableEq, Repr

/-- The number of completion animations. -/
def AnimCount : Int := 30

/-- The length of the completion animation: 290 ms. -/
def CheckAnimDuration : Duration := 290 * 1000000

/-- The length of the deletion animation: 200 ms. -/
def DeleteAnimDuration : Duration := 200 * 1000000

/-- The largest `time.Duration`. -/
def maxDuration : Duration := 2 ^ 63 - 1

/-- The smallest `time.Duration`. -/
def minDuration : Duration := -(2 ^ 63)

/-- The zero `time.Time` (1 January of year 1, UTC), in nanoseconds from the
Unix epoch. -/
def zeroTime : Time := -62135596800 * 1000000000

/-- Go `time.Since(t)` read at clock value `now`: the difference, saturated
to the range of `time.Duration`. -/
def Since (now t : Time) : Duration :=
  max minDuration (min maxDuration (now - t))

/-- A task with its display state, `models.Task`. -/
structure Task extends api.Task where
  Expanded : Bool
  IsAnimatingCheck : Bool
  IsDeleting : Bool
  AnimType : Int
  AnimStart : Time
deriving DecidableEq, Repr

/-- The composite literal `Task{Task: t}`: every display field zero. -/
def Task.ofApi (t : api.Task) : Task :=
  { toTask := t, Expanded := false, IsAnimatingCheck := false, IsDeleting := false,
    AnimType := 0, AnimStart := zeroTime }

/-- An effect a handler schedules. The effects that call the service carry
the arguments their closure captured. -/
inductive Effect where
  | quit
  | blink
  | tick
  | loadTasks (viewMode : ViewMode)
  | loadCategories
  | login (email password : String)
  | register (email password : String)
  | createTask (title notes : String)
  | updateTaskTitle (id : Int) (title : String)
  | updateTaskNotes (id : Int) (notes : String)
  | updateTaskStatus (id : Int) (status : String)
  | updateTaskCategory (id : Int) (categoryID : Option Int)
  | deleteTask (id : Int)
  | breakdownTask (id : Int)
  | createCategory (name color : String)
  | widget (n : Nat)
deriving DecidableEq, Repr

/-- A `tea.Cmd`: the effects it stands for, `nil` being `[]`. -/
abbrev Cmd := List Effect

/-- The command `TickCmd()`. -/
def TickCmd : Cmd := [Effect.tick]

/-- The messages `Update` receives. A key message is the string its
`String()` method returns; `other` is a message of any other type. -/
inductive Msg where
  | WindowSizeMsg (Width Height : Int)
  | TasksLoadedMsg (Tasks : List api.Task) (Err : Option api.GoError)
  | CategoriesLoadedMsg (Categories : List api.Category) (Err : Option api.GoError)
  | TaskCreatedMsg (Task : Option api.Task) (Err : Option api.GoError)
  | TaskUpdatedMsg (Task : Option api.Task) (Err : Option api.GoError)
  | TaskDeletedMsg (Err : Option api.GoError)
  | LoginMsg (Err : Option api.GoError)
  | RegisterMsg (Err : Option api.GoError)
  | TickMsg
  | KeyMsg (key : String)
  | other
deriving DecidableEq, Repr

/-- The text-input widget of `bubbles/textinput`, over its state `TI`: the
methods and the field assignment the handlers use. -/
structure TextInputOps (TI : Type) where
  Value : TI → String
  SetValue : TI → String → TI
  Focus : TI → TI
  Blur : TI → TI
  SetCursor : TI → Int → TI
  SetWidth : TI → Int → TI
  Update : TI → String → TI × Cmd

/-- What a handler call takes from outside the repository: the clock value,
`sort.Slice` on the task list for a given `less`, the values `r.Intn(AnimCount)`
returns in turn inside `RandomAnimType`, the value of `rand.Intn(len(colors))`,
and the text-input widget. -/
structure Env (TI : Type) where
  now : Time
  sortSlice : (Task → Task → Bool) → List Task → List Task
  animDraws : List Int
  colorDraw : Int
  input : TextInputOps TI

/-- The application state, `Model`. -/
structure Model (TI : Type) where
  Client : api.Client
  State : AppState
  PreviousState : AppState
  ViewMode : models.ViewMode
  SortMode : models.SortMode
  ThemeIndex : Int
  LastAnim : Int
  Tasks : List Task
  Categories : List api.Category
  User : Option api.UserInfo
  Cursor : Int
  CategoryCursor : Int
  Width : Int
  Height : Int
  Page : Int
  PageSize : Int
  EmailInput : TI
  PasswordInput : TI
  TitleInput : TI
  NotesInput : TI
  CategoryInput : TI
  FocusedField : InputField
  TempTitle : String
  TempNotes : String
  EditingTaskID : Int
  SelectedTaskIdx : Int
  ErrorMsg : String
  SuccessMsg : String
  Loading : Bool
deriving DecidableEq

variable {TI : Type}

/-- The method `ValidateCursor`: clamp the cursor of the active list. -/
def Model.ValidateCursor (m : Model TI) : Model TI :=
  match m.State with
  | .StateCategorySelect =>
    if goLen m.Categories = 0 then { m with CategoryCursor := 0 }
    else if m.CategoryCursor ≥ goLen m.Categories then
      { m with CategoryCursor := goLen m.Categories - 1 }
    else if m.CategoryCursor < 0 then { m with CategoryCursor := 0 }
    else m
  | _ =>
    if goLen m.Tasks = 0 then { m with Cursor := 0 }
    else if m.Cursor ≥ goLen m.Tasks then { m with Cursor := goLen m.Tasks - 1 }
    else if m.Cursor < 0 then { m with Cursor := 0 }
    else m

/-- The method `CurrentTask`: the selected task, `none` for `nil`. -/
def Model.CurrentTask (m : Model TI) : Option Task :=
  if m.Cursor ≥ 0 ∧ m.Cursor < goLen m.Tasks then goIndex m.Tasks m.Cursor else none

/-- The method `TotalPages`. -/
def Model.TotalPages (m : Model TI) : Option Int :=
  if goLen m.Tasks = 0 then some 1
  else do
    let pages ← goDiv (goLen m.Tasks) m.PageSize
    let r ← goMod (goLen m.Tasks) m.PageSize
    if r ≠ 0 then some (pages + 1) else some pages

/-- The method `PageStart`, the product taken over the integers: the value of
the Go method as long as the product fits in an `int`. -/
def Model.PageStart (m : Model TI) : Int := m.Page * m.PageSize

/-- The method `PageEnd`, the sum and the product taken over the integers:
the value of the Go method as long as they fit in an `int`. -/
def Model.PageEnd (m : Model TI) : Int :=
  let e := (m.Page + 1) * m.PageSize
  if e > goLen m.Tasks then goLen m.Tasks else e

/-- The method `PageTasks`; a `nil` result is `some []`. -/
def Model.PageTasks (m : Model TI) : Option (List Task) :=
  if goLen m.Tasks = 0 then some []
  else
    let start := m.PageStart
    let e := m.PageEnd
    if start ≥ goLen m.Tasks then some []
    else goSlice m.Tasks start e

/-- The method `CursorInPage`. -/
def Model.CursorInPage (m : Model TI) : Int := m.Cursor - m.PageStart

/-- The method `PageStart`, the product as the 64-bit `int` holds it. -/
def Wrap64.PageStart (m : Model TI) : Int := goInt (m.Page * m.PageSize)

/-- The method `PageEnd`, the sum and the product as the 64-bit `int` holds
them. -/
def Wrap64.PageEnd (m : Model TI) : Int :=
  let e := goInt (goInt (m.Page + 1) * m.PageSize)
  if e > goLen m.Tasks then goLen m.Tasks else e

/-- The method `PageTasks` over `Wrap64.PageStart` and `Wrap64.PageEnd`; a
`nil` result is `some []`. -/
def Wrap64.PageTasks (m : Model TI) : Option (List Task) :=
  if goLen m.Tasks = 0 then some []
  else
    let start := Wrap64.PageStart m
    let e := Wrap64.PageEnd m
    if start ≥ goLen m.Tasks then some []
    else goSlice m.Tasks start e

/-- The method `ValidatePage`. -/
def Model.ValidatePage (m : Model TI) : Option (Model TI) := do
  let totalPages ← m.TotalPages
  let m1 := if m.Page < 0 then { m with Page := 0 } else m
  let m2 := if m1.Page ≥ totalPages then { m1 with Page := totalPages - 1 } else m1
  let m3 := if m2.Page < 0 then { m2 with Page := 0 } else m2
  some m3

/-- The method `EnsureCursorVisible`. -/
def Model.EnsureCursorVisible (m : Model TI) : Option (Model TI) :=
  if goLen m.Tasks = 0 then some { m with Page := 0 }
  else do
    let p ← goDiv m.Cursor m.PageSize
    ({ m with Page := p }).ValidatePage

end models

/-! ## The library routine `sort.Slice`

The algorithm of the Go standard library (pattern-defeating quicksort, as
generated into `zsortfunc.go` since Go 1.19), on a list and a `less` on
elements. Indices stay within the slice throughout, so they are `Nat`. A
loop that is not bounded by a counter runs on a budget, and a spent budget is
`none`. -/

namespace sort

variable {α : Type}

/-- The call `data.Less(i, j)`. -/
def Less (less : α → α → Bool) (data : List α) (i j : Nat) : Bool :=
  match data[i]?, data[j]? with
  | some x, some y => less x y
  | _, _ => false

/-- The call `data.Swap(i, j)`. -/
def Swap (data : List α) (i j : Nat) : List α :=
  match data[i]?, data[j]? with
  | some x, some y => (data.set i y).set j x
  | _, _ => data

/-- The inner loop of `insertionSort_func`, entered with `j`:
`for ; j > a && data.Less(j, j-1); j-- { data.Swap(j, j-1) }`. -/
def insertionSort_inner (less : α → α → Bool) (a : Nat) : Nat → List α → List α
  | 0, data => data
  | j + 1, data =>
    if j + 1 > a ∧ Less less data (j + 1) j = true then
      insertionSort_inner less a j (Swap data (j + 1) j)
    else data

/-- The outer loop of `insertionSort_func`, with `n = b - i` rounds left. -/
def insertionSort_outer (less : α → α → Bool) (a : Nat) : Nat → Nat → List α → List α
  | 0, _, data => data
  | n + 1, i, data => insertionSort_outer less a n (i + 1) (insertionSort_inner less a i data)

/-- The routine `insertionSort_func(data, a, b)`: sort `data[a:b]`. -/
def insertionSort_func (less : α → α → Bool) (data : List α) (a b : Nat) : List α :=
  insertionSort_outer less a (b - (a + 1)) (a + 1) data

/-- The routine `siftDown_func(data, lo, hi, first)`, its loop entered with
`root`; `root` grows in every round, so `hi + 1` rounds are enough. -/
def siftDown_loop (less : α → α → Bool) (hi first : Nat) : Nat → Nat → List α → List α
  | 0, _, data => data
  | budget + 1, root, data =>
    let child := 2 * root + 1
    if child ≥ hi then data
    else
      let child :=
        if child + 1 < hi ∧ Less less data (first + child) (first + child + 1) = true
        then child + 1 else child
      if Less less data (first + root) (first + child) = false then data
      else siftDown_loop less hi first budget child (Swap data (first + root) (first + child))

/-- The routine `siftDown_func`. -/
def siftDown_func (less : α → α → Bool) (data : List α) (lo hi first : Nat) : List α :=
  siftDown_loop less hi first (hi + 1) lo data

/-- The routine `heapSort_func(data, a, b)`. -/
def heapSort_func (less : α → α → Bool) (data : List α) (a b : Nat) : List α :=
  let first := a
  let lo := 0
  let hi := b - a
  let built := (List.range ((hi - 1) / 2 + 1)).reverse.foldl
    (fun d i => siftDown_func less d i hi first) data
  (List.range hi).reverse.foldl
    (fun d i => siftDown_func less (Swap d first (first + i)) lo i first) built

/-- The function `bits.Len` on a 64-bit word. -/
def bitsLen (x : Nat) : Nat :=
  (List.range 64).foldl (fun n k => if x / 2 ^ k ≠ 0 then k + 1 else n) 0

/-- The method `Next` of `xorshift`: the new state, which is also the value
returned. -/
def xorshiftNext (r : Nat) : Nat :=
  let r := r ^^^ ((r <<< 13) % 2 ^ 64)
  let r := r ^^^ (r >>> 7)
  r ^^^ ((r <<< 17) % 2 ^ 64)

/-- The routine `breakPatterns_func(data, a, b)`: three swaps, the `i`-th at
position `a + (length/4)*2 - 1 + i`. -/
def breakPatterns_func (data : List α) (a b : Nat) : List α :=
  let length := b - a
  if length ≥ 8 then
    let modulus := 2 ^ bitsLen length
    let idx := a + (length / 4) * 2
    let step := fun (st : Nat × List α) (i : Nat) =>
      let random := xorshiftNext st.1
      let other := random &&& (modulus - 1)
      let other := if other ≥ length then other - length else other
      (random, Swap st.2 (idx - 1 + i) (a + other))
    ((List.range 3).foldl step (length, data)).2
  else data

/-- The routine `order2_func(data, a, b, swaps)`: the pair in order and the
new count of swaps. -/
def order2_func (less : α → α → Bool) (data : List α) (a b swaps : Nat) : Nat × Nat × Nat :=
  if Less less data b a = true then (b, a, swaps + 1) else (a, b, swaps)

/-- The routine `median_func(data, a, b, c, swaps)`: the index of the median
and the new count of swaps. -/
def median_func (less : α → α → Bool) (data : List α) (a b c swaps : Nat) : Nat × Nat :=
  let (a, b, swaps) := order2_func less data a b swaps
  let (b, _, swaps) := order2_func less data b c swaps
  let (_, b, swaps) := order2_func less data a b swaps
  (b, swaps)

/-- The routine `medianAdjacent_func(data, a, swaps)`. -/
def medianAdjacent_func (less : α → α → Bool) (data : List α) (a swaps : Nat) : Nat × Nat :=
  median_func less data (a - 1) a (a + 1) swaps

/-- The hints of `choosePivot_func`. -/
inductive sortedHint where
  | unknownHint
  | increasingHint
  | decreasingHint
deriving DecidableEq, Repr

/-- The routine `choosePivot_func(data, a, b)`. -/
def choosePivot_func (less : α → α → Bool) (data : List α) (a b : Nat) : Nat × sortedHint :=
  let shortestNinther := 50
  let maxSwaps := 4 * 3
  let l := b - a
  let i := a + l / 4 * 1
  let j := a + l / 4 * 2
  let k := a + l / 4 * 3
  let (j, swaps) :=
    if l ≥ 8 then
      let (i, j, k, swaps) :=
        if l ≥ shortestNinther then
          let (i, s) := medianAdjacent_func less data i 0
          let (j, s) := medianAdjacent_func less data j s
          let (k, s) := medianAdjacent_func less data k s
          (i, j, k, s)
        else (i, j, k, 0)
      median_func less data i j k swaps
    else (j, 0)
  if swaps = 0 then (j, .increasingHint)
  else if swaps = maxSwaps then (j, .decreasingHint)
  else (j, .unknownHint)

/-- The routine `reverseRange_func(data, a, b)`, with `n` rounds allowed (at
most `(b - a) / 2` are taken). -/
def reverseRange_loop : Nat → Nat → Nat → List α → List α
  | 0, _, _, data => data
  | n + 1, i, j, data =>
    if i < j then reverseRange_loop n (i + 1) (j - 1) (Swap data i j) else data

/-- The routine `reverseRange_func`. -/
def reverseRange_func (data : List α) (a b : Nat) : List α :=
  reverseRange_loop (b - a) a (b - 1) data

/-- The loop `for i <= j && data.Less(i, a) { i++ }` of `partition_func`,
with `n = j + 1 - i`; the value is the final `i`. -/
def partition_up (less : α → α → Bool) (data : List α) (a : Nat) : Nat → Nat → Nat
  | 0, i => i
  | n + 1, i => if Less less data i a = true then partition_up less data a n (i + 1) else i

/-- The loop `for i <= j && !data.Less(j, a) { j-- }` of `partition_func`,
with `n = j + 1 - i`; the value is the final `j`. -/
def partition_down (less : α → α → Bool) (data : List α) (a : Nat) : Nat → Nat → Nat
  | 0, j => j
  | n + 1, j => if Less less data j a = false then partition_down less data a n (j - 1) else j

/-- The closing `for` loop of `partition_func`, entered with `i` and `j`;
the value is the final `j` and the slice. -/
def partition_loop (less : α → α → Bool) (a : Nat) : Nat → Nat → Nat → List α → Option (Nat × List α)
  | 0, _, _, _ => none
  | budget + 1, i, j, data =>
    let i := partition_up less data a (j + 1 - i) i
    let j := partition_down less data a (j + 1 - i) j
    if i > j then some (j, data)
    else partition_loop less a budget (i + 1) (j - 1) (Swap data i j)

/-- The routine `partition_func(data, a, b, pivot)`: the slice, the new
position of the pivot and whether the slice was partitioned already. -/
def partition_func (less : α → α → Bool) (data : List α) (a b pivot : Nat) :
    Option (List α × Nat × Bool) :=
  let data := Swap data a pivot
  let i := a + 1
  let j := b - 1
  let i := partition_up less data a (j + 1 - i) i
  let j := partition_down less data a (j + 1 - i) j
  if i > j then some (Swap data j a, j, true)
  else
    match partition_loop less a (b - a + 1) (i + 1) (j - 1) (Swap data i j) with
    | none => none
    | some (j, data) => some (Swap data j a, j, false)

/-- The loop `for i <= j && !data.Less(a, i) { i++ }` of
`partitionEqual_func`, with `n = j + 1 - i`. -/
def partitionEqual_up (less : α → α → Bool) (data : List α) (a : Nat) : Nat → Nat → Nat
  | 0, i => i
  | n + 1, i => if Less less data a i = false then partitionEqual_up less data a n (i + 1) else i

/-- The loop `for i <= j && data.Less(a, j) { j-- }` of
`partitionEqual_func`, with `n = j + 1 - i`. -/
def partitionEqual_down (less : α → α → Bool) (data : List α) (a : Nat) : Nat → Nat → Nat
  | 0, j => j
  | n + 1, j => if Less less data a j = true then partitionEqual_down less data a n (j - 1) else j

/-- The loop of `partitionEqual_func`; the value is the final `i` and the
slice. -/
def partitionEqual_loop (less : α → α → Bool) (a : Nat) :
    Nat → Nat → Nat → List α → Option (Nat × List α)
  | 0, _, _, _ => none
  | budget + 1, i, j, data =>
    let i := partitionEqual_up less data a (j + 1 - i) i
    let j := partitionEqual_down less data a (j + 1 - i) j
    if i > j then some (i, data)
    else partitionEqual_loop less a budget (i + 1) (j - 1) (Swap data i j)

/-- The routine `partitionEqual_func(data, a, b, pivot)`. -/
def partitionEqual_func (less : α → α → Bool) (data : List α) (a b pivot : Nat) :
    Option (List α × Nat) :=
  match partitionEqual_loop less a (b - a + 1) (a + 1) (b - 1) (Swap data a pivot) with
  | none => none
  | some (i, data) => some (data, i)

/-- The loop `for i < b && !data.Less(i, i-1) { i++ }` of
`partialInsertionSort_func`, with `n = b - i`. -/
def partialInsertionSort_scan (less : α → α → Bool) (data : List α) : Nat → Nat → Nat
  | 0, i => i
  | n + 1, i =>
    if Less less data i (i - 1) = false then partialInsertionSort_scan less data n (i + 1) else i

/-- The loop that shifts the smaller element to the left, entered with `j`:
`for ; j >= 1; j-- { if !data.Less(j, j-1) { break }; data.Swap(j, j-1) }`. -/
def partialInsertionSort_left (less : α → α → Bool) : Nat → List α → List α
  | 0, data => data
  | j + 1, data =>
    if Less less data (j + 1) j = false then data
    else partialInsertionSort_left less j (Swap data (j + 1) j)

/-- The loop that shifts the greater element to the right, entered with `j`
and `n = b - j`:
`for ; j < b; j++ { if !data.Less(j, j-1) { break }; data.Swap(j, j-1) }`. -/
def partialInsertionSort_right (less : α → α → Bool) : Nat → Nat → List α → List α
  | 0, _, data => data
  | n + 1, j, data =>
    if Less less data j (j - 1) = false then data
    else partialInsertionSort_right less n (j + 1) (Swap data j (j - 1))

/-- The outer loop of `partialInsertionSort_func`, with the number of steps
left (`maxSteps` is 5) and the running `i`. -/
def partialInsertionSort_loop (less : α → α → Bool) (a b : Nat) :
    Nat → Nat → List α → List α × Bool
  | 0, _, data => (data, false)
  | steps + 1, i, data =>
    let shortestShifting := 50
    let i := partialInsertionSort_scan less data (b - i) i
    if i = b then (data, true)
    else if b - a < shortestShifting then (data, false)
    else
      let data := Swap data i (i - 1)
      let data := if i - a ≥ 2 then partialInsertionSort_left less (i - 1) data else data
      let data :=
        if b - i ≥ 2 then partialInsertionSort_right less (b - (i + 1)) (i + 1) data else data
      partialInsertionSort_loop less a b steps i data

/-- The routine `partialInsertionSort_func(data, a, b)`: the slice and
whether it is sorted at the end. -/
def partialInsertionSort_func (less : α → α → Bool) (data : List α) (a b : Nat) :
    List α × Bool :=
  partialInsertionSort_loop less a b 5 (a + 1) data

/-- The routine `pdqsort_func(data, a, b, limit)`. One unit of the budget
is spent by each round of its loop and each nested call; `wasBalanced` and
`wasPartitioned` are its two local flags, `true` at entry. -/
def pdqsort_func (less : α → α → Bool) :
    Nat → List α → Nat → Nat → Nat → Bool → Bool → Option (List α)
  | 0, _, _, _, _, _, _ => none
  | budget + 1, data, a, b, limit, wasBalanced, wasPartitioned =>
    let maxInsertion := 12
    let length := b - a
    if length ≤ maxInsertion then some (insertionSort_func less data a b)
    else if limit = 0 then some (heapSort_func less data a b)
    else
      let (data, limit) :=
        if wasBalanced = false then (breakPatterns_func data a b, limit - 1) else (data, limit)
      let (pivot, hint) := choosePivot_func less data a b
      let (data, pivot, hint) :=
        if hint = .decreasingHint then
          (reverseRange_func data a b, (b - 1) - (pivot - a), sortedHint.increasingHint)
        else (data, pivot, hint)
      let (data, sorted) :=
        if wasBalanced = true ∧ wasPartitioned = true ∧ hint = .increasingHint then
          partialInsertionSort_func less data a b
        else (data, false)
      if sorted = true then some data
      else if a > 0 ∧ Less less data (a - 1) pivot = false then
        match partitionEqual_func less data a b pivot with
        | none => none
        | some (data, mid) => pdqsort_func less budget data mid b limit wasBalanced wasPartitioned
      else
        match partition_func less data a b pivot with
        | none => none
        | some (data, mid, alreadyPartitioned) =>
          let leftLen := mid - a
          let rightLen := b - mid
          let balanceThreshold := length / 8
          if leftLen < rightLen then
            match pdqsort_func less budget data a mid limit true true with
            | none => none
            | some data =>
              pdqsort_func less budget data (mid + 1) b limit
                (decide (leftLen ≥ balanceThreshold)) alreadyPartitioned
          else
            match pdqsort_func less budget data (mid + 1) b limit true true with
            | none => none
            | some data =>
              pdqsort_func less budget data a mid limit
                (decide (rightLen ≥ balanceThreshold)) alreadyPartitioned

/-- The function `sort.Slice(x, less)`, with `less` on elements: the sorted
slice, `none` if the budget of `pdqsort_func` were spent. -/
def Slice (less : α → α → Bool) (data : List α) : Option (List α) :=
  pdqsort_func less (data.length + 1) data 0 data.length (bitsLen data.length) true true

end sort

namespace models

variable {TI : Type}

/-- The comparison of `ApplySort` in priority mode. -/
def lessPriority (x y : Task) : Bool := decide (x.Priority > y.Priority)

/-- The comparison of `ApplySort` in due-date mode; `Before` compares the
two instants. -/
def lessDueDate (x y : Task) : Bool :=
  match x.DueAt, y.DueAt with
  | none, none => false
  | none, some _ => false
  | some _, none => true
  | some dx, some dy => decide (dx < dy)

/-- The comparison of `ApplySort` in alphabetical mode: `<` on Go strings,
which orders by bytes, as the order of `String` does on valid UTF-8. -/
def lessAlphabetical (x y : Task) : Bool := decide (x.Title < y.Title)

/-- The comparison of `ApplySort` in creation mode. -/
def lessCreated (x y : Task) : Bool := decide (x.ID > y.ID)

/-- The comparison `ApplySort` hands to `sort.Slice` in each mode. -/
def sortLess : SortMode → Task → Task → Bool
  | .SortPriority => lessPriority
  | .SortDueDate => lessDueDate
  | .SortAlphabetical => lessAlphabetical
  | .SortCreated => lessCreated

/-- The method `ApplySort`. -/
def Model.ApplySort (env : Env TI) (m : Model TI) : Model TI :=
  match m.SortMode with
  | .SortPriority => { m with Tasks := env.sortSlice lessPriority m.Tasks }
  | .SortDueDate => { m with Tasks := env.sortSlice lessDueDate m.Tasks }
  | .SortAlphabetical => { m with Tasks := env.sortSlice lessAlphabetical m.Tasks }
  | .SortCreated => { m with Tasks := env.sortSlice lessCreated m.Tasks }

/-- The function `RandomAnimType(lastAnim)`, on the values `r.Intn(AnimCount)`
returns in turn; `none` when the draws end before the loop does. -/
def RandomAnimType : List Int → Int → Option Int
  | [], _ => none
  | newAnim :: rest, lastAnim =>
    if newAnim = lastAnim ∧ AnimCount > 1 then RandomAnimType rest lastAnim else some newAnim

/-- The function `IsAnimating`. -/
def IsAnimating (tasks : List Task) : Bool :=
  tasks.any (fun t => t.IsAnimatingCheck || t.IsDeleting)

/-- The function `UpdateAnimations`, at clock value `now`: the tasks and
whether a flag was cleared. -/
def UpdateAnimations (now : Time) : List Task → List Task × Bool
  | [] => ([], false)
  | t :: rest =>
    let c1 := t.IsAnimatingCheck && decide (Since now t.AnimStart ≥ CheckAnimDuration)
    let t1 := if c1 then { t with IsAnimatingCheck := false } else t
    let c2 := t1.IsDeleting && decide (Since now t1.AnimStart ≥ DeleteAnimDuration)
    let t2 := if c2 then { t1 with IsDeleting := false } else t1
    let r := UpdateAnimations now rest
    (t2 :: r.1, c1 || c2 || r.2)

/-- What the loop of the `TickMsg` case carries from task to task. -/
structure TickState where
  Tasks : List Task
  SelectedTaskIdx : Int
  cmds : Cmd
  needsTick : Bool
deriving DecidableEq

/-- The loop `for i := range m.Tasks` of the `TickMsg` case, on the tasks
from index `i` on; `Tasks` of the result holds these tasks after the loop. -/
def tickLoop (now : Time) : List Task → Int → Int → Cmd → Bool → TickState
  | [], _, sel, cmds, needsTick => ⟨[], sel, cmds, needsTick⟩
  | t :: rest, i, sel, cmds, needsTick =>
    let s1 : Int × Cmd × Bool :=
      if t.IsDeleting then
        if Since now t.AnimStart > DeleteAnimDuration then
          (i, cmds ++ [Effect.deleteTask t.ID], needsTick)
        else (sel, cmds, true)
      else (sel, cmds, needsTick)
    let s2 : Task × Bool :=
      if t.IsAnimatingCheck then
        if Since now t.AnimStart > CheckAnimDuration then
          ({ t with IsAnimatingCheck := false }, s1.2.2)
        else (t, true)
      else (t, s1.2.2)
    let r := tickLoop now rest (i + 1) s1.1 s1.2.1 s2.2
    ⟨s2.1 :: r.Tasks, r.SelectedTaskIdx, r.cmds, r.needsTick⟩

/-- The loop of the `TaskUpdatedMsg` case: the first task with the id of
`u` takes the data of `u` and keeps its display fields. -/
def mergeTask (u : api.Task) : List Task → List Task
  | [] => []
  | t :: rest => if t.ID = u.ID then { t with toTask := u } :: rest else t :: mergeTask u rest

/-- The loop `for i, cat := range m.Categories` of the category keys: the
index of the first category with the given id, counted from `i`. -/
def findCategory (id : Int) : List api.Category → Int → Option Int
  | [], _ => none
  | cat :: rest, i => if cat.ID = id then some i else findCategory id rest (i + 1)

/-- The cursor the category picker opens with for a task: `-1` ("None"), or
the position of the category of the task. -/
def pickerCursor (cats : List api.Category) (t : Task) : Int :=
  match t.CategoryID with
  | none => -1
  | some id => (findCategory id cats 0).getD (-1)

/-- Go `xs[i] = x` for an `int` index: a panic when `i` is out of range. -/
def goSet {α : Type} (xs : List α) (i : Int) (x : α) : Option (List α) :=
  if 0 ≤ i ∧ i < goLen xs then some (xs.set i.toNat x) else none

/-- The palette of `updateCategoryCreate`. -/
def categoryColors : List String :=
  ["#FF6B6B", "#4ECDC4", "#45B7D1", "#96CEB4", "#FFEAA7", "#DDA0DD", "#98D8C8", "#F7DC6F"]

/-- Whether the cursor selects a task: the guard
`len(m.Tasks) > 0 && m.Cursor >= 0 && m.Cursor < len(m.Tasks)`. -/
def Model.hasSelection (m : Model TI) : Bool :=
  decide (goLen m.Tasks > 0 ∧ m.Cursor ≥ 0 ∧ m.Cursor < goLen m.Tasks)

/-- The guard `m.SelectedTaskIdx >= 0 && m.SelectedTaskIdx < len(m.Tasks)`. -/
def Model.selectedInRange (m : Model TI) : Bool :=
  decide (m.SelectedTaskIdx ≥ 0 ∧ m.SelectedTaskIdx < goLen m.Tasks)

/-- The handler `updateAuth`. -/
def Model.updateAuth (env : Env TI) (m : Model TI) (msg : String) : Option (Model TI × Cmd) :=
  if msg = "q" ∨ msg = "ctrl+c" then some (m, [Effect.quit])
  else if msg = "tab" then
    if m.FocusedField = .FieldEmail then
      some ({ m with FocusedField := .FieldPassword,
                     EmailInput := env.input.Blur m.EmailInput,
                     PasswordInput := env.input.Focus m.PasswordInput }, [Effect.blink])
    else
      some ({ m with FocusedField := .FieldEmail,
                     PasswordInput := env.input.Blur m.PasswordInput,
                     EmailInput := env.input.Focus m.EmailInput }, [Effect.blink])
  else if msg = "ctrl+r" then
    let m := if m.State = .StateLogin then { m with State := .StateRegister }
             else { m with State := .StateLogin }
    some ({ m with ErrorMsg := "" }, [])
  else if msg = "enter" then
    let email := env.input.Value m.EmailInput
    let password := env.input.Value m.PasswordInput
    if email = "" ∨ password = "" then
      some ({ m with ErrorMsg := "Email and password are required" }, [])
    else
      let m := { m with Loading := true }
      if m.State = .StateLogin then some (m, [Effect.login email password])
      else some (m, [Effect.register email password])
  else if m.FocusedField = .FieldEmail then
    let r := env.input.Update m.EmailInput msg
    some ({ m with EmailInput := r.1 }, r.2)
  else
    let r := env.input.Update m.PasswordInput msg
    some ({ m with PasswordInput := r.1 }, r.2)

/-- The end of `updateEditing`: the key goes to the active input. -/
def Model.updateActiveInput (env : Env TI) (m : Model TI) (msg : String) : Model TI × Cmd :=
  if m.State = .StateCreating ∨ m.State = .StateEditing then
    let r := env.input.Update m.TitleInput msg
    ({ m with TitleInput := r.1 }, r.2)
  else
    let r := env.input.Update m.NotesInput msg
    ({ m with NotesInput := r.1 }, r.2)

/-- The handler `updateEditing`. -/
def Model.updateEditing (env : Env TI) (m : Model TI) (msg : String) :
    Option (Model TI × Cmd) :=
  if msg = "esc" then
    let m := { m with State := .StateBrowse,
                      TitleInput := env.input.Blur m.TitleInput,
                      NotesInput := env.input.Blur m.NotesInput,
                      TempTitle := "", TempNotes := "" }
    some (m.ValidateCursor, [])
  else if msg = "enter" then
    if m.State = .StateCreating then
      let val := env.input.Value m.TitleInput
      if val = "" then
        some ({ m with State := .StateBrowse, TitleInput := env.input.Blur m.TitleInput }, [])
      else
        some ({ m with TempTitle := val, State := .StateCreatingNotes,
                       NotesInput := env.input.Focus (env.input.SetValue m.NotesInput ""),
                       TitleInput := env.input.Blur m.TitleInput }, [Effect.blink])
    else if m.State = .StateCreatingNotes then
      let notes := env.input.Value m.NotesInput
      some ({ m with Loading := true }, [Effect.createTask m.TempTitle notes])
    else if m.State = .StateEditing ∧ env.input.Value m.TitleInput = "" then
      some ({ m with State := .StateBrowse, TitleInput := env.input.Blur m.TitleInput }, [])
    else if m.State = .StateEditing ∧ m.Cursor ≥ 0 ∧ m.Cursor < goLen m.Tasks then do
      let t ← goIndex m.Tasks m.Cursor
      some ({ m with Loading := true },
        [Effect.updateTaskTitle t.ID (env.input.Value m.TitleInput)])
    else if m.State = .StateEditingNotes ∧ m.Cursor ≥ 0 ∧ m.Cursor < goLen m.Tasks then do
      let t ← goIndex m.Tasks m.Cursor
      some ({ m with Loading := true },
        [Effect.updateTaskNotes t.ID (env.input.Value m.NotesInput)])
    else some (m.updateActiveInput env msg)
  else some (m.updateActiveInput env msg)

/-- The page keys that go back ("left", "h", "pgup"). -/
def Model.pagePrev (m : Model TI) : Model TI :=
  if m.Page > 0 then
    let m := { m with Page := m.Page - 1 }
    { m with Cursor := m.PageStart }
  else m

/-- The page keys that go forward ("right", "l", "pgdown"). -/
def Model.pageNext (m : Model TI) : Option (Model TI) := do
  let totalPages ← m.TotalPages
  if m.Page < totalPages - 1 then
    let m := { m with Page := m.Page + 1 }
    some { m with Cursor := m.PageStart }
  else some m

/-- The handler `updateBrowse`. The call `styles.Update` of the theme key
writes the package-level styles, which are no part of the model; what is
kept of it is the indexing of `themes.All`. -/
def Model.updateBrowse (env : Env TI) (m : Model TI) (msg : String) :
    Option (Model TI × Cmd) :=
  if msg = "q" ∨ msg = "ctrl+c" then some (m, [Effect.quit])
  else if msg = "up" ∨ msg = "k" then
    if m.Cursor > 0 then do
      let m ← ({ m with Cursor := m.Cursor - 1 }).EnsureCursorVisible
      some (m, [])
    else some (m, [])
  else if msg = "down" ∨ msg = "j" then
    if m.Cursor < goLen m.Tasks - 1 then do
      let m ← ({ m with Cursor := m.Cursor + 1 }).EnsureCursorVisible
      some (m, [])
    else some (m, [])
  else if msg = "left" ∨ msg = "h" then some (m.pagePrev, [])
  else if msg = "right" ∨ msg = "l" then do
    let m ← m.pageNext
    some (m, [])
  else if msg = "pgup" then some (m.pagePrev, [])
  else if msg = "pgdown" then do
    let m ← m.pageNext
    some (m, [])
  else if msg = "tab" then
    let m := { m with ViewMode := m.ViewMode.next, Cursor := 0, Page := 0, Loading := true }
    some (m, [Effect.loadTasks m.ViewMode])
  else if msg = "t" then do
    let idx ← goMod (m.ThemeIndex + 1) (goLen themes.All)
    let _ ← goIndex themes.All idx
    some ({ m with ThemeIndex := idx }, [])
  else if msg = "s" then
    some (({ m with SortMode := m.SortMode.next }).ApplySort env, [])
  else if msg = "n" then
    some ({ m with State := .StateCreating,
                   TitleInput := env.input.Focus (env.input.SetValue m.TitleInput ""),
                   Cursor := 0, Page := 0 }, [Effect.blink])
  else if msg = "e" then
    if m.hasSelection = true then do
      let t ← goIndex m.Tasks m.Cursor
      let ti := env.input.Focus (env.input.SetValue m.TitleInput t.Title)
      let ti := env.input.SetCursor ti ((env.input.Value ti).utf8ByteSize : Int)
      some ({ m with State := .StateEditing, EditingTaskID := t.ID, TitleInput := ti },
        [Effect.blink])
    else some (m, [])
  else if msg = "E" then
    if m.hasSelection = true then do
      let t ← goIndex m.Tasks m.Cursor
      let notes := t.Notes.getD ""
      let ti := env.input.Focus (env.input.SetValue m.NotesInput notes)
      let ti := env.input.SetCursor ti ((env.input.Value ti).utf8ByteSize : Int)
      some ({ m with State := .StateEditingNotes, EditingTaskID := t.ID, NotesInput := ti },
        [Effect.blink])
    else some (m, [])
  else if msg = "v" then
    if m.hasSelection = true then do
      let t ← goIndex m.Tasks m.Cursor
      let tasks ← goSet m.Tasks m.Cursor { t with Expanded := !t.Expanded }
      some ({ m with Tasks := tasks }, [])
    else some (m, [])
  else if msg = "enter" then
    if m.hasSelection = true then
      some ({ m with SelectedTaskIdx := m.Cursor, State := .StateViewTask }, [])
    else some (m, [])
  else if msg = " " then
    if m.hasSelection = true then do
      let t ← goIndex m.Tasks m.Cursor
      let newStatus := if t.Status = "done" then "open" else "done"
      if newStatus = "done" then do
        let animType ← RandomAnimType env.animDraws m.LastAnim
        let t1 := { t with IsAnimatingCheck := true, AnimStart := env.now, AnimType := animType }
        let tasks ← goSet m.Tasks m.Cursor t1
        some ({ m with Tasks := tasks, LastAnim := animType },
          TickCmd ++ [Effect.updateTaskStatus t1.ID newStatus])
      else some (m, [Effect.updateTaskStatus t.ID newStatus])
    else some (m, [])
  else if msg = "d" then
    if m.hasSelection = true then
      some ({ m with SelectedTaskIdx := m.Cursor, State := .StateConfirmDelete }, [])
    else some (m, [])
  else if msg = "c" then
    if m.hasSelection = true then do
      let t ← goIndex m.Tasks m.Cursor
      some ({ m with SelectedTaskIdx := m.Cursor,
                     CategoryCursor := pickerCursor m.Categories t,
                     State := .StateCategorySelect }, [])
    else some (m, [])
  else if msg = "C" then
    some ({ m with State := .StateCategoryCreate,
                   CategoryInput := env.input.Focus (env.input.SetValue m.CategoryInput "") },
      [Effect.blink])
  else if msg = "b" then
    if m.hasSelection = true then do
      let t ← goIndex m.Tasks m.Cursor
      some (m, [Effect.breakdownTask t.ID])
    else some (m, [])
  else if msg = "?" then
    some ({ m with PreviousState := m.State, State := .StateHelp }, [])
  else if msg = "L" then
    some ({ m with Client := m.Client.Logout, State := .StateLogin, Tasks := [],
                   Categories := [], User := none,
                   EmailInput := env.input.Focus (env.input.SetValue m.EmailInput ""),
                   PasswordInput := env.input.SetValue m.PasswordInput "" }, [Effect.blink])
  else if msg = "r" ∨ msg = "R" then
    let m := { m with Loading := true }
    some (m, [Effect.loadTasks m.ViewMode, Effect.loadCategories])
  else some (m, [])

/-- The handler `updateCategorySelect`. -/
def Model.updateCategorySelect (env : Env TI) (m : Model TI) (msg : String) :
    Option (Model TI × Cmd) :=
  if msg = "esc" then some ({ m with State := .StateBrowse }, [])
  else if msg = "up" ∨ msg = "k" then
    if m.CategoryCursor > -1 then some ({ m with CategoryCursor := m.CategoryCursor - 1 }, [])
    else some (m, [])
  else if msg = "down" ∨ msg = "j" then
    if m.CategoryCursor < goLen m.Categories - 1 then
      some ({ m with CategoryCursor := m.CategoryCursor + 1 }, [])
    else some (m, [])
  else if msg = "enter" then
    if m.selectedInRange = true then do
      let categoryID ←
        if m.CategoryCursor ≥ 0 ∧ m.CategoryCursor < goLen m.Categories then
          (goIndex m.Categories m.CategoryCursor).map (fun cat => some cat.ID)
        else some none
      let t ← goIndex m.Tasks m.SelectedTaskIdx
      some ({ m with State := .StateBrowse }, [Effect.updateTaskCategory t.ID categoryID])
    else some (m, [])
  else if msg = "C" then
    some ({ m with State := .StateCategoryCreate,
                   CategoryInput := env.input.Focus (env.input.SetValue m.CategoryInput "") },
      [Effect.blink])
  else some (m, [])

/-- The handler `updateCategoryCreate`. -/
def Model.updateCategoryCreate (env : Env TI) (m : Model TI) (msg : String) :
    Option (Model TI × Cmd) :=
  if msg = "esc" then
    some ({ m with State := .StateBrowse, CategoryInput := env.input.Blur m.CategoryInput }, [])
  else if msg = "enter" then
    let name := env.input.Value m.CategoryInput
    if name = "" then some ({ m with ErrorMsg := "Category name is required" }, [])
    else do
      let color ← goIndex categoryColors env.colorDraw
      some ({ m with CategoryInput := env.input.Blur m.CategoryInput },
        [Effect.createCategory name color])
  else
    let r := env.input.Update m.CategoryInput msg
    some ({ m with CategoryInput := r.1 }, r.2)

/-- The handler `updateTaskDetail`. -/
def Model.updateTaskDetail (env : Env TI) (m : Model TI) (msg : String) :
    Option (Model TI × Cmd) :=
  if msg = "esc" ∨ msg = "q" then some ({ m with State := .StateBrowse }, [])
  else if msg = "e" then
    if m.selectedInRange = true then do
      let t ← goIndex m.Tasks m.SelectedTaskIdx
      some ({ m with State := .StateEditing, Cursor := m.SelectedTaskIdx, EditingTaskID := t.ID,
                     TitleInput := env.input.Focus (env.input.SetValue m.TitleInput t.Title) },
        [Effect.blink])
    else some (m, [])
  else if msg = " " then
    if m.selectedInRange = true then do
      let t ← goIndex m.Tasks m.SelectedTaskIdx
      let newStatus := if t.Status = "done" then "open" else "done"
      some (m, [Effect.updateTaskStatus t.ID newStatus])
    else some (m, [])
  else if msg = "c" then
    if m.selectedInRange = true then do
      let t ← goIndex m.Tasks m.SelectedTaskIdx
      some ({ m with CategoryCursor := pickerCursor m.Categories t,
                     State := .StateCategorySelect }, [])
    else some (m, [])
  else if msg = "b" then
    if m.selectedInRange = true then do
      let t ← goIndex m.Tasks m.SelectedTaskIdx
      some (m, [Effect.breakdownTask t.ID])
    else some (m, [])
  else some (m, [])

/-- The handler `updateConfirmDelete`. -/
def Model.updateConfirmDelete (env : Env TI) (m : Model TI) (msg : String) :
    Option (Model TI × Cmd) :=
  if msg = "y" ∨ msg = "Y" then
    if m.selectedInRange = true then do
      let t ← goIndex m.Tasks m.SelectedTaskIdx
      let tasks ← goSet m.Tasks m.SelectedTaskIdx
        { t with IsDeleting := true, AnimStart := env.now }
      some ({ m with Tasks := tasks, State := .StateBrowse }, TickCmd)
    else some (m, [])
  else if msg = "n" ∨ msg = "N" ∨ msg = "esc" then
    some ({ m with State := .StateBrowse }, [])
  else some (m, [])

/-- The handler `updateHelp`. -/
def Model.updateHelp (m : Model TI) (msg : String) : Option (Model TI × Cmd) :=
  if msg = "?" ∨ msg = "esc" ∨ msg = "q" then
    let m := { m with State := m.PreviousState }
    if m.State = .StateHelp then some ({ m with State := .StateBrowse }, [])
    else some (m, [])
  else some (m, [])

/-- The function `min` of update.go. -/
def min (a b : Int) : Int := if a < b then a else b

/-- The method `Update`: the next model and the effects to schedule. -/
def Model.Update (env : Env TI) (m : Model TI) (msg : Msg) : Option (Model TI × Cmd) :=
  match msg with
  | .WindowSizeMsg w h =>
    some ({ m with Width := w, Height := h,
                   TitleInput := env.input.SetWidth m.TitleInput (w - 20),
                   NotesInput := env.input.SetWidth m.NotesInput (w - 20),
                   EmailInput := env.input.SetWidth m.EmailInput (min 40 (w - 20)),
                   PasswordInput := env.input.SetWidth m.PasswordInput (min 40 (w - 20)) }, [])
  | .TasksLoadedMsg tasks err =>
    let m : Model TI := { m with Loading := false }
    let m : Model TI :=
      match err with
      | some e =>
        let m := { m with ErrorMsg := e.Error }
        match e with
        | .apiError code _ =>
          if api.IsUnauthorized code = true then
            { m with State := .StateLogin, Client := m.Client.ClearToken }
          else m
        | .other _ => m
      | none =>
        ({ m with ErrorMsg := "", Tasks := tasks.map Task.ofApi }).ApplySort env
    do
      let m ← m.ValidateCursor.EnsureCursorVisible
      some (m, [])
  | .CategoriesLoadedMsg cats err =>
    match err with
    | none => some ({ m with Categories := cats }, [])
    | some _ => some (m, [])
  | .TaskCreatedMsg task err =>
    let m : Model TI := { m with Loading := false }
    let m : Model TI :=
      match err, task with
      | some e, _ => { m with ErrorMsg := e.Error }
      | none, some t =>
        let m := { m with SuccessMsg := "Task created", Tasks := m.Tasks ++ [Task.ofApi t] }
        let m := m.ApplySort env
        ({ m with Cursor := goLen m.Tasks - 1 }).ValidateCursor
      | none, none => m
    some ({ m with State := .StateBrowse,
                   TitleInput := env.input.Blur m.TitleInput,
                   NotesInput := env.input.Blur m.NotesInput }, [])
  | .TaskUpdatedMsg task err =>
    let m : Model TI := { m with Loading := false }
    let m : Model TI :=
      match err, task with
      | some e, _ => { m with ErrorMsg := e.Error }
      | none, some u => ({ m with Tasks := mergeTask u m.Tasks }).ApplySort env
      | none, none => m
    if m.State = .StateEditing ∨ m.State = .StateEditingNotes then
      some ({ m with State := .StateBrowse,
                     TitleInput := env.input.Blur m.TitleInput,
                     NotesInput := env.input.Blur m.NotesInput }, [])
    else some (m, [])
  | .TaskDeletedMsg err =>
    let m : Model TI := { m with Loading := false }
    let m : Model TI :=
      match err with
      | some e => { m with ErrorMsg := e.Error }
      | none =>
        if m.selectedInRange = true then
          { m with Tasks := m.Tasks.eraseIdx m.SelectedTaskIdx.toNat }
        else m
    some (({ m with State := .StateBrowse }).ValidateCursor, [])
  | .LoginMsg err =>
    let m : Model TI := { m with Loading := false }
    match err with
    | some e => some ({ m with ErrorMsg := e.Error }, [])
    | none =>
      let m := { m with ErrorMsg := "", SuccessMsg := "Login successful", State := .StateBrowse }
      some (m, [Effect.loadTasks m.ViewMode, Effect.loadCategories])
  | .RegisterMsg err =>
    let m : Model TI := { m with Loading := false }
    match err with
    | some e => some ({ m with ErrorMsg := e.Error }, [])
    | none =>
      let m := { m with ErrorMsg := "", SuccessMsg := "Registration successful",
                        State := .StateBrowse }
      some (m, [Effect.loadTasks m.ViewMode, Effect.loadCategories])
  | .TickMsg =>
    let r := tickLoop env.now m.Tasks 0 m.SelectedTaskIdx [] false
    let cmds := if r.needsTick = true then r.cmds ++ TickCmd else r.cmds
    some ({ m with Tasks := r.Tasks, SelectedTaskIdx := r.SelectedTaskIdx }, cmds)
  | .KeyMsg key =>
    let m := { m with ErrorMsg := "", SuccessMsg := "" }
    match m.State with
    | .StateLogin => m.updateAuth env key
    | .StateRegister => m.updateAuth env key
    | .StateEditing => m.updateEditing env key
    | .StateCreating => m.updateEditing env key
    | .StateEditingNotes => m.updateEditing env key
    | .StateCreatingNotes => m.updateEditing env key
    | .StateCategorySelect => m.updateCategorySelect env key
    | .StateCategoryCreate => m.updateCategoryCreate env key
    | .StateViewTask => m.updateTaskDetail env key
    | .StateConfirmDelete => m.updateConfirmDelete env key
    | .StateHelp => m.updateHelp key
    | .StateBrowse => m.updateBrowse env key
  | .other => some (m, [])

end models

/-! ## What the properties are stated with -/

namespace models

variable {TI : Type}

/-- The cursor is a valid index: `0 ≤ Cursor ≤ len(Tasks) - 1`, or `0` when
there is no task. -/
def Model.CursorValid (m : Model TI) : Prop :=
  (m.Tasks = [] ∧ m.Cursor = 0) ∨ (0 ≤ m.Cursor ∧ m.Cursor ≤ goLen m.Tasks - 1)

/-- The cursor is a valid index whenever there is a task. -/
def Model.CursorInRange (m : Model TI) : Prop :=
  m.Tasks ≠ [] → 0 ≤ m.Cursor ∧ m.Cursor ≤ goLen m.Tasks - 1

/-- The page is valid: `TotalPages()` returns and `0 ≤ Page ≤ TotalPages() - 1`. -/
def Model.PageValid (m : Model TI) : Prop :=
  ∃ totalPages, m.TotalPages = some totalPages ∧ 0 ≤ m.Page ∧ m.Page ≤ totalPages - 1

/-- The model with its page set to `k`. -/
def Model.atPage (m : Model TI) (k : Int) : Model TI := { m with Page := k }

end models

namespace models

variable {TI : Type}

/-- What `sort.Slice` asks of `less` (the note on `sort.Interface.Less`): a
transitive ordering, in which "neither is less" is transitive too; and no
element is less than itself. -/
def StrictWeak {α : Type} (less : α → α → Bool) : Prop :=
  (∀ a, less a a = false) ∧
  (∀ a b c, less a b = true → less b c = true → less a c = true) ∧
  (∀ a b c, less a b = false → less b c = false → less a c = false)

/-- What `sort.Slice` promises: the slice afterwards is a rearrangement of
the slice before, and, for a `less` as `StrictWeak` wants it, no element is
less than one that stands before it. The order of elements of which neither
is less is not promised. -/
def SliceSorts {α : Type} (sortSlice : (α → α → Bool) → List α → List α) : Prop :=
  ∀ (less : α → α → Bool) (l : List α), (sortSlice less l).Perm l ∧
    (StrictWeak less → (sortSlice less l).Pairwise (fun a b => less b a = false))

/-- The order of `ApplySort` in due-date mode between a task and a later
one: the later one has no due date, or both have one and the later is not
due before the earlier. -/
def dueOrdered (a b : Task) : Prop :=
  b.DueAt = none ∨ ∃ x y, a.DueAt = some x ∧ b.DueAt = some y ∧ x ≤ y

/-- The order each mode asks for between a task and a later one. -/
def modeOrdered : SortMode → Task → Task → Prop
  | .SortPriority => fun a b => a.Priority ≥ b.Priority
  | .SortDueDate => dueOrdered
  | .SortAlphabetical => fun a b => a.Title ≤ b.Title
  | .SortCreated => fun a b => a.ID ≥ b.ID

/-- Tasks of equal priority stand in `after` in the order they have in
`before`: for each priority, the tasks of that priority are the same list. -/
def KeepsTies (before after : List Task) : Prop :=
  ∀ p : Int, after.filter (fun t => decide (t.Priority = p))
    = before.filter (fun t => decide (t.Priority = p))

/-- `sort.Slice` as the Go library runs it, on the task list. -/
def goSortSlice (less : Task → Task → Bool) (l : List Task) : List Task :=
  (sort.Slice less l).getD l

/-- A sort that keeps the contract of `sort.Slice`: merge sort by "not less
the other way round". -/
def mergeSortSlice (less : Task → Task → Bool) (l : List Task) : List Task :=
  l.mergeSort (fun a b => !less b a)

/-- A text input reduced to what the methods used here read and write: its
text, whether it has the focus, the position of its cursor (counted in
characters) and its width. -/
structure PlainInput where
  value : String
  focus : Bool
  pos : Int
  Width : Int
deriving DecidableEq, Repr

/-- The text `s` with the characters of `key` put in before position `pos`. -/
def PlainInput.insertAt (s : String) (pos : Int) (key : String) : String :=
  String.mk (s.data.take pos.toNat ++ key.data ++ s.data.drop pos.toNat)

/-- The text `s` without the character at position `pos`. -/
def PlainInput.removeAt (s : String) (pos : Int) : String :=
  if pos < 0 then s else String.mk (s.data.eraseIdx pos.toNat)

/-- A key typed into a `PlainInput`. An input without the focus drops it. A
key of one character is put in at the cursor and the cursor moves past it;
"backspace" removes the character before the cursor and "delete" the one at
it; "left", "right", "home" and "end" move the cursor within the text; any
other named key (such as "enter", "tab", "esc" or "ctrl+c") leaves the input
as it is. No effect is scheduled. -/
def PlainInput.Update (ti : PlainInput) (key : String) : PlainInput × Cmd :=
  if ti.focus = false then (ti, [])
  else if key.length = 1 then
    ({ ti with value := PlainInput.insertAt ti.value ti.pos key, pos := ti.pos + 1 }, [])
  else if key = "backspace" then
    if ti.pos > 0 then
      ({ ti with value := PlainInput.removeAt ti.value (ti.pos - 1), pos := ti.pos - 1 }, [])
    else (ti, [])
  else if key = "delete" then
    ({ ti with value := PlainInput.removeAt ti.value ti.pos }, [])
  else if key = "left" then
    if ti.pos > 0 then ({ ti with pos := ti.pos - 1 }, []) else (ti, [])
  else if key = "right" then
    if ti.pos < (ti.value.length : Int) then ({ ti with pos := ti.pos + 1 }, []) else (ti, [])
  else if key = "home" then ({ ti with pos := 0 }, [])
  else if key = "end" then ({ ti with pos := (ti.value.length : Int) }, [])
  else (ti, [])

/-- The operations on `PlainInput`. `SetValue` moves the cursor to the end of
the new text when the input was empty with the cursor at 0 or when the cursor
would lie past the new text; `SetCursor` keeps the cursor within the text. -/
def plainOps : TextInputOps PlainInput where
  Value := fun ti => ti.value
  SetValue := fun ti s =>
    if (ti.pos = 0 ∧ ti.value = "") ∨ ti.pos > (s.length : Int) then
      { ti with value := s, pos := (s.length : Int) }
    else { ti with value := s }
  Focus := fun ti => { ti with focus := true }
  Blur := fun ti => { ti with focus := false }
  SetCursor := fun ti p =>
    { ti with pos := if p < 0 then 0
                     else if p > (ti.value.length : Int) then (ti.value.length : Int) else p }
  SetWidth := fun ti w => { ti with Width := w }
  Update := PlainInput.Update

/-- An environment that sorts as the Go library does. -/
def goEnv (now : Time) : Env PlainInput :=
  { now := now, sortSlice := goSortSlice, animDraws := [3, 7], colorDraw := 2,
    input := plainOps }

/-- An environment that sorts by merge sort. -/
def mergeEnv (now : Time) : Env PlainInput :=
  { now := now, sortSlice := mergeSortSlice, animDraws := [3, 7], colorDraw := 2,
    input := plainOps }

/-- A task with the given id, title, priority and due date, open and with
every other field empty. -/
def sampleTask (id : Int) (title : String) (priority : Int) (due : Option Time) : Task :=
  Task.ofApi
    { ID := id, Title := title, Notes := none, Status := "open", DueAt := due,
      Priority := priority, EffortMin := 0, NotificationsEnabled := false,
      ScheduledStart := none, ScheduledEnd := none, AutoScheduled := false,
      PreferredTimeOfDay := none, CategoryID := none, Category := none, Subtasks := [],
      Tags := [], IsOwner := none, CanComplete := none, CanDelete := none, CanShare := none,
      SharedWith := [], OwnerEmail := none, CommentCount := 0 }

/-- An empty text input. -/
def emptyInput : PlainInput := { value := "", focus := false, pos := 0, Width := 40 }

/-- The model `NewModel` builds once a session is there (state Browse, sort
by creation, page size 10), holding the given tasks. -/
def sampleModel (tasks : List Task) : Model PlainInput :=
  { Client := { baseURL := "https://todo.blackraven.org/api", tokenPath := "token",
                credsPath := "credentials", token := "t", tokenFile := some "t",
                credsFile := none },
    State := .StateBrowse, PreviousState := .StateLogin, ViewMode := .ViewOpen,
    SortMode := .SortCreated, ThemeIndex := 0, LastAnim := 0, Tasks := tasks,
    Categories := [], User := none, Cursor := 0, CategoryCursor := 0, Width := 0,
    Height := 0, Page := 0, PageSize := 10, EmailInput := emptyInput,
    PasswordInput := emptyInput, TitleInput := emptyInput, NotesInput := emptyInput,
    CategoryInput := emptyInput, FocusedField := .FieldEmail, TempTitle := "",
    TempNotes := "", EditingTaskID := 0, SelectedTaskIdx := 0, ErrorMsg := "",
    SuccessMsg := "", Loading := false }

/-- Tasks numbered `i, i + 1, ...` with the given priorities. -/
def tasksOfPriorities : List Int → Int → List Task
  | [], _ => []
  | p :: ps, i => sampleTask i "" p none :: tasksOfPriorities ps (i + 1)

end models

namespace sort

variable {α : Type}

/-- Insertion into a sorted run held in reverse (its last element first):
`x` passes every element it is less than, and stops at the first it is not. -/
def insertBack (less : α → α → Bool) (x : α) : List α → List α
  | [] => [x]
  | y :: r => if less x y = true then y :: insertBack less x r else x :: y :: r

/-- Insertion sort as a function on lists: the elements are inserted, left
to right, into the run before them. -/
def insertionSorted (less : α → α → Bool) : List α → List α
  | [] => []
  | x :: rest => (rest.foldl (fun r y => insertBack less y r) [x]).reverse

end sort

namespace models

/-- The model of `sampleModel` in priority mode, with tasks numbered from 0
that have the given priorities. -/
def priorityModel (priorities : List Int) : Model PlainInput :=
  { sampleModel (tasksOfPriorities priorities 0) with SortMode := .SortPriority }

end models

namespace models

/-- The model of `sampleModel` in due-date mode with three tasks: task 0 has
no due date, task 1 is due at `later`, task 2 at `sooner`. -/
def dueModel (sooner later : Time) : Model PlainInput :=
  { sampleModel [sampleTask 0 "A" 0 none, sampleTask 1 "B" 0 (some later),
      sampleTask 2 "C" 0 (some sooner)] with SortMode := .SortDueDate }

end models

namespace models

/-- The deletion of a task is due at clock value `now`: the task is being
deleted and more than `DeleteAnimDuration` has passed since `AnimStart`. -/
def deleteDue (now : Time) (t : Task) : Bool :=
  t.IsDeleting && decide (Since now t.AnimStart > DeleteAnimDuration)

/-- A task after a tick at clock value `now`: a completion animation that
has run for more than `CheckAnimDuration` is over. -/
def settleCheck (now : Time) (t : Task) : Task :=
  if t.IsAnimatingCheck = true ∧ Since now t.AnimStart > CheckAnimDuration then
    { t with IsAnimatingCheck := false }
  else t

/-- The model of `sampleModel` with one task, task 7, that has been in its
deletion animation since `start`. -/
def deletingModel (start : Time) : Model PlainInput :=
  sampleModel [{ sampleTask 7 "A" 0 none with IsDeleting := true, AnimStart := start }]

/-- The model of `sampleModel` in the state ConfirmDelete with three tasks,
the second one chosen. -/
def confirmModel : Model PlainInput :=
  { sampleModel (tasksOfPriorities [3, 9, 1] 0) with
      State := .StateConfirmDelete, SelectedTaskIdx := 1, Cursor := 1 }

end models

namespace models

/-- The model of `sampleModel` with two tasks, task 8 and task 7, in their
deletion animation since `start` and `start + 5`. -/
def twoDeletingModel (start : Time) : Model PlainInput :=
  sampleModel [{ sampleTask 8 "B" 0 none with IsDeleting := true, AnimStart := start },
    { sampleTask 7 "A" 0 none with IsDeleting := true, AnimStart := start + 5 }]

end models

namespace models

variable {TI : Type}

/-- A handler returned, and the cursor is on a task whenever there is one. -/
def CursorOk (r : Option (Model TI × Cmd)) : Prop :=
  ∃ m' cmds, r = some (m', cmds) ∧ m'.CursorInRange

/-- A handler returned, with as many tasks as `m` has and the cursor of `m`. -/
def KeepsCursor (m : Model TI) (r : Option (Model TI × Cmd)) : Prop :=
  ∃ m' cmds, r = some (m', cmds) ∧ m'.Tasks.length = m.Tasks.length ∧ m'.Cursor = m.Cursor

/-- The model of `sampleModel` with one task and the page set to 5. -/
def strayPageModel : Model PlainInput :=
  { sampleModel (tasksOfPriorities [0] 0) with Page := 5 }

/-- The model of `sampleModel` with five tasks, in the category picker opened
on the last of them. -/
def pickerModel : Model PlainInput :=
  { sampleModel (tasksOfPriorities [0, 0, 0, 0, 0] 0) with
      SortMode := .SortPriority, State := .StateCategorySelect, Cursor := 4,
      SelectedTaskIdx := 4, CategoryCursor := -1 }

/-- The model of `sampleModel` with eleven tasks, on the second page with
the last task selected and chosen for deletion. -/
def lastPageModel : Model PlainInput :=
  { sampleModel (tasksOfPriorities (List.replicate 11 0) 0) with
      SortMode := .SortPriority, Page := 1, Cursor := 10, SelectedTaskIdx := 10 }

end models

namespace models

/-- The animation of a task has not run out at clock value `now`: the task is
in its completion animation and the time since `AnimStart` is not past
`CheckAnimDuration`, or it is in its deletion animation and that time is not
past `DeleteAnimDuration`. -/
def animPending (now : Time) (t : Task) : Bool :=
  (t.IsAnimatingCheck && decide (Since now t.AnimStart ≤ CheckAnimDuration)) ||
    (t.IsDeleting && decide (Since now t.AnimStart ≤ DeleteAnimDuration))

/-- The model of `sampleModel` with two tasks: task 8 in its completion
animation since `start`, task 7 with no animation. -/
def checkingModel (start : Time) : Model PlainInput :=
  sampleModel [{ sampleTask 8 "B" 0 none with IsAnimatingCheck := true, AnimStart := start },
    sampleTask 7 "A" 0 none]

end models
namespace models

/-- The model of `sampleModel` with tasks 3, 2 and 1 in creation order, task
2 expanded and in its completion animation. -/
def mergeModel : Model PlainInput :=
  sampleModel [sampleTask 3 "C" 0 none,
    { sampleTask 2 "B" 0 none with Expanded := true, IsAnimatingCheck := true, AnimType := 4,
                                   AnimStart := 9 },
    sampleTask 1 "A" 0 none]

end models
namespace models

/-- The model of `sampleModel` without tasks on the login form, with the
given texts in the email and password fields and an old status message. -/
def loginModel (email password : String) : Model PlainInput :=
  { sampleModel [] with
      State := .StateLogin,
      EmailInput := { emptyInput with value := email, focus := true,
                                      pos := (email.length : Int) },
      PasswordInput := { emptyInput with value := password, pos := (password.length : Int) },
      SuccessMsg := "Registration successful" }

end models
namespace models

/-- The model of `sampleModel` with tasks 3, 2 and 1, task 1 done, the cursor
on task 2 and kind 3 as the last completion animation. -/
def toggleModel : Model PlainInput :=
  { sampleModel [sampleTask 3 "C" 0 none, sampleTask 2 "B" 0 none,
        { sampleTask 1 "A" 0 none with Status := "done" }] with
      Cursor := 1, LastAnim := 3 }

end models
namespace api

/-- The test `apiErr, ok := err.(*api.APIError); ok && apiErr.IsUnauthorized()`
of the `TasksLoadedMsg` case: the error is an API error, and an unauthorized
one. -/
def GoError.isUnauthorized : GoError → Bool
  | .apiError code _ => IsUnauthorized code
  | .other _ => false

end api

namespace models

/-- The model of `sampleModel` with three tasks, on the help screen, while a
task list is being loaded. -/
def helpModel : Model PlainInput :=
  { sampleModel (tasksOfPriorities [3, 9, 1] 0) with
      State := .StateHelp, PreviousState := .StateBrowse, Loading := true }

end models
namespace models

/-- The error field of a completion event other than `CategoriesLoadedMsg`
(`none` inside for a `nil` error); `none` for every other message. -/
def Msg.resultErr : Msg → Option (Option api.GoError)
  | .TasksLoadedMsg _ err => some err
  | .TaskCreatedMsg _ err => some err
  | .TaskUpdatedMsg _ err => some err
  | .TaskDeletedMsg err => some err
  | .LoginMsg err => some err
  | .RegisterMsg err => some err
  | _ => none

end models
namespace models

variable {TI : Type}

/-- Every result of a handler call satisfies `Q`: if the call returns a
model, `Q` holds of it. -/
def Holds (Q : Model TI → Prop) (r : Option (Model TI × Cmd)) : Prop :=
  ∀ (m' : Model TI) (cmds : Cmd), r = some (m', cmds) → Q m'

/-- A handler call returns. -/
def Returns (r : Option (Model TI × Cmd)) : Prop :=
  ∃ (m' : Model TI) (cmds : Cmd), r = some (m', cmds)

/-- Both status messages are empty. -/
def Model.NoStatus (m : Model TI) : Prop := m.SuccessMsg = "" ∧ m.ErrorMsg = ""

/-- The model of `sampleModel` in the dialog for a new category, the name
still empty and its input focused, with both status messages set. -/
def categoryCreateModel : Model PlainInput :=
  { sampleModel (tasksOfPriorities [3, 9, 1] 0) with
      State := .StateCategoryCreate, CategoryInput := { emptyInput with focus := true },
      ErrorMsg := "API error 500: down", SuccessMsg := "Task created" }

end models
namespace models

variable {TI : Type}

/-- At most one of the two status messages is non-empty. -/
def Model.AtMostOneStatus (m : Model TI) : Prop := m.ErrorMsg = "" ∨ m.SuccessMsg = ""

/-- The model after the messages of `steps`, each handled by `Update` in the
environment it comes with (the effects are dropped); `none` when a call does
not return. -/
def Model.run : List (Env TI × Msg) → Model TI → Option (Model TI)
  | [], m => some m
  | step :: rest, m => (m.Update step.1 step.2).bind (fun r => Model.run rest r.1)

/-- Whether `Update` arms a completion animation when it handles `msg` in
`m`: the message is the key " ", the state is Browse, and the cursor selects
a task that is not done. -/
def Model.armsCheck (m : Model TI) (msg : Msg) : Bool :=
  match msg with
  | .KeyMsg key =>
    decide (key = " " ∧ m.State = .StateBrowse) && m.hasSelection &&
      (match goIndex m.Tasks m.Cursor with
        | some t => decide (t.Status ≠ "done")
        | none => false)
  | _ => false

/-- The kinds of the completion animations armed along a run, in the order
of arming: for every message of `steps` that arms one, the `AnimType` of the
task at the cursor in the model `Update` returns. `none` when a call does not
return. -/
def Model.armedKinds : List (Env TI × Msg) → Model TI → Option (List Int)
  | [], _ => some []
  | step :: rest, m =>
    (m.Update step.1 step.2).bind (fun r =>
      if m.armsCheck step.2 = true then
        (goIndex r.1.Tasks m.Cursor).bind (fun t =>
          (Model.armedKinds rest r.1).map (fun kinds => t.AnimType :: kinds))
      else Model.armedKinds rest r.1)

/-- The message meets a status message it does not clear: it is a completion
event with an error (which sets `ErrorMsg`) while `SuccessMsg` is not empty,
or a `TaskCreatedMsg` with a task and no error (which sets `SuccessMsg`)
while `ErrorMsg` is not empty. -/
def Model.collides (m : Model TI) (msg : Msg) : Bool :=
  (match msg.resultErr with
    | some (some _) => m.SuccessMsg != ""
    | _ => false) ||
  (match msg with
    | .TaskCreatedMsg (some _) none => m.ErrorMsg != ""
    | _ => false)

/-- No message of `steps` collides with the model it is handled in. -/
def Model.calm : List (Env TI × Msg) → Model TI → Bool
  | [], _ => true
  | step :: rest, m =>
    !m.collides step.2 &&
      (match m.Update step.1 step.2 with
        | none => true
        | some r => Model.calm rest r.1)

/-- The message line of `viewAuth`, before styling: the error message when
there is one, else the success message; `""` for no line. -/
def Model.authStatusLine (m : Model TI) : String :=
  if m.ErrorMsg ≠ "" then m.ErrorMsg
  else if m.SuccessMsg ≠ "" then m.SuccessMsg
  else ""

/-- The model `NewModel` builds without a session: the login form with the
email field focused, no task and no status message. -/
def startModel : Model PlainInput :=
  { sampleModel [] with State := .StateLogin, EmailInput := { emptyInput with focus := true } }

end models

namespace themes

/-- The function `GetTheme(index)`; a panic is `none`. -/
def GetTheme (index : Int) : Option Theme :=
  if goLen All = 0 then goIndex All 0
  else do
    let i ← goMod index (goLen All)
    goIndex All i

end themes

namespace api

/-- The record `api.TaskCreateRequest`; a `nil` pointer is `none`. -/
structure TaskCreateRequest where
  Title : String
  Notes : Option String
  DueAt : Option Time
  Priority : Option Int
  EffortMin : Option Int
  CategoryID : Option Int
  GenerateSubtasks : Option Bool
deriving DecidableEq, Repr

end api

namespace models

/-- The request the effect `createTask(title, notes)` hands to the client:
the notes are set only when they are not empty. -/
def createTaskRequest (title notes : String) : api.TaskCreateRequest :=
  let req : api.TaskCreateRequest :=
    { Title := title, Notes := none, DueAt := none, Priority := none, EffortMin := none,
      CategoryID := none, GenerateSubtasks := none }
  if notes ≠ "" then { req with Notes := some notes } else req

/-- The model of `sampleModel` with three tasks while the notes of a new task
are typed: the title "Buy milk" is stored, the notes read "2 litres". -/
def creatingNotesModel : Model PlainInput :=
  { sampleModel (tasksOfPriorities [3, 9, 1] 0) with
      State := .StateCreatingNotes, TempTitle := "Buy milk",
      NotesInput := { emptyInput with value := "2 litres", focus := true, pos := 8 } }

/-- A category with the given id and name. -/
def sampleCategory (id : Int) (name : String) : api.Category :=
  { ID := id, Name := name, Color := "#FF6B6B", CreatedAt := 0 }

/-- The model of `sampleModel` with the categories 5, 9 and 9 again, and two
tasks: task 1 of category 9, on which the cursor is, and task 0 of no
category. -/
def categoryModel : Model PlainInput :=
  { sampleModel [sampleTask 0 "A" 0 none,
        { sampleTask 1 "B" 0 none with CategoryID := some 9 }] with
      Categories := [sampleCategory 5 "Home", sampleCategory 9 "Work", sampleCategory 9 "Job"],
      Cursor := 1 }

/-- The model of `sampleModel` with three tasks, in the detail view of the
second one. -/
def detailModel : Model PlainInput :=
  { sampleModel (tasksOfPriorities [3, 9, 1] 0) with
      State := .StateViewTask, SelectedTaskIdx := 1, Cursor := 1 }

end models

namespace models

/-- The model of `sampleModel` with three tasks while the title of the second
one is edited, the text "B" typed so far. -/
def editingModel : Model PlainInput :=
  { sampleModel (tasksOfPriorities [3, 9, 1] 0) with
      State := .StateEditing, Cursor := 1, EditingTaskID := 1,
      TitleInput := { emptyInput with value := "B", focus := true, pos := 1 } }

end models

namespace models

/-- The model of `sampleModel` with two tasks: task 7 in its deletion
animation since 0, task 8 in its completion animation since 100 ms. -/
def deleteCheckModel : Model PlainInput :=
  sampleModel [{ sampleTask 7 "A" 0 none with IsDeleting := true, AnimStart := 0 },
    { sampleTask 8 "B" 0 none with IsAnimatingCheck := true, AnimStart := 100000000 }]

/-- The model of `sampleModel` with the tasks 3, 2 and 1 in creation order,
the cursor on task 2. -/
def browseModel : Model PlainInput :=
  { sampleModel [sampleTask 3 "C" 0 none, sampleTask 2 "B" 0 none, sampleTask 1 "A" 0 none] with
      Cursor := 1 }

end models

namespace models

/-- A task as the service returns it, with the given id and title. -/
def sampleApiTask (id : Int) (title : String) : api.Task := (sampleTask id title 0 none).toTask

end models

namespace models

/-- The model of `sampleModel` with the twelve tasks 12, 11, ..., 1 in
creation order, on the first page. -/
def twelveModel : Model PlainInput :=
  sampleModel ((List.range 12).map (fun i => sampleTask (12 - (i : Int)) "" 0 none))

end models

/-! ## Properties -/

namespace models

variable {TI : Type}

theorem goLen_nonneg {α : Type} (xs : List α) : 0 ≤ goLen xs := by
  unfold goLen; omega

theorem goLen_eq_zero_iff {α : Type} (xs : List α) : goLen xs = 0 ↔ xs = [] := by
  unfold goLen
  constructor
  · intro h
    have : xs.length = 0 := by omega
    exact List.length_eq_zero.mp this
  · intro h; subst h; rfl

/-- With a positive page size and a task, `TotalPages` is the quotient
rounded up. -/
theorem TotalPages_pos_size (m : Model TI) (hs : 0 < m.PageSize) (hne : goLen m.Tasks ≠ 0) :
    m.TotalPages = some (if goLen m.Tasks % m.PageSize ≠ 0
      then goLen m.Tasks / m.PageSize + 1 else goLen m.Tasks / m.PageSize) := by
  have hn := goLen_nonneg m.Tasks
  have hs0 : m.PageSize ≠ 0 := by omega
  unfold Model.TotalPages goDiv goMod
  rw [if_neg hne, if_neg hs0, if_neg hs0]
  simp only [Option.bind_eq_bind, Option.some_bind]
  rw [Int.tdiv_eq_ediv hn (le_of_lt hs), Int.tmod_eq_emod hn (le_of_lt hs)]
  split <;> rfl

theorem TotalPages_nil (m : Model TI) (h : m.Tasks = []) : m.TotalPages = some 1 := by
  unfold Model.TotalPages
  rw [if_pos ((goLen_eq_zero_iff _).mpr h)]

/-- With a positive page size and a task, `TotalPages` returns the least `p`
with `p * PageSize ≥ len(Tasks)`. -/
theorem TotalPages_least (m : Model TI) (hs : 0 < m.PageSize) (hne : m.Tasks ≠ []) :
    ∃ p : Int, m.TotalPages = some p ∧ 1 ≤ p ∧ goLen m.Tasks ≤ p * m.PageSize ∧
      ∀ q : Int, goLen m.Tasks ≤ q * m.PageSize → p ≤ q := by
  have hne : goLen m.Tasks ≠ 0 := fun h => hne ((goLen_eq_zero_iff _).mp h)
  have hn := goLen_nonneg m.Tasks
  have hpos : 0 < goLen m.Tasks := lt_of_le_of_ne hn (Ne.symm hne)
  have hdm := Int.emod_add_ediv (goLen m.Tasks) m.PageSize
  have hr0 := Int.emod_nonneg (goLen m.Tasks) (ne_of_gt hs)
  have hr1 := Int.emod_lt_of_pos (goLen m.Tasks) hs
  have hd0 : 0 ≤ goLen m.Tasks / m.PageSize := Int.ediv_nonneg hn (le_of_lt hs)
  refine ⟨_, TotalPages_pos_size m hs hne, ?_, ?_, ?_⟩
  · split
    · omega
    · rename_i h0
      have h0 : goLen m.Tasks % m.PageSize = 0 := not_not.mp h0
      by_contra hlt
      have : goLen m.Tasks / m.PageSize = 0 := by omega
      rw [this, h0] at hdm
      simp at hdm
      omega
  · split
    · nlinarith
    · rename_i h0
      have h0 : goLen m.Tasks % m.PageSize = 0 := not_not.mp h0
      rw [h0] at hdm
      nlinarith
  · intro q hq
    split
    · rename_i h0
      by_contra hlt
      have hq' : q ≤ goLen m.Tasks / m.PageSize := by omega
      have : q * m.PageSize ≤ goLen m.Tasks / m.PageSize * m.PageSize :=
        Int.mul_le_mul_of_nonneg_right hq' (le_of_lt hs)
      have hr : 0 < goLen m.Tasks % m.PageSize := lt_of_le_of_ne hr0 (Ne.symm h0)
      nlinarith
    · rename_i h0
      have h0 : goLen m.Tasks % m.PageSize = 0 := not_not.mp h0
      rw [h0] at hdm
      by_contra hlt
      have hq' : q + 1 ≤ goLen m.Tasks / m.PageSize := by omega
      have : (q + 1) * m.PageSize ≤ goLen m.Tasks / m.PageSize * m.PageSize :=
        Int.mul_le_mul_of_nonneg_right hq' (le_of_lt hs)
      nlinarith

/-- With a positive page size `TotalPages` returns, at least 1, and enough
pages for the tasks. -/
theorem TotalPages_returns (m : Model TI) (hs : 0 < m.PageSize) :
    ∃ p : Int, m.TotalPages = some p ∧ 1 ≤ p ∧
      (m.Tasks ≠ [] → goLen m.Tasks ≤ p * m.PageSize ∧
        ∀ q : Int, goLen m.Tasks ≤ q * m.PageSize → p ≤ q) := by
  by_cases hnil : m.Tasks = []
  · exact ⟨1, TotalPages_nil m hnil, le_refl _, fun h => absurd hnil h⟩
  · obtain ⟨p, h1, h2, h3⟩ := TotalPages_least m hs hnil
    exact ⟨p, h1, h2, fun _ => h3⟩

/-- Claim C3. With a positive page size `TotalPages()` returns a number that
is at least 1; it is 1 when there is no task, and otherwise it is the least
`p` with `p * PageSize ≥ len(Tasks)`, the quotient rounded up. -/
theorem TotalPages_ceil (m : Model TI) (hs : 0 < m.PageSize) :
    ∃ p : Int, m.TotalPages = some p ∧ 1 ≤ p ∧ (m.Tasks = [] → p = 1) ∧
      (m.Tasks ≠ [] → goLen m.Tasks ≤ p * m.PageSize ∧
        (∀ q : Int, goLen m.Tasks ≤ q * m.PageSize → p ≤ q) ∧
        p = (if goLen m.Tasks % m.PageSize ≠ 0 then goLen m.Tasks / m.PageSize + 1
              else goLen m.Tasks / m.PageSize)) := by
  by_cases hnil : m.Tasks = []
  · refine ⟨1, TotalPages_nil m hnil, le_refl _, fun _ => rfl, fun h => absurd hnil h⟩
  · obtain ⟨p, h1, h2, h3, h4⟩ := TotalPages_least m hs hnil
    refine ⟨p, h1, h2, fun h => absurd h hnil, fun _ => ⟨h3, h4, ?_⟩⟩
    have hne : goLen m.Tasks ≠ 0 := fun h => hnil ((goLen_eq_zero_iff _).mp h)
    have h5 := TotalPages_pos_size m hs hne
    rw [h1] at h5
    exact Option.some.inj h5

end models

namespace models
variable {TI : Type}

/-- With a positive page size and a page that is not negative, `PageTasks`
returns the window of `PageSize` tasks that starts at `Page * PageSize`. -/
theorem PageTasks_eq (m : Model TI) (hs : 0 < m.PageSize) (hp : 0 ≤ m.Page) :
    m.PageTasks = some ((m.Tasks.drop (m.Page * m.PageSize).toNat).take m.PageSize.toNat) := by
  have hstart : 0 ≤ m.Page * m.PageSize := Int.mul_nonneg hp (le_of_lt hs)
  unfold Model.PageTasks
  by_cases h0 : goLen m.Tasks = 0
  · rw [if_pos h0]
    have := (goLen_eq_zero_iff _).mp h0
    simp [this]
  · rw [if_neg h0]
    simp only [Model.PageStart]
    by_cases h1 : m.Page * m.PageSize ≥ goLen m.Tasks
    · rw [if_pos h1]
      have : m.Tasks.length ≤ (m.Page * m.PageSize).toNat := by
        unfold goLen at h1; omega
      rw [List.drop_of_length_le this]; simp
    · rw [if_neg h1]
      unfold Model.PageEnd goSlice
      simp only []
      have hlen : ((m.Tasks.length : Int)) = goLen m.Tasks := rfl
      by_cases h2 : (m.Page + 1) * m.PageSize > goLen m.Tasks
      · rw [if_pos h2, if_pos (by rw [hlen]; omega)]
        congr 1
        have e1 : (goLen m.Tasks).toNat - (m.Page * m.PageSize).toNat
            = (m.Tasks.drop (m.Page * m.PageSize).toNat).length := by
          rw [List.length_drop]; unfold goLen; omega
        rw [e1, List.take_length]
        symm
        apply List.take_of_length_le
        rw [List.length_drop]
        have : (m.Page + 1) * m.PageSize = m.Page * m.PageSize + m.PageSize := by ring
        unfold goLen at h2 h1
        omega
      · have hexp : (m.Page + 1) * m.PageSize = m.Page * m.PageSize + m.PageSize := by ring
        rw [if_neg h2, if_pos (by rw [hlen]; refine ⟨hstart, ?_, ?_⟩ <;> omega)]
        congr 2
        omega

theorem flatten_windows {α : Type} (l : List α) (s n : Nat) :
    ((List.range n).map (fun k => (l.drop (k * s)).take s)).flatten = l.take (n * s) := by
  induction n with
  | zero => simp
  | succ n ih =>
    rw [List.range_succ, List.map_append, List.flatten_append, ih]
    simp only [List.map_cons, List.map_nil, List.flatten_cons, List.flatten_nil, List.append_nil]
    rw [Nat.succ_mul, List.take_add]

end models

namespace models
variable {TI : Type}

theorem toNat_mul_natCast (k : Nat) (s : Int) (hs : 0 ≤ s) :
    ((k : Int) * s).toNat = k * s.toNat := by
  have h : (k : Int) * s = ((k * s.toNat : Nat) : Int) := by
    rw [Nat.cast_mul, Int.toNat_of_nonneg hs]
  rw [h]
  exact Int.toNat_natCast _

/-- An integer in the range of `int` is the value the `int` holds. -/
theorem goInt_of_range (x : Int) (h0 : -(2 ^ 63) ≤ x) (h1 : x ≤ maxInt) : goInt x = x := by
  unfold goInt
  unfold maxInt at h1
  omega

/-- While `(Page + 1) * PageSize` fits in an `int`, the 64-bit `PageStart` is
the product over the integers. -/
theorem wrap64_PageStart (m : Model TI) (hs : 0 < m.PageSize) (hp : 0 ≤ m.Page)
    (hb : (m.Page + 1) * m.PageSize ≤ maxInt) : Wrap64.PageStart m = m.PageStart := by
  have hstart : 0 ≤ m.Page * m.PageSize := Int.mul_nonneg hp (le_of_lt hs)
  have hexp : (m.Page + 1) * m.PageSize = m.Page * m.PageSize + m.PageSize := by ring
  unfold Wrap64.PageStart Model.PageStart
  exact goInt_of_range _ (by omega) (by omega)

/-- While `(Page + 1) * PageSize` fits in an `int`, the 64-bit `PageEnd` is
the one over the integers. -/
theorem wrap64_PageEnd (m : Model TI) (hs : 0 < m.PageSize) (hp : 0 ≤ m.Page)
    (hb : (m.Page + 1) * m.PageSize ≤ maxInt) : Wrap64.PageEnd m = m.PageEnd := by
  have hstart : 0 ≤ m.Page * m.PageSize := Int.mul_nonneg hp (le_of_lt hs)
  have hexp : (m.Page + 1) * m.PageSize = m.Page * m.PageSize + m.PageSize := by ring
  have h1 : goInt (m.Page + 1) = m.Page + 1 := by
    apply goInt_of_range
    · omega
    · have : m.Page + 1 ≤ (m.Page + 1) * m.PageSize := by nlinarith
      omega
  have h2 : goInt ((m.Page + 1) * m.PageSize) = (m.Page + 1) * m.PageSize :=
    goInt_of_range _ (by omega) hb
  unfold Wrap64.PageEnd Model.PageEnd
  rw [h1, h2]

/-- While `(Page + 1) * PageSize` fits in an `int`, the 64-bit `PageTasks` is
the one over the integers. -/
theorem wrap64_PageTasks (m : Model TI) (hs : 0 < m.PageSize) (hp : 0 ≤ m.Page)
    (hb : (m.Page + 1) * m.PageSize ≤ maxInt) : Wrap64.PageTasks m = m.PageTasks := by
  unfold Wrap64.PageTasks Model.PageTasks
  rw [wrap64_PageStart m hs hp hb, wrap64_PageEnd m hs hp hb]

/-- Claim C4, for pages whose bounds fit in an `int`. With a positive page
size, a page that is not negative and `(Page + 1) * PageSize` at most the
largest `int`, `PageTasks()` returns the tasks at the indices from
`Page * PageSize` up to, not including, the smaller of `(Page + 1) * PageSize`
and `len(Tasks)`: none when the page starts past the end, never more than
`PageSize`. With `len(Tasks) + PageSize` at most the largest `int`, the pages
`0 .. TotalPages() - 1`, one after the other, are the task list. The products
are taken as the 64-bit `int` holds them. -/
theorem PageTasks_partition (m : Model TI) (hs : 0 < m.PageSize) (hp : 0 ≤ m.Page) :
    ((m.Page + 1) * m.PageSize ≤ maxInt →
      Wrap64.PageStart m = m.Page * m.PageSize ∧
      Wrap64.PageEnd m = min ((m.Page + 1) * m.PageSize) (goLen m.Tasks) ∧
      ∃ l, Wrap64.PageTasks m = some l ∧
        l.length = (min ((m.Page + 1) * m.PageSize) (goLen m.Tasks)
          - m.Page * m.PageSize).toNat ∧
        (∀ i : Nat, i < l.length → l[i]? = m.Tasks[(m.Page * m.PageSize).toNat + i]?) ∧
        (goLen m.Tasks ≤ m.Page * m.PageSize → l = []) ∧
        goLen l ≤ m.PageSize) ∧
    (goLen m.Tasks + m.PageSize ≤ maxInt →
      ∃ (totalPages : Int) (pages : List (List Task)), m.TotalPages = some totalPages ∧
        pages.length = totalPages.toNat ∧
        (∀ k : Nat, k < totalPages.toNat → Wrap64.PageTasks (m.atPage k) = pages[k]?) ∧
        pages.flatten = m.Tasks) := by
  have hstart : 0 ≤ m.Page * m.PageSize := Int.mul_nonneg hp (le_of_lt hs)
  have hexp : (m.Page + 1) * m.PageSize = m.Page * m.PageSize + m.PageSize := by ring
  constructor
  · intro hb
    refine ⟨wrap64_PageStart m hs hp hb, ?_,
      (m.Tasks.drop (m.Page * m.PageSize).toNat).take m.PageSize.toNat, ?_, ?_, ?_, ?_, ?_⟩
    · rw [wrap64_PageEnd m hs hp hb]
      unfold Model.PageEnd
      simp only []
      unfold min
      split <;> split <;> omega
    · rw [wrap64_PageTasks m hs hp hb]
      exact PageTasks_eq m hs hp
    · rw [List.length_take, List.length_drop]
      unfold min goLen
      split <;> omega
    · intro i hi
      rw [List.length_take] at hi
      rw [List.getElem?_take_of_lt (by omega), List.getElem?_drop]
    · intro h
      have : m.Tasks.length ≤ (m.Page * m.PageSize).toNat := by
        unfold goLen at h; omega
      rw [List.drop_of_length_le this]; simp
    · unfold goLen
      rw [List.length_take]
      omega
  · intro hl
    obtain ⟨p, hp1, hp2, hp4⟩ := TotalPages_returns m hs
    refine ⟨p, (List.range p.toNat).map
      (fun k => (m.Tasks.drop (k * m.PageSize.toNat)).take m.PageSize.toNat), hp1, by simp, ?_, ?_⟩
    · intro k hk
      have hk0 : (0 : Int) ≤ (m.atPage k).Page := by simp [Model.atPage]
      have hkb : ((m.atPage k).Page + 1) * (m.atPage k).PageSize ≤ maxInt := by
        show ((k : Int) + 1) * m.PageSize ≤ maxInt
        have hkp : (k : Int) + 1 ≤ p := by omega
        by_cases hne : m.Tasks = []
        · have hp1n : p = 1 := by
            have := TotalPages_nil m hne
            rw [this] at hp1
            exact (Option.some.inj hp1).symm
          have hk1 : (k : Int) + 1 = 1 := by omega
          rw [hk1, one_mul]
          have : 0 ≤ goLen m.Tasks := by unfold goLen; omega
          omega
        · have hleast := (hp4 hne).2 (p - 1)
          have hlt : (p - 1) * m.PageSize < goLen m.Tasks := by
            by_contra hc
            have := hleast (not_lt.mp hc)
            omega
          have hmul : ((k : Int) + 1) * m.PageSize ≤ p * m.PageSize :=
            Int.mul_le_mul_of_nonneg_right hkp (le_of_lt hs)
          have hpe : p * m.PageSize = (p - 1) * m.PageSize + m.PageSize := by ring
          omega
      rw [wrap64_PageTasks (m.atPage k) hs hk0 hkb]
      have := PageTasks_eq (m.atPage k) hs hk0
      rw [this]
      simp only [Model.atPage]
      rw [toNat_mul_natCast k _ (le_of_lt hs)]
      rw [List.getElem?_map, List.getElem?_range hk]
      rfl
    · rw [flatten_windows]
      apply List.take_of_length_le
      by_cases hne : m.Tasks = []
      · simp [hne]
      · have h := (hp4 hne).1
        unfold goLen at h
        have e : (p.toNat : Int) = p := Int.toNat_of_nonneg (by omega)
        have e2 : (m.PageSize.toNat : Int) = m.PageSize := Int.toNat_of_nonneg (le_of_lt hs)
        have : (m.Tasks.length : Int) ≤ ((p.toNat * m.PageSize.toNat : Nat) : Int) := by
          rw [Nat.cast_mul, e, e2]; exact h
        exact_mod_cast this

end models

namespace models
variable {TI : Type}

theorem TotalPages_congr (m m' : Model TI) (ht : m'.Tasks = m.Tasks)
    (hs : m'.PageSize = m.PageSize) : m'.TotalPages = m.TotalPages := by
  unfold Model.TotalPages; rw [ht, hs]

/-- A page that is valid already is left alone by `ValidatePage`. -/
theorem ValidatePage_of_valid (m : Model TI) (tp : Int) (h : m.TotalPages = some tp)
    (h0 : 0 ≤ m.Page) (h1 : m.Page ≤ tp - 1) : m.ValidatePage = some m := by
  unfold Model.ValidatePage
  rw [h]
  have a : ¬ m.Page < 0 := by omega
  have b : ¬ m.Page ≥ tp := by omega
  simp only [Option.bind_eq_bind, Option.some_bind, if_neg a, if_neg b]

/-- With a positive page size and a cursor on a task, `EnsureCursorVisible`
sets the page to `Cursor / PageSize` and changes nothing else. -/
theorem EnsureCursorVisible_eq (m : Model TI) (hs : 0 < m.PageSize)
    (hc : 0 ≤ m.Cursor) (hlt : m.Cursor < goLen m.Tasks) :
    m.EnsureCursorVisible = some { m with Page := m.Cursor / m.PageSize } ∧
      ∃ tp, m.TotalPages = some tp ∧ 0 ≤ m.Cursor / m.PageSize ∧
        m.Cursor / m.PageSize ≤ tp - 1 := by
  have hne : goLen m.Tasks ≠ 0 := by omega
  have hne' : m.Tasks ≠ [] := fun h => hne ((goLen_eq_zero_iff _).mpr h)
  obtain ⟨tp, htp, _, h4⟩ := TotalPages_returns m hs
  have hq0 : 0 ≤ m.Cursor / m.PageSize := Int.ediv_nonneg hc (le_of_lt hs)
  have hdm := Int.emod_add_ediv m.Cursor m.PageSize
  have hr0 := Int.emod_nonneg m.Cursor (ne_of_gt hs)
  have hq1 : m.Cursor / m.PageSize ≤ tp - 1 := by
    by_contra hcon
    have h5 : tp ≤ m.Cursor / m.PageSize := by omega
    have h6 : tp * m.PageSize ≤ m.Cursor / m.PageSize * m.PageSize :=
      Int.mul_le_mul_of_nonneg_right h5 (le_of_lt hs)
    have := (h4 hne').1
    nlinarith
  refine ⟨?_, tp, htp, hq0, hq1⟩
  unfold Model.EnsureCursorVisible goDiv
  rw [if_neg hne, if_neg (by omega)]
  simp only [Option.bind_eq_bind, Option.some_bind]
  rw [Int.tdiv_eq_ediv hc (le_of_lt hs)]
  exact ValidatePage_of_valid _ tp (by rw [← htp]; exact TotalPages_congr _ _ rfl rfl) hq0 hq1

/-- Claim C5. With a positive page size and a cursor on a task,
`EnsureCursorVisible()` returns a model, with the same tasks and cursor, whose
page holds the cursor: `CursorInPage() + PageStart() = Cursor`,
`0 ≤ CursorInPage() < len(PageTasks())`, the task of `PageTasks()` at
`CursorInPage()` is `Tasks[Cursor]`, and `0 ≤ Page ≤ TotalPages() - 1`. -/
theorem EnsureCursorVisible_shows_cursor (m : Model TI) (hs : 0 < m.PageSize)
    (hc : 0 ≤ m.Cursor) (hlt : m.Cursor < goLen m.Tasks) :
    ∃ m' : Model TI, m.EnsureCursorVisible = some m' ∧
      m'.Tasks = m.Tasks ∧ m'.Cursor = m.Cursor ∧
      m'.CursorInPage + m'.PageStart = m'.Cursor ∧
      (∃ l t, m'.PageTasks = some l ∧ 0 ≤ m'.CursorInPage ∧ m'.CursorInPage < goLen l ∧
        goIndex l m'.CursorInPage = some t ∧ goIndex m'.Tasks m'.Cursor = some t) ∧
      (∃ tp, m'.TotalPages = some tp ∧ 0 ≤ m'.Page ∧ m'.Page ≤ tp - 1) := by
  obtain ⟨he, tp, htp, hq0, hq1⟩ := EnsureCursorVisible_eq m hs hc hlt
  have hdm := Int.emod_add_ediv m.Cursor m.PageSize
  have hr0 := Int.emod_nonneg m.Cursor (ne_of_gt hs)
  have hr1 := Int.emod_lt_of_pos m.Cursor hs
  have hmul : m.Cursor / m.PageSize * m.PageSize = m.PageSize * (m.Cursor / m.PageSize) :=
    Int.mul_comm _ _
  have hstart : 0 ≤ m.Cursor / m.PageSize * m.PageSize := Int.mul_nonneg hq0 (le_of_lt hs)
  refine ⟨_, he, rfl, rfl, ?_, ?_, ⟨tp, ?_, hq0, hq1⟩⟩
  · simp only [Model.CursorInPage, Model.PageStart]; omega
  · have hpt := PageTasks_eq ({ m with Page := m.Cursor / m.PageSize }) hs hq0
    simp only [] at hpt
    have hcn : m.Cursor.toNat < m.Tasks.length := by unfold goLen at hlt; omega
    refine ⟨_, m.Tasks[m.Cursor.toNat], hpt, ?_, ?_, ?_, ?_⟩
    · simp only [Model.CursorInPage, Model.PageStart]; omega
    · simp only [Model.CursorInPage, Model.PageStart]
      unfold goLen at *
      rw [List.length_take, List.length_drop]
      omega
    · simp only [Model.CursorInPage, Model.PageStart]
      unfold goIndex
      rw [if_pos (by omega)]
      rw [List.getElem?_take_of_lt (by omega), List.getElem?_drop]
      have : (m.Cursor / m.PageSize * m.PageSize).toNat
          + (m.Cursor - m.Cursor / m.PageSize * m.PageSize).toNat = m.Cursor.toNat := by omega
      rw [this]
      exact List.getElem?_eq_getElem hcn
    · unfold goIndex
      rw [if_pos hc]
      exact List.getElem?_eq_getElem hcn
  · rw [← htp]; exact TotalPages_congr _ _ rfl rfl

end models

namespace sort
variable {α : Type}

theorem getElem?_append_first (pre post : List α) (y : α) :
    (pre ++ y :: post)[pre.length]? = some y := by
  rw [List.getElem?_append_right (le_refl _)]
  simp

theorem getElem?_append_second (pre post : List α) (y x : α) :
    (pre ++ y :: x :: post)[pre.length + 1]? = some x := by
  rw [List.getElem?_append_right (by omega)]
  simp

theorem Less_adjacent (less : α → α → Bool) (pre post : List α) (y x : α) :
    Less less (pre ++ y :: x :: post) (pre.length + 1) pre.length = less x y := by
  unfold Less
  rw [getElem?_append_second, getElem?_append_first]

theorem Swap_adjacent (pre post : List α) (y x : α) :
    Swap (pre ++ y :: x :: post) (pre.length + 1) pre.length = pre ++ x :: y :: post := by
  unfold Swap
  rw [getElem?_append_second, getElem?_append_first]
  simp only
  apply List.ext_getElem?
  intro i
  rw [List.getElem?_set, List.getElem?_set]
  by_cases h1 : pre.length = i
  · subst h1
    rw [getElem?_append_first pre (y :: post) x]
    simp
  · by_cases h2 : pre.length + 1 = i
    · subst h2
      rw [getElem?_append_second pre post x y]
      simp
    · simp only [h1, h2, if_false]
      by_cases h3 : i < pre.length
      · rw [List.getElem?_append_left h3, List.getElem?_append_left h3]
      · have h4 : pre.length + 2 ≤ i := by omega
        obtain ⟨k, rfl⟩ : ∃ k, i = pre.length + 2 + k := ⟨i - (pre.length + 2), by omega⟩
        rw [List.getElem?_append_right (by omega), List.getElem?_append_right (by omega)]
        have : pre.length + 2 + k - pre.length = k + 2 := by omega
        rw [this]
        simp

theorem length_insertBack (less : α → α → Bool) (x : α) (r : List α) :
    (insertBack less x r).length = r.length + 1 := by
  induction r with
  | nil => rfl
  | cons y r ih =>
    unfold insertBack
    split <;> simp [ih]

/-- The inner loop of `insertionSort_func`, entered at the end of a run
`pre`, inserts the next element into the run. -/
theorem insertionSort_inner_eq (less : α → α → Bool) (j : Nat) :
    ∀ (pre post : List α) (x : α), pre.length = j →
      insertionSort_inner less 0 j (pre ++ x :: post)
        = (insertBack less x pre.reverse).reverse ++ post := by
  induction j with
  | zero =>
    intro pre post x h
    have : pre = [] := List.length_eq_zero.mp h
    subst this
    simp [insertionSort_inner, insertBack]
  | succ j ih =>
    intro pre post x h
    rcases List.eq_nil_or_concat pre with hnil | ⟨pre', y, hpre⟩
    · subst hnil; simp at h
    · rw [List.concat_eq_append] at hpre
      subst hpre
      have hj : pre'.length = j := by simpa using h
      subst hj
      have e : pre' ++ [y] ++ x :: post = pre' ++ y :: x :: post := by simp
      rw [e]
      unfold insertionSort_inner
      rw [Less_adjacent]
      by_cases hl : less x y = true
      · rw [if_pos ⟨by omega, hl⟩, Swap_adjacent, ih pre' (y :: post) x rfl]
        simp [insertBack, hl]
      · rw [if_neg (fun h => hl h.2)]
        simp [insertBack, hl]

/-- The outer loop of `insertionSort_func`, entered after a run `pre`,
inserts the elements after it one by one. -/
theorem insertionSort_outer_eq (less : α → α → Bool) :
    ∀ (post pre : List α),
      insertionSort_outer less 0 post.length pre.length (pre ++ post)
        = (post.foldl (fun r y => insertBack less y r) pre.reverse).reverse := by
  intro post
  induction post with
  | nil => intro pre; simp [insertionSort_outer]
  | cons x post ih =>
    intro pre
    simp only [List.length_cons, insertionSort_outer, List.foldl_cons]
    rw [insertionSort_inner_eq less pre.length pre post x rfl]
    have hlen : ((insertBack less x pre.reverse).reverse).length = pre.length + 1 := by
      simp [length_insertBack]
    rw [← hlen, ih]
    simp

/-- On the whole slice `insertionSort_func` is insertion sort. -/
theorem insertionSort_func_eq (less : α → α → Bool) (data : List α) :
    insertionSort_func less data 0 data.length = insertionSorted less data := by
  cases data with
  | nil => simp [insertionSort_func, insertionSort_outer, insertionSorted]
  | cons x rest =>
    unfold insertionSort_func insertionSorted
    have := insertionSort_outer_eq less rest [x]
    simpa using this

/-- A slice of at most 12 elements is sorted by insertion sort. -/
theorem Slice_short (less : α → α → Bool) (data : List α) (h : data.length ≤ 12) :
    Slice less data = some (insertionSorted less data) := by
  unfold Slice
  rw [pdqsort_func, ← insertionSort_func_eq]
  exact if_pos h

end sort

namespace sort
variable {α : Type}

theorem perm_insertBack (less : α → α → Bool) (x : α) (r : List α) :
    (insertBack less x r).Perm (x :: r) := by
  induction r with
  | nil => exact List.Perm.refl _
  | cons y r ih =>
    unfold insertBack
    split
    · exact ((List.Perm.cons y ih).trans (List.Perm.swap x y r))
    · exact List.Perm.refl _

theorem perm_foldl_insertBack (less : α → α → Bool) (post : List α) :
    ∀ r : List α, (post.foldl (fun r y => insertBack less y r) r).Perm (post.reverse ++ r) := by
  induction post with
  | nil => intro r; simp
  | cons x post ih =>
    intro r
    simp only [List.foldl_cons, List.reverse_cons, List.append_assoc, List.singleton_append]
    exact (ih _).trans (List.Perm.append_left _ (perm_insertBack less x r))

/-- Insertion sort rearranges. -/
theorem perm_insertionSorted (less : α → α → Bool) (data : List α) :
    (insertionSorted less data).Perm data := by
  cases data with
  | nil => exact List.Perm.refl _
  | cons x rest =>
    unfold insertionSorted
    refine (List.reverse_perm _).trans ((perm_foldl_insertBack less rest [x]).trans ?_)
    have : (x :: rest).Perm (rest.reverse ++ [x]) := by
      rw [← List.reverse_cons]; exact (List.reverse_perm _).symm
    exact this.symm

theorem mem_insertBack (less : α → α → Bool) (x z : α) (r : List α)
    (h : z ∈ insertBack less x r) : z = x ∨ z ∈ r := by
  have := (perm_insertBack less x r).mem_iff.mp h
  simpa using this

theorem sorted_insertBack (less : α → α → Bool) (hw : models.StrictWeak less) (x : α)
    (r : List α) (hr : r.Pairwise (fun a b => less a b = false)) :
    (insertBack less x r).Pairwise (fun a b => less a b = false) := by
  obtain ⟨hirr, htr, hnt⟩ := hw
  induction r with
  | nil => simp [insertBack]
  | cons y r ih =>
    rw [List.pairwise_cons] at hr
    unfold insertBack
    by_cases hl : less x y = true
    · rw [if_pos hl, List.pairwise_cons]
      refine ⟨?_, ih hr.2⟩
      intro z hz
      rcases mem_insertBack less x z r hz with rfl | hz
      · by_contra hc
        have hc : less y z = true := by simpa using hc
        have := htr z y z hl hc
        rw [hirr z] at this
        exact Bool.noConfusion this
      · exact hr.1 z hz
    · rw [if_neg hl, List.pairwise_cons]
      have hl : less x y = false := by simpa using hl
      refine ⟨?_, List.pairwise_cons.mpr hr⟩
      intro z hz
      rcases List.mem_cons.mp hz with rfl | hz
      · exact hl
      · exact hnt x y z hl (hr.1 z hz)

theorem sorted_foldl_insertBack (less : α → α → Bool) (hw : models.StrictWeak less)
    (post : List α) : ∀ r : List α, r.Pairwise (fun a b => less a b = false) →
      (post.foldl (fun r y => insertBack less y r) r).Pairwise (fun a b => less a b = false) := by
  induction post with
  | nil => intro r hr; exact hr
  | cons x post ih =>
    intro r hr
    exact ih _ (sorted_insertBack less hw x r hr)

/-- Insertion sort sorts: no element is less than one before it. -/
theorem sorted_insertionSorted (less : α → α → Bool) (hw : models.StrictWeak less)
    (data : List α) : (insertionSorted less data).Pairwise (fun a b => less b a = false) := by
  cases data with
  | nil => exact List.Pairwise.nil
  | cons x rest =>
    unfold insertionSorted
    rw [List.pairwise_reverse]
    exact sorted_foldl_insertBack less hw rest [x] (List.pairwise_singleton _ _)

theorem filter_insertBack (less : α → α → Bool) (q : α → Bool)
    (hq : ∀ a b, less a b = true → ¬ (q a = true ∧ q b = true)) (x : α) (r : List α) :
    (insertBack less x r).filter q = (x :: r).filter q := by
  induction r with
  | nil => rfl
  | cons y r ih =>
    unfold insertBack
    by_cases hl : less x y = true
    · rw [if_pos hl, List.filter_cons, ih]
      have := hq x y hl
      by_cases hx : q x = true <;> by_cases hy : q y = true
      · exact absurd ⟨hx, hy⟩ this
      · simp [List.filter_cons, hx, hy]
      · simp [List.filter_cons, hx, hy]
      · simp [List.filter_cons, hx, hy]
    · rw [if_neg hl]

theorem filter_foldl_insertBack (less : α → α → Bool) (q : α → Bool)
    (hq : ∀ a b, less a b = true → ¬ (q a = true ∧ q b = true)) (post : List α) :
    ∀ r : List α, (post.foldl (fun r y => insertBack less y r) r).filter q
      = (post.filter q).reverse ++ r.filter q := by
  induction post with
  | nil => intro r; simp
  | cons x post ih =>
    intro r
    rw [List.foldl_cons, ih, filter_insertBack less q hq]
    by_cases hx : q x = true
    · simp [List.filter_cons, hx]
    · simp [List.filter_cons, hx]

/-- Insertion sort keeps, among the elements a test selects, the order they
had, when no two selected elements are ever one less than the other. -/
theorem filter_insertionSorted (less : α → α → Bool) (q : α → Bool)
    (hq : ∀ a b, less a b = true → ¬ (q a = true ∧ q b = true)) (data : List α) :
    (insertionSorted less data).filter q = data.filter q := by
  cases data with
  | nil => rfl
  | cons x rest =>
    unfold insertionSorted
    rw [List.filter_reverse, filter_foldl_insertBack less q hq]
    simp [List.filter_cons]
    split <;> simp

end sort

namespace models
variable {TI : Type}

theorem strictWeak_lessPriority : StrictWeak lessPriority := by
  refine ⟨?_, ?_, ?_⟩
  · intro a; simp [lessPriority]
  · intro a b c h1 h2
    simp only [lessPriority, decide_eq_true_eq] at *
    omega
  · intro a b c h1 h2
    simp only [lessPriority, decide_eq_false_iff_not] at *
    omega

theorem strictWeak_lessCreated : StrictWeak lessCreated := by
  refine ⟨?_, ?_, ?_⟩
  · intro a; simp [lessCreated]
  · intro a b c h1 h2
    simp only [lessCreated, decide_eq_true_eq] at *
    omega
  · intro a b c h1 h2
    simp only [lessCreated, decide_eq_false_iff_not] at *
    omega

theorem strictWeak_lessAlphabetical : StrictWeak lessAlphabetical := by
  refine ⟨?_, ?_, ?_⟩
  · intro a; simp [lessAlphabetical]
  · intro a b c h1 h2
    simp only [lessAlphabetical, decide_eq_true_eq] at *
    exact lt_trans h1 h2
  · intro a b c h1 h2
    simp only [lessAlphabetical, decide_eq_false_iff_not, not_lt] at *
    exact le_trans h2 h1

theorem strictWeak_lessDueDate : StrictWeak lessDueDate := by
  refine ⟨?_, ?_, ?_⟩
  · intro a
    unfold lessDueDate
    cases a.DueAt <;> simp
  · intro a b c h1 h2
    unfold lessDueDate at *
    cases ha : a.DueAt <;> cases hb : b.DueAt <;> cases hc : c.DueAt <;>
      simp [ha, hb, hc] at h1 h2 ⊢
    exact lt_trans h1 h2
  · intro a b c h1 h2
    unfold lessDueDate at *
    cases ha : a.DueAt <;> cases hb : b.DueAt <;> cases hc : c.DueAt <;>
      simp [ha, hb, hc] at h1 h2 ⊢
    exact le_trans h2 h1

theorem strictWeak_sortLess (mode : SortMode) : StrictWeak (sortLess mode) := by
  cases mode
  · exact strictWeak_lessPriority
  · exact strictWeak_lessDueDate
  · exact strictWeak_lessAlphabetical
  · exact strictWeak_lessCreated

/-- Merge sort by "not less the other way round" keeps the contract of
`sort.Slice`. -/
theorem mergeSortSlice_sorts : SliceSorts mergeSortSlice := by
  intro less l
  refine ⟨List.mergeSort_perm _ _, ?_⟩
  rintro ⟨hirr, htr, hnt⟩
  have h := @List.sorted_mergeSort _ (fun a b => !less b a)
    (by
      intro a b c h1 h2
      simp only [Bool.not_eq_true'] at *
      exact hnt c b a h2 h1)
    (by
      intro a b
      simp only [Bool.or_eq_true, Bool.not_eq_true']
      by_contra hc
      push_neg at hc
      have h1 : less b a = true := by simpa using hc.1
      have h2 : less a b = true := by simpa using hc.2
      have := htr a b a h2 h1
      rw [hirr a] at this
      exact Bool.noConfusion this) l
  exact h.imp (by intro a b hab; simpa using hab)

/-- What `ApplySort` does: the task list goes through `sort.Slice` with the
comparison of the mode, and nothing else changes. -/
theorem ApplySort_eq (env : Env TI) (m : Model TI) :
    m.ApplySort env = { m with Tasks := env.sortSlice (sortLess m.SortMode) m.Tasks } := by
  unfold Model.ApplySort
  cases h : m.SortMode <;> rfl

theorem modeOrdered_of_not_less (mode : SortMode) (a b : Task)
    (h : sortLess mode b a = false) : modeOrdered mode a b := by
  cases mode
  · simp only [sortLess, lessPriority, decide_eq_false_iff_not] at h
    simp only [modeOrdered]; omega
  · simp only [sortLess, lessDueDate] at h
    simp only [modeOrdered, dueOrdered]
    cases ha : a.DueAt <;> cases hb : b.DueAt <;> simp [ha, hb] at h ⊢
    exact h
  · simp only [sortLess, lessAlphabetical, decide_eq_false_iff_not, not_lt] at h
    exact h
  · simp only [sortLess, lessCreated, decide_eq_false_iff_not] at h
    simp only [modeOrdered]; omega

/-- In a list in due-date order the tasks with a due date come first. -/
theorem dated_first (l : List Task) (h : l.Pairwise dueOrdered) :
    l = l.filter (fun t => t.DueAt.isSome) ++ l.filter (fun t => t.DueAt.isNone) := by
  induction l with
  | nil => rfl
  | cons a l ih =>
    rw [List.pairwise_cons] at h
    have ih := ih h.2
    cases ha : a.DueAt with
    | some x =>
      simp only [List.filter_cons, ha, Option.isSome_some, Option.isNone_some, if_true]
      simp only [Bool.false_eq_true, if_false, List.cons_append]
      rw [← ih]
    | none =>
      have hall : ∀ b ∈ l, b.DueAt = none := by
        intro b hb
        rcases h.1 b hb with h1 | ⟨x, y, hx, _, _⟩
        · exact h1
        · rw [ha] at hx; exact Option.noConfusion hx
      have h1 : l.filter (fun t => t.DueAt.isSome) = [] := by
        rw [List.filter_eq_nil_iff]
        intro b hb; simp [hall b hb]
      have h2 : l.filter (fun t => t.DueAt.isNone) = l := by
        rw [List.filter_eq_self]
        intro b hb; simp [hall b hb]
      simp [List.filter_cons, ha, h1, h2]

/-- Given what `sort.Slice` promises, `ApplySort` rearranges the tasks
into the order of the mode. -/
theorem ApplySort_ordered (env : Env TI) (m : Model TI) (hsort : SliceSorts env.sortSlice) :
    (m.ApplySort env).Tasks.Perm m.Tasks ∧
      (m.ApplySort env).Tasks.Pairwise (modeOrdered m.SortMode) := by
  have hp := (hsort (sortLess m.SortMode) m.Tasks).1
  have ho := (hsort (sortLess m.SortMode) m.Tasks).2 (strictWeak_sortLess m.SortMode)
  rw [ApplySort_eq]
  exact ⟨hp, ho.imp (fun {a b} hab => modeOrdered_of_not_less m.SortMode a b hab)⟩

/-- Claim C6. Given what `sort.Slice` promises, `ApplySort()` leaves, in each
of the four modes, the tasks it had, rearranged (none lost, doubled or
changed) and nothing else changed, in the order of the mode: priority not
increasing; due dates not decreasing with the tasks without one after all
those with one; titles not decreasing in the order of strings; ids not
increasing. -/
theorem ApplySort_perm_ordered (env : Env TI) (m : Model TI)
    (hsort : SliceSorts env.sortSlice) :
    (m.ApplySort env).Tasks.Perm m.Tasks ∧
    (m.ApplySort env).Tasks.Pairwise (modeOrdered m.SortMode) ∧
    (m.SortMode = .SortPriority →
      (m.ApplySort env).Tasks.Pairwise (fun a b => a.Priority ≥ b.Priority)) ∧
    (m.SortMode = .SortDueDate →
      (m.ApplySort env).Tasks.Pairwise dueOrdered ∧
      (m.ApplySort env).Tasks
        = (m.ApplySort env).Tasks.filter (fun t => t.DueAt.isSome)
          ++ (m.ApplySort env).Tasks.filter (fun t => t.DueAt.isNone)) ∧
    (m.SortMode = .SortAlphabetical →
      (m.ApplySort env).Tasks.Pairwise (fun a b => a.Title ≤ b.Title)) ∧
    (m.SortMode = .SortCreated →
      (m.ApplySort env).Tasks.Pairwise (fun a b => a.ID ≥ b.ID)) ∧
    m.ApplySort env = { m with Tasks := (m.ApplySort env).Tasks } := by
  obtain ⟨hp, hord⟩ := ApplySort_ordered env m hsort
  refine ⟨hp, hord, ?_, ?_, ?_, ?_, ?_⟩
  · intro hm; rw [hm] at hord; exact hord
  · intro hm; rw [hm] at hord; exact ⟨hord, dated_first _ hord⟩
  · intro hm; rw [hm] at hord; exact hord
  · intro hm; rw [hm] at hord; exact hord
  · rw [ApplySort_eq]

/-- Claim C6 at three tasks sorted by merge sort in creation mode. -/
theorem ApplySort_perm_ordered_witness :
    ((sampleModel (tasksOfPriorities [3, 9, 1] 0)).ApplySort (mergeEnv 0)).Tasks.Perm
        (sampleModel (tasksOfPriorities [3, 9, 1] 0)).Tasks ∧
      ((sampleModel (tasksOfPriorities [3, 9, 1] 0)).ApplySort (mergeEnv 0)).Tasks.Pairwise
        (fun a b => a.ID ≥ b.ID) :=
  have h := ApplySort_perm_ordered (mergeEnv 0) (sampleModel (tasksOfPriorities [3, 9, 1] 0))
    mergeSortSlice_sorts
  ⟨h.1, h.2.2.2.2.2.1 rfl⟩

end models

namespace models
variable {TI : Type}

/-- On at most 12 tasks the library sort is insertion sort. -/
theorem goSortSlice_short (less : Task → Task → Bool) (l : List Task) (h : l.length ≤ 12) :
    goSortSlice less l = sort.insertionSorted less l := by
  unfold goSortSlice
  rw [sort.Slice_short less l h]
  rfl

/-- Claim C7, amended. With the library sort of Go and at most 12 tasks,
`ApplySort()` in priority mode leaves the tasks rearranged in descending
priority, tasks of equal priority in the order they had before. -/
theorem ApplySort_priority_keeps_ties (env : Env TI) (m : Model TI)
    (hgo : env.sortSlice = goSortSlice) (hmode : m.SortMode = .SortPriority)
    (hlen : m.Tasks.length ≤ 12) :
    (m.ApplySort env).Tasks.Perm m.Tasks ∧
    (m.ApplySort env).Tasks.Pairwise (fun a b => a.Priority ≥ b.Priority) ∧
    KeepsTies m.Tasks (m.ApplySort env).Tasks := by
  have he : (m.ApplySort env).Tasks = sort.insertionSorted lessPriority m.Tasks := by
    rw [ApplySort_eq, hmode, hgo]
    exact goSortSlice_short _ _ hlen
  rw [he]
  refine ⟨sort.perm_insertionSorted _ _, ?_, ?_⟩
  · refine (sort.sorted_insertionSorted _ strictWeak_lessPriority m.Tasks).imp ?_
    intro a b hab
    simp only [lessPriority, decide_eq_false_iff_not] at hab
    omega
  · intro p
    apply sort.filter_insertionSorted
    intro a b hab hq
    simp only [lessPriority, decide_eq_true_eq] at hab hq
    omega

/-- Claim C7 at the priorities 3, 9, 1, 9 (tasks 0 to 3): the result is task
1, task 3, task 0, task 2. -/
theorem ApplySort_priority_keeps_ties_witness :
    ((priorityModel [3, 9, 1, 9]).ApplySort (goEnv 0)).Tasks.map (fun t => t.ID) = [1, 3, 0, 2] ∧
    ((priorityModel [3, 9, 1, 9]).ApplySort (goEnv 0)).Tasks.map (fun t => t.Priority)
      = [9, 9, 3, 1] ∧
    KeepsTies (priorityModel [3, 9, 1, 9]).Tasks
      ((priorityModel [3, 9, 1, 9]).ApplySort (goEnv 0)).Tasks :=
  ⟨by decide, by decide,
    (ApplySort_priority_keeps_ties (goEnv 0) (priorityModel [3, 9, 1, 9]) rfl rfl
      (by decide)).2.2⟩

/-- Claim C7 as stated fails on 13 tasks: with priorities 0, 1, 1, ..., 1
(tasks 0 to 12) the library sort runs to its end and puts task 6 first,
before the tasks 1 to 5 of the same priority. -/
theorem ApplySort_priority_reorders_ties :
    (sort.Slice lessPriority
      (priorityModel [0, 1, 1, 1, 1, 1, 1, 1, 1, 1, 1, 1, 1]).Tasks).isSome = true ∧
    ((priorityModel [0, 1, 1, 1, 1, 1, 1, 1, 1, 1, 1, 1, 1]).ApplySort (goEnv 0)).Tasks.map
      (fun t => t.ID) = [6, 1, 2, 3, 4, 5, 7, 8, 9, 10, 11, 12, 0] ∧
    ¬ KeepsTies (priorityModel [0, 1, 1, 1, 1, 1, 1, 1, 1, 1, 1, 1, 1]).Tasks
      ((priorityModel [0, 1, 1, 1, 1, 1, 1, 1, 1, 1, 1, 1, 1]).ApplySort (goEnv 0)).Tasks := by
  refine ⟨by decide, by decide, ?_⟩
  intro h
  have := congrArg (List.map (fun t => t.ID)) (h 1)
  revert this
  decide

/-- The library sort on 14 tasks with the priorities 0, 1, 0, 1, ..., a list
on which `breakPatterns_func` runs: the tasks come out in the order 9, 1, 13,
3, 7, 5, 11, 12, 6, 0, 10, 8, 4, 2, as `sort.Slice` of the Go library leaves
them. -/
theorem Slice_alternating_priorities :
    (sort.Slice lessPriority
      (priorityModel [0, 1, 0, 1, 0, 1, 0, 1, 0, 1, 0, 1, 0, 1]).Tasks).map
        (fun l => l.map (fun t => t.ID))
      = some [9, 1, 13, 3, 7, 5, 11, 12, 6, 0, 10, 8, 4, 2] := by
  decide

theorem perm_pair {α : Type} (l : List α) (a b : α) (h : l.Perm [a, b]) :
    l = [a, b] ∨ l = [b, a] := by
  have hlen := h.length_eq
  match l, hlen with
  | [u, v], _ =>
    have hu : u ∈ [a, b] := h.mem_iff.mp (by simp)
    have hv : v ∈ [a, b] := h.mem_iff.mp (by simp)
    have ha : a ∈ [u, v] := h.mem_iff.mpr (by simp)
    have hb : b ∈ [u, v] := h.mem_iff.mpr (by simp)
    simp only [List.mem_cons, List.mem_singleton, List.not_mem_nil, or_false] at hu hv ha hb
    rcases hu with rfl | rfl <;> rcases hv with rfl | rfl
    · rcases hb with rfl | rfl <;> simp
    · simp
    · simp
    · rcases ha with rfl | rfl <;> simp

/-- Claim C8. Given what `sort.Slice` promises, `ApplySort()` in due-date mode
leaves the tasks rearranged with every task that has a due date before every
task that has none, the dated ones by ascending due date. The comparison it
sorts with is a strict weak order in which two tasks without a due date are
equivalent. Three tasks A (no due date), B and C (C due before B) end as
C, B, A. -/
theorem ApplySort_dueDate_order (env : Env TI) (m : Model TI)
    (hsort : SliceSorts env.sortSlice) (hmode : m.SortMode = .SortDueDate) :
    StrictWeak lessDueDate ∧
    (∀ a b : Task, a.DueAt = none → b.DueAt = none →
      lessDueDate a b = false ∧ lessDueDate b a = false) ∧
    (m.ApplySort env).Tasks.Perm m.Tasks ∧
    (m.ApplySort env).Tasks.Pairwise dueOrdered ∧
    (m.ApplySort env).Tasks
      = (m.ApplySort env).Tasks.filter (fun t => t.DueAt.isSome)
        ++ (m.ApplySort env).Tasks.filter (fun t => t.DueAt.isNone) ∧
    (∀ (A B C : Task) (tb tc : Time), m.Tasks = [A, B, C] → A.DueAt = none →
      B.DueAt = some tb → C.DueAt = some tc → tc < tb →
      (m.ApplySort env).Tasks = [C, B, A]) := by
  obtain ⟨hperm, hord⟩ := ApplySort_ordered env m hsort
  rw [hmode] at hord
  have hord : (m.ApplySort env).Tasks.Pairwise dueOrdered := hord
  have hsplit := dated_first _ hord
  refine ⟨strictWeak_lessDueDate, ?_, hperm, hord, hsplit, ?_⟩
  · intro a b ha hb
    simp [lessDueDate, ha, hb]
  · intro A B C tb tc hT hA hB hC hlt
    rw [hT] at hperm
    have hdated : ((m.ApplySort env).Tasks.filter (fun t => t.DueAt.isSome)).Perm [B, C] := by
      have := hperm.filter (fun t => t.DueAt.isSome)
      simpa [List.filter_cons, hA, hB, hC] using this
    have hund : ((m.ApplySort env).Tasks.filter (fun t => t.DueAt.isNone)).Perm [A] := by
      have := hperm.filter (fun t => t.DueAt.isNone)
      simpa [List.filter_cons, hA, hB, hC] using this
    have hund := List.perm_singleton.mp hund
    have hsub : ((m.ApplySort env).Tasks.filter (fun t => t.DueAt.isSome)).Pairwise dueOrdered :=
      hord.sublist (List.filter_sublist _)
    rcases perm_pair _ _ _ hdated with h2 | h2
    · rw [h2] at hsub
      have h3 : dueOrdered B C := by
        simpa using hsub
      rcases h3 with h4 | ⟨x, y, hx, hy, hxy⟩
      · rw [hC] at h4; exact Option.noConfusion h4
      · rw [hB] at hx; rw [hC] at hy
        cases hx; cases hy
        exact absurd hlt (not_lt.mpr hxy)
    · rw [hsplit, h2, hund]
      rfl

/-- Claim C8 at three tasks 0 (no due date), 1 (due at 2000) and 2 (due at
1000): merge sort and the library sort of Go both give 2, 1, 0. -/
theorem ApplySort_dueDate_order_witness :
    ((dueModel 1000 2000).ApplySort (mergeEnv 0)).Tasks.map (fun t => t.ID) = [2, 1, 0] ∧
    ((dueModel 1000 2000).ApplySort (goEnv 0)).Tasks.map (fun t => t.ID) = [2, 1, 0] := by
  have h := (ApplySort_dueDate_order (mergeEnv 0) (dueModel 1000 2000) mergeSortSlice_sorts
    rfl).2.2.2.2.2 _ _ _ 2000 1000 rfl rfl rfl rfl (by decide)
  exact ⟨by rw [h]; rfl, by decide⟩

end models

namespace models
variable {TI : Type}

theorem goIndex_of_lt {α : Type} (xs : List α) (i : Int) (h0 : 0 ≤ i) (h1 : i < goLen xs) :
    ∃ x, goIndex xs i = some x ∧ xs[i.toNat]? = some x := by
  have hlt : i.toNat < xs.length := by unfold goLen at h1; omega
  refine ⟨xs[i.toNat], ?_, List.getElem?_eq_getElem hlt⟩
  unfold goIndex
  rw [if_pos h0]
  exact List.getElem?_eq_getElem hlt

theorem goSet_of_lt {α : Type} (xs : List α) (i : Int) (x : α) (h0 : 0 ≤ i)
    (h1 : i < goLen xs) : goSet xs i x = some (xs.set i.toNat x) := by
  unfold goSet
  rw [if_pos ⟨h0, h1⟩]

theorem selectedInRange_iff (m : Model TI) :
    m.selectedInRange = true ↔ 0 ≤ m.SelectedTaskIdx ∧ m.SelectedTaskIdx < goLen m.Tasks := by
  simp [Model.selectedInRange]

theorem hasSelection_iff (m : Model TI) :
    m.hasSelection = true ↔ 0 ≤ m.Cursor ∧ m.Cursor < goLen m.Tasks := by
  simp only [Model.hasSelection, decide_eq_true_eq]
  constructor
  · intro h; exact ⟨h.2.1, h.2.2⟩
  · intro h; exact ⟨by omega, h.1, h.2⟩

/-- A key in the state ConfirmDelete goes to `updateConfirmDelete`, the two
status messages cleared. -/
theorem Update_key_confirmDelete (env : Env TI) (m : Model TI) (key : String)
    (hstate : m.State = .StateConfirmDelete) :
    m.Update env (.KeyMsg key)
      = ({ m with ErrorMsg := "", SuccessMsg := "" } : Model TI).updateConfirmDelete env key := by
  simp only [Model.Update, hstate]

theorem updateConfirmDelete_yes (env : Env TI) (m : Model TI) (key : String) (t : Task)
    (hk : key = "y" ∨ key = "Y")
    (h0 : 0 ≤ m.SelectedTaskIdx) (h1 : m.SelectedTaskIdx < goLen m.Tasks)
    (ht : goIndex m.Tasks m.SelectedTaskIdx = some t) :
    m.updateConfirmDelete env key
      = some ({ m with State := .StateBrowse,
                       Tasks := m.Tasks.set m.SelectedTaskIdx.toNat
                         { t with IsDeleting := true, AnimStart := env.now } },
              [Effect.tick]) := by
  unfold Model.updateConfirmDelete
  rw [if_pos hk, if_pos ((selectedInRange_iff m).mpr ⟨h0, h1⟩), ht]
  simp only [Option.bind_eq_bind, Option.some_bind, goSet_of_lt _ _ _ h0 h1, TickCmd]

theorem updateConfirmDelete_no (env : Env TI) (m : Model TI) (key : String)
    (hk : key = "n" ∨ key = "N" ∨ key = "esc") :
    m.updateConfirmDelete env key = some ({ m with State := .StateBrowse }, []) := by
  have hny : ¬ (key = "y" ∨ key = "Y") := by
    rcases hk with rfl | rfl | rfl <;> decide
  unfold Model.updateConfirmDelete
  rw [if_neg hny, if_pos hk]

/-- Claim C9. In the state ConfirmDelete with a task chosen, the key "y" or
"Y" returns the model in the state Browse with the chosen task marked as
being deleted since the current time and every other task as it was (same
length, same task data in the same order), and schedules a tick and nothing
else; the keys "n", "N" and "esc" return to Browse with the tasks unchanged
and schedule nothing. -/
theorem confirmDelete_defers (env : Env TI) (m : Model TI) (key : String)
    (hstate : m.State = .StateConfirmDelete)
    (h0 : 0 ≤ m.SelectedTaskIdx) (h1 : m.SelectedTaskIdx < goLen m.Tasks) :
    (key = "y" ∨ key = "Y" →
      ∃ t, goIndex m.Tasks m.SelectedTaskIdx = some t ∧
        m.Update env (.KeyMsg key)
          = some ({ m with ErrorMsg := "", SuccessMsg := "", State := .StateBrowse,
                           Tasks := m.Tasks.set m.SelectedTaskIdx.toNat
                             { t with IsDeleting := true, AnimStart := env.now } },
                  [Effect.tick]) ∧
        (m.Tasks.set m.SelectedTaskIdx.toNat
            { t with IsDeleting := true, AnimStart := env.now }).length = m.Tasks.length ∧
        (m.Tasks.set m.SelectedTaskIdx.toNat
            { t with IsDeleting := true, AnimStart := env.now }).map (fun t => t.toTask)
          = m.Tasks.map (fun t => t.toTask) ∧
        (∀ i : Nat, i ≠ m.SelectedTaskIdx.toNat →
          (m.Tasks.set m.SelectedTaskIdx.toNat
            { t with IsDeleting := true, AnimStart := env.now })[i]? = m.Tasks[i]?)) ∧
    (key = "n" ∨ key = "N" ∨ key = "esc" →
      m.Update env (.KeyMsg key)
        = some ({ m with ErrorMsg := "", SuccessMsg := "", State := .StateBrowse }, [])) := by
  constructor
  · intro hk
    obtain ⟨t, ht, hget⟩ := goIndex_of_lt m.Tasks m.SelectedTaskIdx h0 h1
    refine ⟨t, ht, ?_, by simp, ?_, ?_⟩
    · rw [Update_key_confirmDelete env m key hstate]
      exact updateConfirmDelete_yes env ({ m with ErrorMsg := "", SuccessMsg := "" } : Model TI)
        key t hk h0 h1 ht
    · apply List.ext_getElem?
      intro i
      rw [List.getElem?_map, List.getElem?_map, List.getElem?_set]
      by_cases hi : m.SelectedTaskIdx.toNat = i
      · subst hi
        rw [if_pos rfl, hget]
        have hlt : m.SelectedTaskIdx.toNat < m.Tasks.length := by unfold goLen at h1; omega
        rw [if_pos hlt]
        rfl
      · rw [if_neg hi]
    · intro i hi
      rw [List.getElem?_set, if_neg (Ne.symm hi)]
  · intro hk
    rw [Update_key_confirmDelete env m key hstate]
    exact updateConfirmDelete_no env ({ m with ErrorMsg := "", SuccessMsg := "" } : Model TI)
      key hk

/-- Claim C9 at three tasks with the second one chosen and the key "y". -/
theorem confirmDelete_defers_witness :
    confirmModel.Update (goEnv 5) (.KeyMsg "y")
      = some ({ confirmModel with
                  ErrorMsg := "", SuccessMsg := "", State := .StateBrowse,
                  Tasks := confirmModel.Tasks.set 1
                    { sampleTask 1 "" 9 none with IsDeleting := true, AnimStart := 5 } },
              [Effect.tick]) := by
  obtain ⟨t, ht, h, -⟩ := (confirmDelete_defers (goEnv 5) confirmModel "y" rfl
    (by decide) (by decide)).1 (Or.inl rfl)
  have : t = sampleTask 1 "" 9 none := by
    have h2 : goIndex confirmModel.Tasks confirmModel.SelectedTaskIdx
        = some (sampleTask 1 "" 9 none) := by decide
    rw [h2] at ht
    exact (Option.some.inj ht).symm
  subst this
  exact h

end models

namespace models
variable {TI : Type}

/-- Claim C3 at 23 tasks in pages of 10: three pages. -/
theorem TotalPages_ceil_witness :
    (sampleModel (tasksOfPriorities (List.replicate 23 0) 0)).TotalPages = some 3 := by
  obtain ⟨p, hp, -⟩ := TotalPages_ceil (sampleModel (tasksOfPriorities (List.replicate 23 0) 0))
    (by decide)
  rw [hp]
  have : (sampleModel (tasksOfPriorities (List.replicate 23 0) 0)).TotalPages = some 3 := by
    decide
  rw [this] at hp
  rw [← hp]

/-- Claim C4 at 23 tasks in pages of 10, on the last page: tasks 20 to 22,
and the three pages are the list. -/
theorem PageTasks_partition_witness :
    ((Wrap64.PageTasks ((sampleModel (tasksOfPriorities (List.replicate 23 0) 0)).atPage 2)).map
        (fun l => l.map (fun t => t.ID))) = some [20, 21, 22] ∧
    Wrap64.PageStart ((sampleModel (tasksOfPriorities (List.replicate 23 0) 0)).atPage 2) = 2 * 10 ∧
    ∃ (totalPages : Int) (pages : List (List Task)),
      ((sampleModel (tasksOfPriorities (List.replicate 23 0) 0)).atPage 2).TotalPages
        = some totalPages ∧ pages.length = totalPages.toNat ∧
      (∀ k : Nat, k < totalPages.toNat →
        Wrap64.PageTasks
          (((sampleModel (tasksOfPriorities (List.replicate 23 0) 0)).atPage 2).atPage k)
          = pages[k]?) ∧
      pages.flatten = ((sampleModel (tasksOfPriorities (List.replicate 23 0) 0)).atPage 2).Tasks :=
  ⟨by decide,
    ((PageTasks_partition ((sampleModel (tasksOfPriorities (List.replicate 23 0) 0)).atPage 2)
      (by decide) (by decide)).1 (by decide)).1,
    (PageTasks_partition ((sampleModel (tasksOfPriorities (List.replicate 23 0) 0)).atPage 2)
      (by decide) (by decide)).2 (by decide)⟩

/-- Claim C4 as stated fails for a page number whose product with the page
size is past the range of `int`. With 23 tasks in pages of 10, page
1844674407370955162 starts past the end of the list, yet `Page * PageSize`
is 4 in 64 bits and `(Page + 1) * PageSize` is 14: `PageTasks()` returns the
ten tasks 4 to 13. On page `2^62` the two products are negative in 64 bits
and the slice expression panics. -/
theorem PageTasks_wraps :
    0 < ((sampleModel (tasksOfPriorities (List.replicate 23 0) 0)).atPage
      1844674407370955162).PageSize ∧
    goLen ((sampleModel (tasksOfPriorities (List.replicate 23 0) 0)).atPage
      1844674407370955162).Tasks ≤ 1844674407370955162 * 10 ∧
    Wrap64.PageStart ((sampleModel (tasksOfPriorities (List.replicate 23 0) 0)).atPage
      1844674407370955162) = 4 ∧
    Wrap64.PageEnd ((sampleModel (tasksOfPriorities (List.replicate 23 0) 0)).atPage
      1844674407370955162) = 14 ∧
    (Wrap64.PageTasks ((sampleModel (tasksOfPriorities (List.replicate 23 0) 0)).atPage
      1844674407370955162)).map (fun l => l.map (fun t => t.ID))
      = some [4, 5, 6, 7, 8, 9, 10, 11, 12, 13] ∧
    Wrap64.PageTasks ((sampleModel (tasksOfPriorities (List.replicate 23 0) 0)).atPage
      (2 ^ 62)) = none := by
  refine ⟨by decide, by decide, by decide, by decide, by decide, by decide⟩

/-- Claim C5 at 23 tasks in pages of 10 with the cursor on task 17: page 1. -/
theorem EnsureCursorVisible_shows_cursor_witness :
    ∃ m' : Model PlainInput,
      ({ sampleModel (tasksOfPriorities (List.replicate 23 0) 0) with Cursor := 17 }
        : Model PlainInput).EnsureCursorVisible = some m' ∧
      m'.Page = 1 ∧ m'.CursorInPage = 7 ∧ m'.CursorInPage + m'.PageStart = m'.Cursor := by
  obtain ⟨m', h1, -, -, h4, -⟩ := EnsureCursorVisible_shows_cursor
    ({ sampleModel (tasksOfPriorities (List.replicate 23 0) 0) with Cursor := 17 }
      : Model PlainInput) (by decide) (by decide) (by decide)
  have h2 : ({ sampleModel (tasksOfPriorities (List.replicate 23 0) 0) with Cursor := 17 }
      : Model PlainInput).EnsureCursorVisible
      = some ({ sampleModel (tasksOfPriorities (List.replicate 23 0) 0) with
                  Cursor := 17, Page := 1 } : Model PlainInput) := by decide
  rw [h2] at h1
  cases h1
  exact ⟨_, h2, rfl, by decide, h4⟩

end models

namespace models
variable {TI : Type}

/-- One round of the loop of the `TickMsg` case. -/
theorem tickLoop_cons (now : Time) (t : Task) (rest : List Task) (i sel : Int) (cmds : Cmd)
    (nt : Bool) :
    ∃ nt' : Bool,
      tickLoop now (t :: rest) i sel cmds nt =
        ⟨settleCheck now t ::
            (tickLoop now rest (i + 1) (if deleteDue now t = true then i else sel)
              (if deleteDue now t = true then cmds ++ [Effect.deleteTask t.ID] else cmds)
              nt').Tasks,
          (tickLoop now rest (i + 1) (if deleteDue now t = true then i else sel)
              (if deleteDue now t = true then cmds ++ [Effect.deleteTask t.ID] else cmds)
              nt').SelectedTaskIdx,
          (tickLoop now rest (i + 1) (if deleteDue now t = true then i else sel)
              (if deleteDue now t = true then cmds ++ [Effect.deleteTask t.ID] else cmds)
              nt').cmds,
          (tickLoop now rest (i + 1) (if deleteDue now t = true then i else sel)
              (if deleteDue now t = true then cmds ++ [Effect.deleteTask t.ID] else cmds)
              nt').needsTick⟩ := by
  refine ⟨if t.IsAnimatingCheck = true then
      (if Since now t.AnimStart > CheckAnimDuration then
        (if t.IsDeleting = true then
          (if Since now t.AnimStart > DeleteAnimDuration then nt else true) else nt)
      else true)
    else (if t.IsDeleting = true then
      (if Since now t.AnimStart > DeleteAnimDuration then nt else true) else nt), ?_⟩
  by_cases h1 : t.IsDeleting = true <;>
    by_cases h2 : Since now t.AnimStart > DeleteAnimDuration <;>
    by_cases h3 : t.IsAnimatingCheck = true <;>
    by_cases h4 : Since now t.AnimStart > CheckAnimDuration <;>
    simp [tickLoop, deleteDue, settleCheck, h1, h2, h3, h4]

/-- What the loop of the `TickMsg` case leaves: each task with its finished
completion animation ended, a delete effect appended for each task whose
deletion is due, in list order, and the index of the last such task
recorded. -/
theorem tickLoop_spec (now : Time) (ts : List Task) :
    ∀ (i sel : Int) (cmds : Cmd) (nt : Bool),
      (tickLoop now ts i sel cmds nt).Tasks = ts.map (settleCheck now) ∧
      (tickLoop now ts i sel cmds nt).cmds
        = cmds ++ (ts.filter (deleteDue now)).map (fun t => Effect.deleteTask t.ID) ∧
      ((∀ t ∈ ts, deleteDue now t = false) →
        (tickLoop now ts i sel cmds nt).SelectedTaskIdx = sel) ∧
      (∀ (pre : List Task) (t : Task) (post : List Task), ts = pre ++ t :: post →
        deleteDue now t = true → (∀ u ∈ post, deleteDue now u = false) →
        (tickLoop now ts i sel cmds nt).SelectedTaskIdx = i + (pre.length : Int)) := by
  induction ts with
  | nil =>
    intro i sel cmds nt
    refine ⟨rfl, by simp [tickLoop], fun _ => rfl, ?_⟩
    intro pre t post h
    simp at h
  | cons t rest ih =>
    intro i sel cmds nt
    obtain ⟨nt', hstep⟩ := tickLoop_cons now t rest i sel cmds nt
    rw [hstep]
    obtain ⟨h1, h2, h3, h4⟩ := ih (i + 1) (if deleteDue now t = true then i else sel)
      (if deleteDue now t = true then cmds ++ [Effect.deleteTask t.ID] else cmds) nt'
    simp only
    refine ⟨?_, ?_, ?_, ?_⟩
    · rw [h1]; rfl
    · rw [h2]
      by_cases hd : deleteDue now t = true
      · simp [List.filter_cons, hd]
      · simp [List.filter_cons, hd]
    · intro hall
      have hd := hall t (List.mem_cons_self _ _)
      rw [h3 (fun u hu => hall u (List.mem_cons_of_mem _ hu)), hd]
      simp
    · intro pre u post hts hu hpost
      cases pre with
      | nil =>
        simp only [List.nil_append, List.cons.injEq] at hts
        obtain ⟨rfl, rfl⟩ := hts
        rw [h3 hpost, hu]; simp
      | cons p pre =>
        simp only [List.cons_append, List.cons.injEq] at hts
        obtain ⟨rfl, hrest⟩ := hts
        rw [h4 pre u post hrest hu hpost]
        simp only [List.length_cons]; push_cast; ring

theorem toTask_settleCheck (now : Time) (t : Task) :
    (settleCheck now t).toTask = t.toTask ∧ (settleCheck now t).IsDeleting = t.IsDeleting ∧
      (settleCheck now t).AnimStart = t.AnimStart ∧ (settleCheck now t).Expanded = t.Expanded ∧
      (settleCheck now t).AnimType = t.AnimType := by
  unfold settleCheck
  split <;> simp

/-- Claim C10, amended. A tick returns; it schedules a delete effect for the
id of a task exactly when that task is being deleted and the time since its
`AnimStart` is more than `DeleteAnimDuration` (200 ms), one effect per such
task in list order, followed by at most a tick. `SelectedTaskIdx` then is the
index of the last such task, and is unchanged when there is none. The task
list keeps its length and every task its data, its deletion flag and its
`AnimStart`: only completion animations that are over are ended. -/
theorem tick_commits_due_deletions (env : Env TI) (m : Model TI) :
    ∃ (m' : Model TI) (cmds : Cmd), m.Update env .TickMsg = some (m', cmds) ∧
      (∃ rest, cmds = (m.Tasks.filter (deleteDue env.now)).map
          (fun t => Effect.deleteTask t.ID) ++ rest ∧ (rest = [] ∨ rest = [Effect.tick])) ∧
      (∀ id, Effect.deleteTask id ∈ cmds ↔
        ∃ t ∈ m.Tasks, t.IsDeleting = true ∧
          Since env.now t.AnimStart > DeleteAnimDuration ∧ t.ID = id) ∧
      (∀ (pre : List Task) (t : Task) (post : List Task), m.Tasks = pre ++ t :: post →
        deleteDue env.now t = true → (∀ u ∈ post, deleteDue env.now u = false) →
        m'.SelectedTaskIdx = (pre.length : Int)) ∧
      ((∀ t ∈ m.Tasks, deleteDue env.now t = false) → m'.SelectedTaskIdx = m.SelectedTaskIdx) ∧
      m'.Tasks.length = m.Tasks.length ∧
      m'.Tasks = m.Tasks.map (settleCheck env.now) ∧
      m'.Tasks.map (fun t => (t.toTask, t.IsDeleting, t.AnimStart))
        = m.Tasks.map (fun t => (t.toTask, t.IsDeleting, t.AnimStart)) := by
  obtain ⟨h1, h2, h3, h4⟩ := tickLoop_spec env.now m.Tasks 0 m.SelectedTaskIdx [] false
  refine ⟨_, _, rfl, ?_, ?_, ?_, ?_, ?_, ?_, ?_⟩
  · simp only [h2, List.nil_append]
    by_cases hn : (tickLoop env.now m.Tasks 0 m.SelectedTaskIdx [] false).needsTick = true
    · exact ⟨[Effect.tick], by rw [if_pos hn]; rfl, Or.inr rfl⟩
    · exact ⟨[], by rw [if_neg hn]; simp, Or.inl rfl⟩
  · intro id
    have hmem : ∀ l : Cmd, Effect.deleteTask id ∈
        (if (tickLoop env.now m.Tasks 0 m.SelectedTaskIdx [] false).needsTick = true
          then l ++ TickCmd else l) ↔ Effect.deleteTask id ∈ l := by
      intro l
      split <;> simp [TickCmd]
    rw [hmem, h2]
    simp only [List.nil_append, List.mem_map, List.mem_filter, deleteDue, Bool.and_eq_true,
      decide_eq_true_eq, Effect.deleteTask.injEq]
    constructor
    · rintro ⟨t, ⟨ht, hd1, hd2⟩, rfl⟩
      exact ⟨t, ht, hd1, hd2, rfl⟩
    · rintro ⟨t, ht, hd1, hd2, rfl⟩
      exact ⟨t, ⟨ht, hd1, hd2⟩, rfl⟩
  · intro pre t post hts ht hpost
    have := h4 pre t post hts ht hpost
    simpa using this
  · exact h3
  · simp only [h1, List.length_map]
  · exact h1
  · simp only [h1, List.map_map]
    apply List.map_congr_left
    intro t _
    obtain ⟨a, b, c, -⟩ := toTask_settleCheck env.now t
    simp [a, b, c]

/-- Claim C10 as stated fails in two places. A task in its deletion
animation for exactly 200 ms (the time meets the duration) gets no delete
effect from the tick, only another tick. And when the deletions of two
tasks are due at one tick, both get their delete effect and `SelectedTaskIdx`
is the index of the second only. -/
theorem tick_at_exact_duration :
    Since 200000000 0 ≥ DeleteAnimDuration ∧
    (deletingModel 0).Update (goEnv 200000000) .TickMsg
      = some (deletingModel 0, [Effect.tick]) ∧
    (twoDeletingModel 0).Update (goEnv 200000006) .TickMsg
      = some ({ twoDeletingModel 0 with SelectedTaskIdx := 1 },
          [Effect.deleteTask 8, Effect.deleteTask 7]) := by
  refine ⟨by decide, by decide, by decide⟩

end models

namespace models
variable {TI : Type}

theorem cursorInRange_of_valid (m : Model TI) (h : m.CursorValid) : m.CursorInRange := by
  intro hne
  rcases h with ⟨h1, _⟩ | h
  · exact absurd h1 hne
  · exact h

theorem cursorInRange_congr (m m' : Model TI) (hl : m'.Tasks.length = m.Tasks.length)
    (hc : m'.Cursor = m.Cursor) (h : m.CursorInRange) : m'.CursorInRange := by
  intro hne
  have hne' : m.Tasks ≠ [] := by
    intro h0; apply hne
    apply List.length_eq_zero.mp
    rw [hl, h0]; rfl
  have := h hne'
  unfold goLen at *
  rw [hc, hl]; exact this

theorem cursorOk_of_keeps (m : Model TI) (r : Option (Model TI × Cmd)) (h : m.CursorInRange)
    (hk : KeepsCursor m r) : CursorOk r := by
  obtain ⟨m', cmds, hr, hl, hc⟩ := hk
  exact ⟨m', cmds, hr, cursorInRange_congr m m' hl hc h⟩

theorem keeps_some (m m' : Model TI) (cmds : Cmd) (hl : m'.Tasks.length = m.Tasks.length)
    (hc : m'.Cursor = m.Cursor) : KeepsCursor m (some (m', cmds)) :=
  ⟨m', cmds, rfl, hl, hc⟩

/-- After `ValidateCursor` outside the category picker the cursor is on a
task whenever there is one. -/
theorem ValidateCursor_inRange (m : Model TI) (h : m.State ≠ .StateCategorySelect) :
    m.ValidateCursor.CursorInRange := by
  unfold Model.ValidateCursor
  have hn := goLen_nonneg m.Tasks
  cases hst : m.State <;> first | exact absurd hst h | skip
  all_goals
    simp only
    intro hne
    by_cases h0 : goLen m.Tasks = 0
    · rw [if_pos h0] at hne ⊢
      exact absurd ((goLen_eq_zero_iff _).mp h0) hne
    · rw [if_neg h0] at hne ⊢
      by_cases h1 : m.Cursor ≥ goLen m.Tasks
      · rw [if_pos h1]; simp only; omega
      · rw [if_neg h1]
        by_cases h2 : m.Cursor < 0
        · rw [if_pos h2]; simp only; omega
        · rw [if_neg h2]; omega

theorem ValidateCursor_frame (m : Model TI) :
    m.ValidateCursor.Tasks = m.Tasks ∧ m.ValidateCursor.State = m.State ∧
      m.ValidateCursor.PageSize = m.PageSize ∧
      (m.State = .StateCategorySelect → m.ValidateCursor.Cursor = m.Cursor) := by
  unfold Model.ValidateCursor
  cases hst : m.State <;> simp only <;> split_ifs <;> simp [hst]

/-- `ValidateCursor` keeps a cursor that is on a task where it is. -/
theorem ValidateCursor_keeps (m : Model TI) (h : m.CursorInRange) :
    m.ValidateCursor.CursorInRange := by
  by_cases hst : m.State = .StateCategorySelect
  · obtain ⟨h1, -, -, h4⟩ := ValidateCursor_frame m
    exact cursorInRange_congr m _ (by rw [h1]) (h4 hst) h
  · exact ValidateCursor_inRange m hst

theorem ValidatePage_frame (m : Model TI) (hs : 0 < m.PageSize) :
    ∃ m', m.ValidatePage = some m' ∧ m'.Tasks = m.Tasks ∧ m'.Cursor = m.Cursor := by
  obtain ⟨p, hp, -⟩ := TotalPages_returns m hs
  unfold Model.ValidatePage
  rw [hp]
  simp only [Option.bind_eq_bind, Option.some_bind]
  refine ⟨_, rfl, ?_, ?_⟩ <;> split_ifs <;> rfl

theorem EnsureCursorVisible_frame (m : Model TI) (hs : 0 < m.PageSize) :
    ∃ m', m.EnsureCursorVisible = some m' ∧ m'.Tasks = m.Tasks ∧ m'.Cursor = m.Cursor := by
  unfold Model.EnsureCursorVisible
  by_cases h0 : goLen m.Tasks = 0
  · rw [if_pos h0]; exact ⟨_, rfl, rfl, rfl⟩
  · rw [if_neg h0]
    unfold goDiv
    rw [if_neg (by omega)]
    simp only [Option.bind_eq_bind, Option.some_bind]
    exact ValidatePage_frame _ hs

theorem length_sortSlice (env : Env TI) (hsort : SliceSorts env.sortSlice)
    (less : Task → Task → Bool) (l : List Task) : (env.sortSlice less l).length = l.length :=
  (hsort less l).1.length_eq

theorem ApplySort_frame (env : Env TI) (hsort : SliceSorts env.sortSlice) (m : Model TI) :
    (m.ApplySort env).Tasks.length = m.Tasks.length ∧ (m.ApplySort env).Cursor = m.Cursor ∧
      (m.ApplySort env).State = m.State ∧ (m.ApplySort env).PageSize = m.PageSize := by
  rw [ApplySort_eq]
  exact ⟨length_sortSlice env hsort _ _, rfl, rfl, rfl⟩

end models

namespace models
variable {TI : Type}

theorem updateAuth_keeps (env : Env TI) (m : Model TI) (key : String) :
    KeepsCursor m (m.updateAuth env key) := by
  unfold Model.updateAuth
  dsimp only
  split_ifs <;> exact ⟨_, _, rfl, rfl, rfl⟩

theorem updateHelp_keeps (m : Model TI) (key : String) :
    KeepsCursor m (m.updateHelp key) := by
  unfold Model.updateHelp
  dsimp only
  split_ifs <;> exact ⟨_, _, rfl, rfl, rfl⟩

theorem updateConfirmDelete_keeps (env : Env TI) (m : Model TI) (key : String) :
    KeepsCursor m (m.updateConfirmDelete env key) := by
  unfold Model.updateConfirmDelete
  by_cases hsel : m.selectedInRange = true
  · obtain ⟨h0, h1⟩ := (selectedInRange_iff m).mp hsel
    obtain ⟨t, ht, -⟩ := goIndex_of_lt m.Tasks m.SelectedTaskIdx h0 h1
    simp only [if_pos hsel, ht, Option.bind_eq_bind, Option.some_bind, goSet_of_lt _ _ _ h0 h1]
    split_ifs <;> first | exact ⟨_, _, rfl, rfl, rfl⟩ | exact ⟨_, _, rfl, by simp, rfl⟩
  · simp only [if_neg hsel]
    split_ifs <;> exact ⟨_, _, rfl, rfl, rfl⟩

theorem updateCategorySelect_keeps (env : Env TI) (m : Model TI) (key : String) :
    KeepsCursor m (m.updateCategorySelect env key) := by
  unfold Model.updateCategorySelect
  by_cases hsel : m.selectedInRange = true
  · obtain ⟨h0, h1⟩ := (selectedInRange_iff m).mp hsel
    obtain ⟨t, ht, -⟩ := goIndex_of_lt m.Tasks m.SelectedTaskIdx h0 h1
    by_cases hcat : m.CategoryCursor ≥ 0 ∧ m.CategoryCursor < goLen m.Categories
    · obtain ⟨c, hc, -⟩ := goIndex_of_lt m.Categories m.CategoryCursor hcat.1 hcat.2
      simp only [if_pos hsel, ht, hc, if_pos hcat, Option.bind_eq_bind, Option.some_bind,
        Option.map_some']
      split_ifs <;> exact ⟨_, _, rfl, rfl, rfl⟩
    · simp only [if_pos hsel, ht, if_neg hcat, Option.bind_eq_bind, Option.some_bind]
      split_ifs <;> exact ⟨_, _, rfl, rfl, rfl⟩
  · simp only [if_neg hsel]
    split_ifs <;> exact ⟨_, _, rfl, rfl, rfl⟩

theorem updateCategoryCreate_keeps (env : Env TI) (m : Model TI) (key : String)
    (hcol : 0 ≤ env.colorDraw ∧ env.colorDraw < goLen categoryColors) :
    KeepsCursor m (m.updateCategoryCreate env key) := by
  unfold Model.updateCategoryCreate
  obtain ⟨c, hc, -⟩ := goIndex_of_lt categoryColors env.colorDraw hcol.1 hcol.2
  simp only [hc, Option.bind_eq_bind, Option.some_bind]
  split_ifs <;> exact ⟨_, _, rfl, rfl, rfl⟩

theorem updateTaskDetail_ok (env : Env TI) (m : Model TI) (key : String)
    (h : m.CursorInRange) : CursorOk (m.updateTaskDetail env key) := by
  unfold Model.updateTaskDetail
  by_cases hsel : m.selectedInRange = true
  · obtain ⟨h0, h1⟩ := (selectedInRange_iff m).mp hsel
    obtain ⟨t, ht, -⟩ := goIndex_of_lt m.Tasks m.SelectedTaskIdx h0 h1
    simp only [if_pos hsel, ht, Option.bind_eq_bind, Option.some_bind]
    split_ifs <;> first
      | exact ⟨_, _, rfl, h⟩
      | (refine ⟨_, _, rfl, fun _ => ?_⟩
         show 0 ≤ m.SelectedTaskIdx ∧ m.SelectedTaskIdx ≤ goLen m.Tasks - 1
         omega)
  · simp only [if_neg hsel]
    split_ifs <;> exact ⟨_, _, rfl, h⟩

theorem updateEditing_ok (env : Env TI) (m : Model TI) (key : String)
    (h : m.CursorInRange) : CursorOk (m.updateEditing env key) := by
  unfold Model.updateEditing
  by_cases k1 : key = "esc"
  · rw [if_pos k1]
    exact ⟨_, _, rfl, ValidateCursor_inRange _ (by simp)⟩
  rw [if_neg k1]
  have hact : CursorOk (some (m.updateActiveInput env key)) := by
    unfold Model.updateActiveInput
    split_ifs <;> exact ⟨_, _, rfl, h⟩
  by_cases k2 : key = "enter"
  · rw [if_pos k2]
    by_cases hcur : m.Cursor ≥ 0 ∧ m.Cursor < goLen m.Tasks
    · obtain ⟨t, ht, -⟩ := goIndex_of_lt m.Tasks m.Cursor hcur.1 hcur.2
      simp only [ht, Option.bind_eq_bind, Option.some_bind]
      split_ifs <;> first | exact ⟨_, _, rfl, h⟩ | exact hact
    · have c1 : ¬ (m.State = .StateEditing ∧ m.Cursor ≥ 0 ∧ m.Cursor < goLen m.Tasks) :=
        fun hh => hcur hh.2
      have c2 : ¬ (m.State = .StateEditingNotes ∧ m.Cursor ≥ 0 ∧ m.Cursor < goLen m.Tasks) :=
        fun hh => hcur hh.2
      simp only [if_neg c1, if_neg c2]
      split_ifs <;> first | exact ⟨_, _, rfl, h⟩ | exact hact
  · rw [if_neg k2]; exact hact

end models

namespace models
variable {TI : Type}

theorem cursorOk_bind_EnsureCursorVisible (m : Model TI) (cmds : Cmd) (hs : 0 < m.PageSize)
    (h : m.CursorInRange) :
    CursorOk (m.EnsureCursorVisible.bind (fun m' => some (m', cmds))) := by
  obtain ⟨m', he, ht, hc⟩ := EnsureCursorVisible_frame m hs
  rw [he]
  exact ⟨m', cmds, rfl, cursorInRange_congr m m' (by rw [ht]) hc h⟩

theorem pagePrev_inRange (m : Model TI) (hs : 0 < m.PageSize) (hp : m.PageValid)
    (h : m.CursorInRange) : m.pagePrev.CursorInRange := by
  unfold Model.pagePrev
  by_cases h0 : m.Page > 0
  · rw [if_pos h0]
    intro hne
    have hne : m.Tasks ≠ [] := hne
    obtain ⟨tp, htp, hp0, hp1⟩ := hp
    obtain ⟨p, hp', -, h4⟩ := TotalPages_returns m hs
    rw [htp] at hp'
    cases hp'
    obtain ⟨h5, h6⟩ := h4 hne
    show 0 ≤ (m.Page - 1) * m.PageSize ∧ (m.Page - 1) * m.PageSize ≤ goLen m.Tasks - 1
    constructor
    · exact Int.mul_nonneg (by omega) (le_of_lt hs)
    · by_contra hcon
      have h7 : goLen m.Tasks ≤ (m.Page - 1) * m.PageSize := by omega
      have h8 := h6 (m.Page - 1) h7
      omega
  · rw [if_neg h0]; exact h

theorem pageNext_ok (m : Model TI) (cmds : Cmd) (hs : 0 < m.PageSize) (hp : m.PageValid)
    (h : m.CursorInRange) : CursorOk (m.pageNext.bind (fun m' => some (m', cmds))) := by
  obtain ⟨tp, htp, hp0, hp1⟩ := hp
  unfold Model.pageNext
  rw [htp]
  simp only [Option.bind_eq_bind, Option.some_bind]
  by_cases h0 : m.Page < tp - 1
  · rw [if_pos h0]
    refine ⟨_, _, rfl, ?_⟩
    intro hne
    have hne : m.Tasks ≠ [] := hne
    obtain ⟨p, hp', -, h4⟩ := TotalPages_returns m hs
    rw [htp] at hp'
    cases hp'
    obtain ⟨h5, h6⟩ := h4 hne
    show 0 ≤ (m.Page + 1) * m.PageSize ∧ (m.Page + 1) * m.PageSize ≤ goLen m.Tasks - 1
    constructor
    · exact Int.mul_nonneg (by omega) (le_of_lt hs)
    · by_contra hcon
      have h7 : goLen m.Tasks ≤ (m.Page + 1) * m.PageSize := by omega
      have h8 := h6 (m.Page + 1) h7
      omega
  · rw [if_neg h0]
    exact ⟨_, _, rfl, h⟩

theorem theme_step (i : Int) (h : 0 ≤ i) :
    ∃ idx th, goMod (i + 1) (goLen themes.All) = some idx ∧ goIndex themes.All idx = some th := by
  have hlen : goLen themes.All = 10 := rfl
  have hm : goMod (i + 1) (goLen themes.All) = some ((i + 1) % 10) := by
    unfold goMod
    rw [hlen, if_neg (by decide), Int.tmod_eq_emod (by omega) (by decide)]
  have h0 : 0 ≤ (i + 1) % 10 := Int.emod_nonneg _ (by decide)
  have h1 : (i + 1) % 10 < goLen themes.All := by
    rw [hlen]; exact Int.emod_lt_of_pos _ (by decide)
  obtain ⟨th, hth, -⟩ := goIndex_of_lt themes.All _ h0 h1
  exact ⟨_, th, hm, hth⟩

end models

namespace models
variable {TI : Type}

theorem updateBrowse_ok (env : Env TI) (m : Model TI) (key : String)
    (hs : 0 < m.PageSize) (h : m.CursorInRange) (hp : m.PageValid) (hth : 0 ≤ m.ThemeIndex)
    (hsort : SliceSorts env.sortSlice)
    (hdraw : ∃ a, RandomAnimType env.animDraws m.LastAnim = some a) :
    CursorOk (m.updateBrowse env key) := by
  have hzero : ∀ m' : Model TI, m'.Cursor = 0 → m'.CursorInRange := by
    intro m' h0 hne
    have : goLen m'.Tasks ≠ 0 := fun hh => hne ((goLen_eq_zero_iff _).mp hh)
    have := goLen_nonneg m'.Tasks
    omega
  unfold Model.updateBrowse
  by_cases k : key = "q" ∨ key = "ctrl+c"
  · rw [if_pos k]; exact ⟨_, _, rfl, h⟩
  rw [if_neg k]; clear k
  by_cases k : key = "up" ∨ key = "k"
  · rw [if_pos k]
    by_cases hc : m.Cursor > 0
    · rw [if_pos hc]
      refine cursorOk_bind_EnsureCursorVisible _ [] hs ?_
      intro hne
      have := h hne
      show 0 ≤ m.Cursor - 1 ∧ m.Cursor - 1 ≤ goLen m.Tasks - 1
      omega
    · rw [if_neg hc]; exact ⟨_, _, rfl, h⟩
  rw [if_neg k]; clear k
  by_cases k : key = "down" ∨ key = "j"
  · rw [if_pos k]
    by_cases hc : m.Cursor < goLen m.Tasks - 1
    · rw [if_pos hc]
      refine cursorOk_bind_EnsureCursorVisible _ [] hs ?_
      intro hne
      have := h hne
      show 0 ≤ m.Cursor + 1 ∧ m.Cursor + 1 ≤ goLen m.Tasks - 1
      omega
    · rw [if_neg hc]; exact ⟨_, _, rfl, h⟩
  rw [if_neg k]; clear k
  by_cases k : key = "left" ∨ key = "h"
  · rw [if_pos k]; exact ⟨_, _, rfl, pagePrev_inRange m hs hp h⟩
  rw [if_neg k]; clear k
  by_cases k : key = "right" ∨ key = "l"
  · rw [if_pos k]; exact pageNext_ok m [] hs hp h
  rw [if_neg k]; clear k
  by_cases k : key = "pgup"
  · rw [if_pos k]; exact ⟨_, _, rfl, pagePrev_inRange m hs hp h⟩
  rw [if_neg k]; clear k
  by_cases k : key = "pgdown"
  · rw [if_pos k]; exact pageNext_ok m [] hs hp h
  rw [if_neg k]; clear k
  by_cases k : key = "tab"
  · rw [if_pos k]; exact ⟨_, _, rfl, hzero _ rfl⟩
  rw [if_neg k]; clear k
  by_cases k : key = "t"
  · rw [if_pos k]
    obtain ⟨idx, th, h1, h2⟩ := theme_step m.ThemeIndex hth
    rw [h1]
    simp only [Option.bind_eq_bind, Option.some_bind, h2]
    exact ⟨_, _, rfl, h⟩
  rw [if_neg k]; clear k
  by_cases k : key = "s"
  · rw [if_pos k]
    refine ⟨_, _, rfl, ?_⟩
    obtain ⟨h1, h2, -⟩ := ApplySort_frame env hsort
      ({ m with SortMode := m.SortMode.next } : Model TI)
    exact cursorInRange_congr m _ h1 h2 h
  rw [if_neg k]; clear k
  by_cases k : key = "n"
  · rw [if_pos k]; exact ⟨_, _, rfl, hzero _ rfl⟩
  rw [if_neg k]; clear k
  have hget : m.hasSelection = true →
      ∃ t, goIndex m.Tasks m.Cursor = some t ∧ 0 ≤ m.Cursor ∧ m.Cursor < goLen m.Tasks := by
    intro hsel
    obtain ⟨h0, h1⟩ := (hasSelection_iff m).mp hsel
    obtain ⟨t, ht, -⟩ := goIndex_of_lt m.Tasks m.Cursor h0 h1
    exact ⟨t, ht, h0, h1⟩
  by_cases k : key = "e"
  · rw [if_pos k]
    by_cases hsel : m.hasSelection = true
    · obtain ⟨t, ht, -⟩ := hget hsel
      rw [if_pos hsel, ht]
      exact ⟨_, _, rfl, h⟩
    · rw [if_neg hsel]; exact ⟨_, _, rfl, h⟩
  rw [if_neg k]; clear k
  by_cases k : key = "E"
  · rw [if_pos k]
    by_cases hsel : m.hasSelection = true
    · obtain ⟨t, ht, -⟩ := hget hsel
      rw [if_pos hsel, ht]
      exact ⟨_, _, rfl, h⟩
    · rw [if_neg hsel]; exact ⟨_, _, rfl, h⟩
  rw [if_neg k]; clear k
  by_cases k : key = "v"
  · rw [if_pos k]
    by_cases hsel : m.hasSelection = true
    · obtain ⟨t, ht, h0, h1⟩ := hget hsel
      rw [if_pos hsel, ht]
      simp only [Option.bind_eq_bind, Option.some_bind, goSet_of_lt _ _ _ h0 h1]
      exact ⟨_, _, rfl, cursorInRange_congr m _ (by simp) rfl h⟩
    · rw [if_neg hsel]; exact ⟨_, _, rfl, h⟩
  rw [if_neg k]; clear k
  by_cases k : key = "enter"
  · rw [if_pos k]
    by_cases hsel : m.hasSelection = true
    · rw [if_pos hsel]; exact ⟨_, _, rfl, h⟩
    · rw [if_neg hsel]; exact ⟨_, _, rfl, h⟩
  rw [if_neg k]; clear k
  by_cases k : key = " "
  · rw [if_pos k]
    by_cases hsel : m.hasSelection = true
    · obtain ⟨t, ht, h0, h1⟩ := hget hsel
      obtain ⟨a, ha⟩ := hdraw
      rw [if_pos hsel, ht]
      simp only [Option.bind_eq_bind, Option.some_bind]
      by_cases hst : t.Status = "done"
      · rw [if_pos hst, if_neg (by decide)]
        exact ⟨_, _, rfl, h⟩
      · rw [if_neg hst, if_pos rfl, ha]
        simp only [Option.bind_eq_bind, Option.some_bind, goSet_of_lt _ _ _ h0 h1]
        exact ⟨_, _, rfl, cursorInRange_congr m _ (by simp) rfl h⟩
    · rw [if_neg hsel]; exact ⟨_, _, rfl, h⟩
  rw [if_neg k]; clear k
  by_cases k : key = "d"
  · rw [if_pos k]
    by_cases hsel : m.hasSelection = true
    · rw [if_pos hsel]; exact ⟨_, _, rfl, h⟩
    · rw [if_neg hsel]; exact ⟨_, _, rfl, h⟩
  rw [if_neg k]; clear k
  by_cases k : key = "c"
  · rw [if_pos k]
    by_cases hsel : m.hasSelection = true
    · obtain ⟨t, ht, -⟩ := hget hsel
      rw [if_pos hsel, ht]
      exact ⟨_, _, rfl, h⟩
    · rw [if_neg hsel]; exact ⟨_, _, rfl, h⟩
  rw [if_neg k]; clear k
  by_cases k : key = "C"
  · rw [if_pos k]; exact ⟨_, _, rfl, h⟩
  rw [if_neg k]; clear k
  by_cases k : key = "b"
  · rw [if_pos k]
    by_cases hsel : m.hasSelection = true
    · obtain ⟨t, ht, -⟩ := hget hsel
      rw [if_pos hsel, ht]
      exact ⟨_, _, rfl, h⟩
    · rw [if_neg hsel]; exact ⟨_, _, rfl, h⟩
  rw [if_neg k]; clear k
  by_cases k : key = "?"
  · rw [if_pos k]; exact ⟨_, _, rfl, h⟩
  rw [if_neg k]; clear k
  by_cases k : key = "L"
  · rw [if_pos k]; exact ⟨_, _, rfl, fun hne => absurd rfl hne⟩
  rw [if_neg k]; clear k
  by_cases k : key = "r" ∨ key = "R"
  · rw [if_pos k]; exact ⟨_, _, rfl, h⟩
  rw [if_neg k]
  exact ⟨_, _, rfl, h⟩

end models

namespace models
variable {TI : Type}

theorem length_mergeTask (u : api.Task) (l : List Task) :
    (mergeTask u l).length = l.length := by
  induction l with
  | nil => rfl
  | cons t rest ih =>
    unfold mergeTask
    split <;> simp [ih]

theorem cursorInRange_last (m : Model TI) :
    ({ m with Cursor := goLen m.Tasks - 1 } : Model TI).CursorInRange := by
  intro hne
  have hne : m.Tasks ≠ [] := hne
  have : goLen m.Tasks ≠ 0 := fun hh => hne ((goLen_eq_zero_iff _).mp hh)
  have := goLen_nonneg m.Tasks
  show 0 ≤ goLen m.Tasks - 1 ∧ goLen m.Tasks - 1 ≤ goLen m.Tasks - 1
  omega

/-- Claim C1, amended. Let the page size be positive, the cursor and the
page valid and the theme index not negative, and let the library keep its
contracts (`sort.Slice` rearranges, the random draws end and are in range).
Then for every message, except a task list that arrives without an error
while the category picker is open, `Update` returns a model whose cursor is
an index of its task list whenever that list is not empty. -/
theorem Update_keeps_cursor_in_range (env : Env TI) (m : Model TI) (msg : Msg)
    (hs : 0 < m.PageSize) (hc : m.CursorValid) (hp : m.PageValid) (hth : 0 ≤ m.ThemeIndex)
    (hsort : SliceSorts env.sortSlice)
    (hdraw : ∃ a, RandomAnimType env.animDraws m.LastAnim = some a)
    (hcol : 0 ≤ env.colorDraw ∧ env.colorDraw < 8)
    (hmsg : ∀ tasks, msg = .TasksLoadedMsg tasks none → m.State ≠ .StateCategorySelect) :
    ∃ m' cmds, m.Update env msg = some (m', cmds) ∧
      (m'.Tasks ≠ [] → 0 ≤ m'.Cursor ∧ m'.Cursor ≤ goLen m'.Tasks - 1) := by
  have h : m.CursorInRange := cursorInRange_of_valid m hc
  show CursorOk (m.Update env msg)
  cases msg with
  | WindowSizeMsg w ht => exact ⟨_, _, rfl, h⟩
  | TasksLoadedMsg tasks err =>
    have hfin : ∀ m1 : Model TI, m1.PageSize = m.PageSize → m1.CursorInRange →
        CursorOk (m1.EnsureCursorVisible.bind (fun m' => some (m', []))) := by
      intro m1 h1 h2
      exact cursorOk_bind_EnsureCursorVisible m1 [] (by rw [h1]; exact hs) h2
    cases err with
    | some e =>
      cases e with
      | apiError code message =>
        by_cases hu : api.IsUnauthorized code = true
        · simp only [Model.Update, if_pos hu]
          exact hfin _ (ValidateCursor_frame _).2.2.1 (ValidateCursor_keeps _ h)
        · simp only [Model.Update, if_neg hu]
          exact hfin _ (ValidateCursor_frame _).2.2.1 (ValidateCursor_keeps _ h)
      | other text =>
        simp only [Model.Update]
        exact hfin _ (ValidateCursor_frame _).2.2.1 (ValidateCursor_keeps _ h)
    | none =>
      have hst := hmsg tasks rfl
      simp only [Model.Update]
      refine hfin _ ?_ ?_
      · rw [(ValidateCursor_frame _).2.2.1]
        exact (ApplySort_frame env hsort _).2.2.2
      · apply ValidateCursor_inRange
        rw [(ApplySort_frame env hsort _).2.2.1]
        exact hst
  | CategoriesLoadedMsg cats err =>
    cases err <;> exact ⟨_, _, rfl, h⟩
  | TaskCreatedMsg task err =>
    cases err with
    | some e => exact ⟨_, _, rfl, h⟩
    | none =>
      cases task with
      | none => exact ⟨_, _, rfl, h⟩
      | some t =>
        refine ⟨_, _, rfl, ?_⟩
        have := ValidateCursor_keeps _ (cursorInRange_last
          (({ m with Loading := false, SuccessMsg := "Task created",
                     Tasks := m.Tasks ++ [Task.ofApi t] } : Model TI).ApplySort env))
        exact this
  | TaskUpdatedMsg task err =>
    have hgen : ∀ m1 : Model TI, m1.CursorInRange →
        CursorOk (if m1.State = .StateEditing ∨ m1.State = .StateEditingNotes then
          some (({ m1 with State := .StateBrowse,
                           TitleInput := env.input.Blur m1.TitleInput,
                           NotesInput := env.input.Blur m1.NotesInput } : Model TI), [])
          else some (m1, [])) := by
      intro m1 h1
      split_ifs <;> exact ⟨_, _, rfl, h1⟩
    cases err with
    | some e => exact hgen _ h
    | none =>
      cases task with
      | none => exact hgen _ h
      | some u =>
        refine hgen _ ?_
        obtain ⟨h1, h2, -⟩ := ApplySort_frame env hsort
          ({ m with Loading := false, Tasks := mergeTask u m.Tasks } : Model TI)
        exact cursorInRange_congr m _ (by rw [h1]; exact length_mergeTask u m.Tasks) h2 h
  | TaskDeletedMsg err =>
    cases err with
    | some e => exact ⟨_, _, rfl, ValidateCursor_inRange _ (by simp)⟩
    | none =>
      simp only [Model.Update]
      split_ifs <;> exact ⟨_, _, rfl, ValidateCursor_inRange _ (by simp)⟩
  | LoginMsg err => cases err <;> exact ⟨_, _, rfl, h⟩
  | RegisterMsg err => cases err <;> exact ⟨_, _, rfl, h⟩
  | TickMsg =>
    refine ⟨_, _, rfl, cursorInRange_congr m _ ?_ rfl h⟩
    show (tickLoop env.now m.Tasks 0 m.SelectedTaskIdx [] false).Tasks.length = m.Tasks.length
    rw [(tickLoop_spec env.now m.Tasks 0 m.SelectedTaskIdx [] false).1, List.length_map]
  | KeyMsg key =>
    have h0 : ({ m with ErrorMsg := "", SuccessMsg := "" } : Model TI).CursorInRange := h
    have hcol' : 0 ≤ env.colorDraw ∧ env.colorDraw < goLen categoryColors := hcol
    cases hst : m.State <;> simp only [Model.Update, hst]
    · exact cursorOk_of_keeps _ _ h0 (updateAuth_keeps env _ key)
    · exact cursorOk_of_keeps _ _ h0 (updateAuth_keeps env _ key)
    · exact updateBrowse_ok env _ key hs h0 hp hth hsort hdraw
    · exact updateEditing_ok env _ key h0
    · exact updateEditing_ok env _ key h0
    · exact updateEditing_ok env _ key h0
    · exact updateEditing_ok env _ key h0
    · exact updateTaskDetail_ok env _ key h0
    · exact cursorOk_of_keeps _ _ h0 (updateCategorySelect_keeps env _ key)
    · exact cursorOk_of_keeps _ _ h0 (updateCategoryCreate_keeps env _ key hcol')
    · exact cursorOk_of_keeps _ _ h0 (updateHelp_keeps _ key)
    · exact cursorOk_of_keeps _ _ h0 (updateConfirmDelete_keeps env _ key)
  | other => exact ⟨_, _, rfl, h⟩

end models

namespace models
variable {TI : Type}

/-- Claim C1 at three tasks, in the state Browse, on the key "down": the
cursor moves to the second task. -/
theorem Update_keeps_cursor_in_range_witness :
    ∃ m' cmds, (sampleModel (tasksOfPriorities [3, 9, 1] 0)).Update (mergeEnv 0) (.KeyMsg "down")
        = some (m', cmds) ∧
      (m'.Tasks ≠ [] → 0 ≤ m'.Cursor ∧ m'.Cursor ≤ goLen m'.Tasks - 1) :=
  Update_keeps_cursor_in_range (mergeEnv 0) (sampleModel (tasksOfPriorities [3, 9, 1] 0))
    (.KeyMsg "down") (by decide) (Or.inr ⟨by decide, by decide⟩)
    ⟨1, by decide, by decide, by decide⟩ (by decide) mergeSortSlice_sorts ⟨3, by decide⟩
    ⟨by decide, by decide⟩ (fun _ h => Msg.noConfusion h)

/-- Claim C1 as stated fails where the page is not valid: with one task, the
cursor on it and the page at 5, the key "left" sets the page to 4 and the
cursor to 40. It also fails in the category picker: opened on the last of
five tasks, a task list of one task that arrives without an error leaves the
cursor at 4. -/
theorem Update_cursor_out_of_range :
    0 < strayPageModel.PageSize ∧ strayPageModel.CursorValid ∧
    strayPageModel.Update (goEnv 0) (.KeyMsg "left")
      = some (({ strayPageModel with Page := 4, Cursor := 40 } : Model PlainInput), []) ∧
    goLen ({ strayPageModel with Page := 4, Cursor := 40 } : Model PlainInput).Tasks = 1 ∧
    0 < pickerModel.PageSize ∧ pickerModel.CursorValid ∧ pickerModel.PageValid ∧
    (pickerModel.Update (goEnv 0)
        (.TasksLoadedMsg [(sampleTask 9 "" 0 none).toTask] none)).map
      (fun r => (goLen r.1.Tasks, r.1.Cursor)) = some (1, 4) :=
  ⟨by decide, Or.inr ⟨by decide, by decide⟩, by decide, by decide, by decide,
    Or.inr ⟨by decide, by decide⟩, ⟨1, by decide, by decide, by decide⟩, by decide⟩

/-- Claim C2 at its own example. With eleven tasks in pages of ten, the page
is 1 of the two pages 0 and 1, and the last task is the one chosen. A delete
result without an error removes it: ten tasks are left, `TotalPages()` is 1,
and `Update` returns the page still at 1, a page that shows no task, with the
cursor, at 9, before its start. -/
theorem Update_delete_leaves_stale_page :
    lastPageModel.TotalPages = some 2 ∧ lastPageModel.Page = 1 ∧
    lastPageModel.Update (goEnv 0) (.TaskDeletedMsg none)
      = some (({ lastPageModel with Tasks := lastPageModel.Tasks.eraseIdx 10, Cursor := 9 }
          : Model PlainInput), []) ∧
    ({ lastPageModel with Tasks := lastPageModel.Tasks.eraseIdx 10, Cursor := 9 }
      : Model PlainInput).TotalPages = some 1 ∧
    ({ lastPageModel with Tasks := lastPageModel.Tasks.eraseIdx 10, Cursor := 9 }
      : Model PlainInput).Page = 1 ∧
    ({ lastPageModel with Tasks := lastPageModel.Tasks.eraseIdx 10, Cursor := 9 }
      : Model PlainInput).PageTasks = some [] ∧
    ({ lastPageModel with Tasks := lastPageModel.Tasks.eraseIdx 10, Cursor := 9 }
      : Model PlainInput).CursorInPage = -1 :=
  ⟨by decide, by decide, by decide, by decide, by decide, by decide, by decide⟩

end models

namespace models
variable {TI : Type}

/-- The loop of the `TickMsg` case asks for another tick exactly when it was
asked for before the loop or a task has an animation that has not run out. -/
theorem tickLoop_needsTick (now : Time) (ts : List Task) :
    ∀ (i sel : Int) (cmds : Cmd) (nt : Bool),
      (tickLoop now ts i sel cmds nt).needsTick = (nt || ts.any (animPending now)) := by
  induction ts with
  | nil => intro i sel cmds nt; simp [tickLoop]
  | cons t rest ih =>
    intro i sel cmds nt
    rcases lt_or_le DeleteAnimDuration (Since now t.AnimStart) with h2 | h2 <;>
      rcases lt_or_le CheckAnimDuration (Since now t.AnimStart) with h4 | h4 <;>
      cases h1 : t.IsDeleting <;> cases h3 : t.IsAnimatingCheck <;> cases nt <;>
      first
      | simp [tickLoop, animPending, ih, h1, h3, h2, h4, h2.not_le, h4.not_le]
      | simp [tickLoop, animPending, ih, h1, h3, h2, h4, h2.not_le, h4.not_lt]
      | simp [tickLoop, animPending, ih, h1, h3, h2, h4, h2.not_lt, h4.not_le]
      | simp [tickLoop, animPending, ih, h1, h3, h2, h4, h2.not_lt, h4.not_lt]

theorem animPending_settleCheck (now : Time) (t : Task) :
    animPending now (settleCheck now t) = animPending now t := by
  unfold settleCheck animPending
  split
  · rename_i h
    simp [h.1, not_le.mpr h.2]
  · rfl

theorem settleCheck_idle (now : Time) (t : Task) (h : t.IsAnimatingCheck = false) :
    settleCheck now t = t := by
  unfold settleCheck
  rw [if_neg (by simp [h])]

/-- Claim C11. A tick returns, and it schedules another tick exactly when a
task has an animation that has not run out: a completion animation whose
time since `AnimStart` is not past `CheckAnimDuration`, or a deletion
animation whose time is not past `DeleteAnimDuration`; the tasks of the
returned model satisfy this exactly when the tasks before the tick do, and a
completion flag that is still set after the tick is one that has not run
out. No more than one tick is scheduled, as the last effect. On a model in
which no task has one of the two flags set, the tick schedules no effect and
returns the model as it was. -/
theorem tick_reschedules_iff_pending (env : Env TI) (m : Model TI) :
    ∃ (m' : Model TI) (cmds : Cmd), m.Update env .TickMsg = some (m', cmds) ∧
      (Effect.tick ∈ cmds ↔
        ∃ t ∈ m'.Tasks,
          (t.IsAnimatingCheck = true ∧ Since env.now t.AnimStart ≤ CheckAnimDuration) ∨
          (t.IsDeleting = true ∧ Since env.now t.AnimStart ≤ DeleteAnimDuration)) ∧
      (Effect.tick ∈ cmds ↔
        ∃ t ∈ m.Tasks,
          (t.IsAnimatingCheck = true ∧ Since env.now t.AnimStart ≤ CheckAnimDuration) ∨
          (t.IsDeleting = true ∧ Since env.now t.AnimStart ≤ DeleteAnimDuration)) ∧
      (∀ t ∈ m'.Tasks, t.IsAnimatingCheck = true →
        Since env.now t.AnimStart ≤ CheckAnimDuration) ∧
      cmds.count Effect.tick ≤ 1 ∧
      (∃ dels : Cmd, Effect.tick ∉ dels ∧ (cmds = dels ∨ cmds = dels ++ [Effect.tick])) ∧
      ((∀ t ∈ m.Tasks, t.IsAnimatingCheck = false ∧ t.IsDeleting = false) →
        m' = m ∧ cmds = []) := by
  obtain ⟨h1, h2, h3, -⟩ := tickLoop_spec env.now m.Tasks 0 m.SelectedTaskIdx [] false
  have hn := tickLoop_needsTick env.now m.Tasks 0 m.SelectedTaskIdx [] false
  simp only [Bool.false_or] at hn
  simp only [List.nil_append] at h2
  have hdel : Effect.tick ∉ (tickLoop env.now m.Tasks 0 m.SelectedTaskIdx [] false).cmds := by
    rw [h2]; simp
  have hpend : ∀ l : List Task, l.any (animPending env.now) = true ↔
      ∃ t ∈ l, (t.IsAnimatingCheck = true ∧ Since env.now t.AnimStart ≤ CheckAnimDuration) ∨
        (t.IsDeleting = true ∧ Since env.now t.AnimStart ≤ DeleteAnimDuration) := by
    intro l
    simp [animPending]
  have htick : Effect.tick ∈
      (if (tickLoop env.now m.Tasks 0 m.SelectedTaskIdx [] false).needsTick = true
        then (tickLoop env.now m.Tasks 0 m.SelectedTaskIdx [] false).cmds ++ TickCmd
        else (tickLoop env.now m.Tasks 0 m.SelectedTaskIdx [] false).cmds) ↔
      m.Tasks.any (animPending env.now) = true := by
    rw [hn]
    by_cases hp : m.Tasks.any (animPending env.now) = true
    · rw [if_pos hp]; simp [TickCmd, hp]
    · rw [if_neg hp]; exact iff_of_false hdel hp
  refine ⟨_, _, rfl, ?_, ?_, ?_, ?_, ?_, ?_⟩
  · rw [htick, ← hpend]
    simp only [h1, List.any_map]
    have : (animPending env.now ∘ settleCheck env.now) = animPending env.now := by
      funext t; exact animPending_settleCheck env.now t
    rw [this]
  · rw [htick, ← hpend]
  · intro t ht hc
    simp only [h1, List.mem_map] at ht
    obtain ⟨u, -, rfl⟩ := ht
    unfold settleCheck at hc ⊢
    split at hc
    · simp at hc
    · rename_i hne
      rw [if_neg hne]
      by_contra hgt
      exact hne ⟨hc, not_le.mp hgt⟩
  · by_cases hp : (tickLoop env.now m.Tasks 0 m.SelectedTaskIdx [] false).needsTick = true
    · rw [if_pos hp, List.count_append, List.count_eq_zero_of_not_mem hdel]; simp [TickCmd]
    · rw [if_neg hp, List.count_eq_zero_of_not_mem hdel]; exact Nat.zero_le _
  · refine ⟨_, hdel, ?_⟩
    by_cases hp : (tickLoop env.now m.Tasks 0 m.SelectedTaskIdx [] false).needsTick = true
    · rw [if_pos hp]; exact Or.inr rfl
    · rw [if_neg hp]; exact Or.inl rfl
  · intro hidle
    have hnd : ∀ t ∈ m.Tasks, deleteDue env.now t = false := by
      intro t ht; simp [deleteDue, (hidle t ht).2]
    have hnp : m.Tasks.any (animPending env.now) = false := by
      rw [List.any_eq_false]
      intro t ht
      simp [animPending, (hidle t ht).1, (hidle t ht).2]
    have htasks : (tickLoop env.now m.Tasks 0 m.SelectedTaskIdx [] false).Tasks = m.Tasks := by
      rw [h1]
      conv_rhs => rw [← List.map_id m.Tasks]
      apply List.map_congr_left
      intro t ht
      exact settleCheck_idle env.now t (hidle t ht).1
    have hcmds : (tickLoop env.now m.Tasks 0 m.SelectedTaskIdx [] false).cmds = [] := by
      rw [h2, List.filter_eq_nil_iff.mpr (fun t ht => by simp [hnd t ht])]; rfl
    constructor
    · rw [htasks, h3 hnd]
    · rw [hn, hnp, hcmds]; rfl

/-- Claim C11 at concrete inputs: a completion animation that began at 0
gets another tick from the tick at 290 ms, and none from the tick at 290 ms
and 1 ns; a model without animation comes back from a tick as it was, with
no effect. -/
theorem tick_reschedules_iff_pending_witness :
    (∃ (m' : Model PlainInput) (cmds : Cmd),
      (checkingModel 0).Update (goEnv 290000000) .TickMsg = some (m', cmds) ∧
      Effect.tick ∈ cmds) ∧
    (∃ (m' : Model PlainInput) (cmds : Cmd),
      (checkingModel 0).Update (goEnv 290000001) .TickMsg = some (m', cmds) ∧
      Effect.tick ∉ cmds) ∧
    (∃ (m' : Model PlainInput) (cmds : Cmd),
      (sampleModel [sampleTask 7 "A" 0 none]).Update (goEnv 5) .TickMsg = some (m', cmds) ∧
      m' = sampleModel [sampleTask 7 "A" 0 none] ∧ cmds = []) :=
  ⟨(tick_reschedules_iff_pending (goEnv 290000000) (checkingModel 0)).elim
      (fun m' hc => hc.elim (fun cmds h =>
        ⟨m', cmds, h.1, h.2.2.1.mpr (by decide)⟩)),
    (tick_reschedules_iff_pending (goEnv 290000001) (checkingModel 0)).elim
      (fun m' hc => hc.elim (fun cmds h =>
        ⟨m', cmds, h.1, fun hin => absurd (h.2.2.1.mp hin) (by decide)⟩)),
    (tick_reschedules_iff_pending (goEnv 5) (sampleModel [sampleTask 7 "A" 0 none])).elim
      (fun m' hc => hc.elim (fun cmds h =>
        ⟨m', cmds, h.1, h.2.2.2.2.2.2 (by decide)⟩))⟩

end models

namespace models
variable {TI : Type}

/-- `ValidateCursor` writes the two cursors only. -/
theorem ValidateCursor_eq (m : Model TI) :
    m.ValidateCursor = { m with Cursor := m.ValidateCursor.Cursor,
                                CategoryCursor := m.ValidateCursor.CategoryCursor } := by
  unfold Model.ValidateCursor
  split <;> split_ifs <;> rfl

/-- After `ValidateCursor` outside the category picker the cursor is a valid
index, and a cursor that was one stays where it was. -/
theorem ValidateCursor_valid (m : Model TI) (h : m.State ≠ .StateCategorySelect) :
    m.ValidateCursor.CursorValid ∧
      (0 ≤ m.Cursor ∧ m.Cursor < goLen m.Tasks → m.ValidateCursor.Cursor = m.Cursor) := by
  unfold Model.ValidateCursor Model.CursorValid
  have hn := goLen_nonneg m.Tasks
  cases hst : m.State <;> first | exact absurd hst h | skip
  all_goals
    simp only
    by_cases h0 : goLen m.Tasks = 0
    · rw [if_pos h0]
      exact ⟨Or.inl ⟨(goLen_eq_zero_iff _).mp h0, rfl⟩, fun hc => by omega⟩
    · rw [if_neg h0]
      by_cases h1 : m.Cursor ≥ goLen m.Tasks
      · rw [if_pos h1]; simp only
        exact ⟨Or.inr ⟨by omega, le_refl _⟩, fun hc => by omega⟩
      · rw [if_neg h1]
        by_cases h2 : m.Cursor < 0
        · rw [if_pos h2]; simp only
          exact ⟨Or.inr ⟨le_refl _, by omega⟩, fun hc => by omega⟩
        · rw [if_neg h2]
          exact ⟨Or.inr ⟨by omega, by omega⟩, fun _ => rfl⟩

end models

namespace models
variable {TI : Type}

/-- The `TaskDeletedMsg` case without error, as one expression. -/
theorem Update_deleted (env : Env TI) (m : Model TI) :
    m.Update env (.TaskDeletedMsg none)
      = some (({ m with Loading := false,
                        Tasks := if m.selectedInRange = true
                          then m.Tasks.eraseIdx m.SelectedTaskIdx.toNat else m.Tasks,
                        State := .StateBrowse } : Model TI).ValidateCursor, []) := by
  unfold Model.Update
  by_cases h : m.selectedInRange = true
  · have h' : ({ m with Loading := false } : Model TI).selectedInRange = true := h
    simp only [if_pos h, if_pos h']
  · have h' : ¬ ({ m with Loading := false } : Model TI).selectedInRange = true := h
    simp only [if_neg h, if_neg h']

/-- Claim C12. A delete result without error always returns, with no effect,
in the state Browse, with `Loading` false and the cursor a valid index of the
new list (left where it was when it is one). When `SelectedTaskIdx` is an
index of the task list, the new list is the old one without the element at
that index: one task fewer, the tasks before the index where they were and
the tasks after it one place earlier, each unchanged. When `SelectedTaskIdx`
is out of range the task list is unchanged. -/
theorem deleted_removes_recorded_index (env : Env TI) (m : Model TI) :
    ∃ m' : Model TI, m.Update env (.TaskDeletedMsg none) = some (m', []) ∧
      m'.State = .StateBrowse ∧ m'.Loading = false ∧ m'.CursorValid ∧
      (0 ≤ m.Cursor ∧ m.Cursor < goLen m'.Tasks → m'.Cursor = m.Cursor) ∧
      (0 ≤ m.SelectedTaskIdx ∧ m.SelectedTaskIdx < goLen m.Tasks →
        m'.Tasks = m.Tasks.eraseIdx m.SelectedTaskIdx.toNat ∧
        m'.Tasks = m.Tasks.take m.SelectedTaskIdx.toNat
          ++ m.Tasks.drop (m.SelectedTaskIdx.toNat + 1) ∧
        m'.Tasks.length + 1 = m.Tasks.length ∧
        (∀ j : Nat, j < m.SelectedTaskIdx.toNat → m'.Tasks[j]? = m.Tasks[j]?) ∧
        (∀ j : Nat, m.SelectedTaskIdx.toNat ≤ j → m'.Tasks[j]? = m.Tasks[j + 1]?)) ∧
      (¬ (0 ≤ m.SelectedTaskIdx ∧ m.SelectedTaskIdx < goLen m.Tasks) → m'.Tasks = m.Tasks) := by
  refine ⟨_, Update_deleted env m, ?_⟩
  generalize hm1 : ({ m with
      Loading := false,
      Tasks := if m.selectedInRange = true
        then m.Tasks.eraseIdx m.SelectedTaskIdx.toNat else m.Tasks,
      State := .StateBrowse } : Model TI) = m1
  have hst : m1.State = .StateBrowse := by rw [← hm1]
  have hld : m1.Loading = false := by rw [← hm1]
  have hcur : m1.Cursor = m.Cursor := by rw [← hm1]
  have hts : m1.Tasks = if m.selectedInRange = true
      then m.Tasks.eraseIdx m.SelectedTaskIdx.toNat else m.Tasks := by rw [← hm1]
  obtain ⟨hv, hk⟩ := ValidateCursor_valid m1 (by rw [hst]; decide)
  have hf := ValidateCursor_frame m1
  have he := ValidateCursor_eq m1
  refine ⟨by rw [hf.2.1, hst], by rw [he]; exact hld, hv, ?_, ?_, ?_⟩
  · intro hc
    rw [hf.1] at hc
    rw [← hcur]
    exact hk (by rw [hcur]; exact hc)
  · intro hr
    have hsel := (selectedInRange_iff m).mpr hr
    rw [hf.1, hts, if_pos hsel]
    have hlt : m.SelectedTaskIdx.toNat < m.Tasks.length := by
      have := hr.2; unfold goLen at this; omega
    refine ⟨rfl, List.eraseIdx_eq_take_drop_succ _ _, ?_, ?_, ?_⟩
    · rw [List.length_eraseIdx, if_pos hlt]; omega
    · intro j hj; exact List.getElem?_eraseIdx_of_lt _ _ _ hj
    · intro j hj; exact List.getElem?_eraseIdx_of_ge _ _ _ hj
  · intro hr
    have hsel : ¬ m.selectedInRange = true := fun h => hr ((selectedInRange_iff m).mp h)
    rw [hf.1, hts, if_neg hsel]

/-- Claim C12 at a concrete input: with tasks 0, 1, 2 and the second one
recorded, the delete result leaves tasks 0 and 2, in the state Browse. -/
theorem deleted_removes_recorded_index_witness :
    ∃ m' : Model PlainInput,
      confirmModel.Update (goEnv 0) (.TaskDeletedMsg none) = some (m', []) ∧
      m'.Tasks = [sampleTask 0 "" 3 none, sampleTask 2 "" 1 none] ∧
      m'.State = .StateBrowse :=
  (deleted_removes_recorded_index (goEnv 0) confirmModel).imp
    (fun _ h => ⟨h.1, (h.2.2.2.2.2.1 ⟨by decide, by decide⟩).1, h.2.1⟩)

end models

namespace models
variable {TI : Type}

/-- Claim C13, what the code does. A delete result that carries an error
returns, with no effect, a model whose `ErrorMsg` is the text of the error,
in the state Browse with `Loading` false, and whose task list is the list
before, element by element: nothing is removed, and no flag of a task is
written, so a task that is in its deletion animation stays in it. -/
theorem failed_delete_keeps_animation (env : Env TI) (m : Model TI) (e : api.GoError) :
    ∃ m' : Model TI, m.Update env (.TaskDeletedMsg (some e)) = some (m', []) ∧
      m'.ErrorMsg = e.Error ∧ m'.Tasks = m.Tasks ∧ m'.State = .StateBrowse ∧
      m'.Loading = false ∧
      (∀ t ∈ m.Tasks, t.IsDeleting = true → ∃ u ∈ m'.Tasks, u = t ∧ u.IsDeleting = true) := by
  refine ⟨_, rfl, ?_⟩
  generalize hm1 : ({ m with
      Loading := false, ErrorMsg := e.Error, State := .StateBrowse } : Model TI) = m1
  have he := ValidateCursor_eq m1
  have hf := ValidateCursor_frame m1
  have ht : m1.Tasks = m.Tasks := by rw [← hm1]
  refine ⟨by rw [he, ← hm1], by rw [hf.1, ht], by rw [hf.2.1, ← hm1], by rw [he, ← hm1], ?_⟩
  intro t hmem hd
  exact ⟨t, by rw [hf.1, ht]; exact hmem, rfl, hd⟩

/-- Claim C13 fails on the task of `deletingModel`: a tick more than 200 ms
after the start of its deletion animation commits the deletion; the delete
result with an error then leaves the task with `IsDeleting` set, and the
next tick schedules the delete of task 7 again. -/
theorem failed_delete_row_stays_animated :
    (deletingModel 0).Update (goEnv 200000001) .TickMsg
      = some (deletingModel 0, [Effect.deleteTask 7]) ∧
    (deletingModel 0).Update (goEnv 200000002) (.TaskDeletedMsg (some (.other "timeout")))
      = some ({ deletingModel 0 with ErrorMsg := "timeout" }, []) ∧
    ({ deletingModel 0 with ErrorMsg := "timeout" } : Model PlainInput).Tasks.map
        (fun t => (t.ID, t.IsDeleting)) = [(7, true)] ∧
    ({ deletingModel 0 with ErrorMsg := "timeout" } : Model PlainInput).Update
        (goEnv 300000000) .TickMsg
      = some ({ deletingModel 0 with ErrorMsg := "timeout" }, [Effect.deleteTask 7]) := by
  refine ⟨by decide, by decide, by decide, by decide⟩

end models

namespace models
variable {TI : Type}

/-- The loop of the `TaskUpdatedMsg` case writes the first task with the id
of `u`, and that task only. -/
theorem mergeTask_split (u : api.Task) (pre : List Task) (t : Task) (post : List Task)
    (ht : t.ID = u.ID) (hpre : ∀ x ∈ pre, x.ID ≠ u.ID) :
    mergeTask u (pre ++ t :: post) = pre ++ { t with toTask := u } :: post := by
  induction pre with
  | nil => simp [mergeTask, ht]
  | cons p pre ih =>
    have hp : ¬ p.ID = u.ID := hpre p (List.mem_cons_self _ _)
    simp only [List.cons_append, mergeTask, if_neg hp]
    exact congrArg (List.cons p) (ih (fun x hx => hpre x (List.mem_cons_of_mem _ hx)))

/-- The loop of the `TaskUpdatedMsg` case leaves a list without the id of
`u` as it is. -/
theorem mergeTask_absent (u : api.Task) (l : List Task) (h : ∀ x ∈ l, x.ID ≠ u.ID) :
    mergeTask u l = l := by
  induction l with
  | nil => rfl
  | cons p rest ih =>
    have hp : ¬ p.ID = u.ID := h p (List.mem_cons_self _ _)
    simp only [mergeTask, if_neg hp]
    rw [ih (fun x hx => h x (List.mem_cons_of_mem _ hx))]

/-- Claim C14. Given what `sort.Slice` promises, an update result without
error that carries task `u` returns, with no effect, a model whose task list
is a rearrangement, in the order of the sort mode, of the merged list. The
merged list is the old list in which the first task with the id of `u` has
the data of `u` and its own display fields (`Expanded`, `IsAnimatingCheck`,
`IsDeleting`, `AnimType`, `AnimStart`), every other task being as it was;
with no task of that id it is the old list itself, so the tasks and their
number are unchanged. The cursors, the page, the categories, the two status
messages, the sort mode and the client are not written. -/
theorem updated_merges_by_id (env : Env TI) (m : Model TI) (u : api.Task)
    (hsort : SliceSorts env.sortSlice) :
    ∃ m' : Model TI, m.Update env (.TaskUpdatedMsg (some u) none) = some (m', []) ∧
      m'.Tasks.Perm (mergeTask u m.Tasks) ∧
      m'.Tasks.Pairwise (modeOrdered m.SortMode) ∧
      m'.Tasks.length = m.Tasks.length ∧
      (∀ (pre : List Task) (t : Task) (post : List Task), m.Tasks = pre ++ t :: post →
        t.ID = u.ID → (∀ x ∈ pre, x.ID ≠ u.ID) →
        mergeTask u m.Tasks = pre ++ { t with toTask := u } :: post ∧
        ({ t with toTask := u } : Task).toTask = u ∧
        ({ t with toTask := u } : Task).Expanded = t.Expanded ∧
        ({ t with toTask := u } : Task).IsAnimatingCheck = t.IsAnimatingCheck ∧
        ({ t with toTask := u } : Task).IsDeleting = t.IsDeleting ∧
        ({ t with toTask := u } : Task).AnimType = t.AnimType ∧
        ({ t with toTask := u } : Task).AnimStart = t.AnimStart) ∧
      ((∀ x ∈ m.Tasks, x.ID ≠ u.ID) → mergeTask u m.Tasks = m.Tasks ∧ m'.Tasks.Perm m.Tasks) ∧
      m'.Cursor = m.Cursor ∧ m'.CategoryCursor = m.CategoryCursor ∧ m'.Page = m.Page ∧
      m'.Categories = m.Categories ∧ m'.ErrorMsg = m.ErrorMsg ∧ m'.SuccessMsg = m.SuccessMsg ∧
      m'.SortMode = m.SortMode ∧ m'.Client = m.Client ∧
      m'.SelectedTaskIdx = m.SelectedTaskIdx := by
  have key : ∃ m' : Model TI, m.Update env (.TaskUpdatedMsg (some u) none) = some (m', []) ∧
      m'.Tasks = env.sortSlice (sortLess m.SortMode) (mergeTask u m.Tasks) ∧
      m'.Cursor = m.Cursor ∧ m'.CategoryCursor = m.CategoryCursor ∧ m'.Page = m.Page ∧
      m'.Categories = m.Categories ∧ m'.ErrorMsg = m.ErrorMsg ∧ m'.SuccessMsg = m.SuccessMsg ∧
      m'.SortMode = m.SortMode ∧ m'.Client = m.Client ∧
      m'.SelectedTaskIdx = m.SelectedTaskIdx := by
    unfold Model.Update
    simp only [ApplySort_eq]
    split_ifs <;> exact ⟨_, rfl, rfl, rfl, rfl, rfl, rfl, rfl, rfl, rfl, rfl, rfl⟩
  obtain ⟨m', hu, ht, hrest⟩ := key
  have hperm : m'.Tasks.Perm (mergeTask u m.Tasks) := by
    rw [ht]; exact (hsort _ _).1
  refine ⟨m', hu, hperm, ?_, ?_, ?_, ?_, hrest⟩
  · rw [ht]
    exact ((hsort (sortLess m.SortMode) _).2 (strictWeak_sortLess m.SortMode)).imp
      (fun {a b} hab => modeOrdered_of_not_less m.SortMode a b hab)
  · rw [hperm.length_eq, length_mergeTask]
  · intro pre t post hsplit hid hpre
    rw [hsplit]
    exact ⟨mergeTask_split u pre t post hid hpre, rfl, rfl, rfl, rfl, rfl, rfl⟩
  · intro habs
    have := mergeTask_absent u m.Tasks habs
    exact ⟨this, by rw [← this]; exact hperm⟩

/-- Claim C14 at three tasks sorted by merge sort in creation mode: the
result for task 2, renamed and done, takes the place of task 2 and keeps its
display fields; a result for task 5, which is not in the list, leaves the
list as it is. -/
theorem updated_merges_by_id_witness :
    SliceSorts (mergeEnv 0).sortSlice ∧
    (∃ m' : Model PlainInput,
      mergeModel.Update (mergeEnv 0)
        (.TaskUpdatedMsg (some { (sampleTask 2 "B2" 0 none).toTask with Status := "done" })
          none) = some (m', []) ∧
      m'.Tasks.Perm [sampleTask 3 "C" 0 none,
        { sampleTask 2 "B2" 0 none with
            Status := "done", Expanded := true, IsAnimatingCheck := true, AnimType := 4,
            AnimStart := 9 },
        sampleTask 1 "A" 0 none]) ∧
    (∃ m' : Model PlainInput,
      mergeModel.Update (mergeEnv 0)
        (.TaskUpdatedMsg (some (sampleTask 5 "E" 0 none).toTask) none) = some (m', []) ∧
      m'.Tasks.Perm mergeModel.Tasks) :=
  ⟨mergeSortSlice_sorts,
    (updated_merges_by_id (mergeEnv 0) mergeModel
      { (sampleTask 2 "B2" 0 none).toTask with Status := "done" } mergeSortSlice_sorts).imp
      (fun _ h => ⟨h.1, h.2.1⟩),
    (updated_merges_by_id (mergeEnv 0) mergeModel (sampleTask 5 "E" 0 none).toTask
      mergeSortSlice_sorts).imp
      (fun _ h => ⟨h.1, (h.2.2.2.2.2.1 (by decide)).2⟩)⟩

end models

namespace models
variable {TI : Type}

/-- A key in the state Login or Register goes to `updateAuth`, the two
status messages cleared. -/
theorem Update_key_auth (env : Env TI) (m : Model TI) (key : String)
    (hstate : m.State = .StateLogin ∨ m.State = .StateRegister) :
    m.Update env (.KeyMsg key)
      = ({ m with ErrorMsg := "", SuccessMsg := "" } : Model TI).updateAuth env key := by
  rcases hstate with h | h <;> simp only [Model.Update, h]

/-- The key "enter" in `updateAuth`. -/
theorem updateAuth_enter (env : Env TI) (m : Model TI) :
    m.updateAuth env "enter"
      = if env.input.Value m.EmailInput = "" ∨ env.input.Value m.PasswordInput = "" then
          some ({ m with ErrorMsg := "Email and password are required" }, [])
        else if m.State = .StateLogin then
          some ({ m with Loading := true },
            [Effect.login (env.input.Value m.EmailInput) (env.input.Value m.PasswordInput)])
        else
          some ({ m with Loading := true },
            [Effect.register (env.input.Value m.EmailInput) (env.input.Value m.PasswordInput)]) := by
  unfold Model.updateAuth
  rw [if_neg (by decide), if_neg (by decide), if_neg (by decide), if_pos rfl]

/-- Claim C16. In the state Login or Register the key "enter" returns. With
the email or the password empty, the returned model has the message "Email
and password are required" as `ErrorMsg` and is otherwise the model before
with its status messages cleared (`State`, `Loading` and both fields as they
were), and no effect is scheduled. With both filled in, `Loading` is set and
the one effect scheduled is the login call in the state Login, the register
call in the state Register, with the two texts. -/
theorem auth_enter_validates (env : Env TI) (m : Model TI)
    (hstate : m.State = .StateLogin ∨ m.State = .StateRegister) :
    (env.input.Value m.EmailInput = "" ∨ env.input.Value m.PasswordInput = "" →
      ∃ m' : Model TI, m.Update env (.KeyMsg "enter") = some (m', []) ∧
        m'.ErrorMsg = "Email and password are required" ∧ m'.State = m.State ∧
        m'.Loading = m.Loading ∧ m'.EmailInput = m.EmailInput ∧
        m'.PasswordInput = m.PasswordInput ∧
        m' = { m with ErrorMsg := "Email and password are required", SuccessMsg := "" }) ∧
    (env.input.Value m.EmailInput ≠ "" ∧ env.input.Value m.PasswordInput ≠ "" →
      ∃ m' : Model TI,
        m.Update env (.KeyMsg "enter")
          = some (m', [if m.State = .StateLogin
              then Effect.login (env.input.Value m.EmailInput) (env.input.Value m.PasswordInput)
              else Effect.register (env.input.Value m.EmailInput)
                (env.input.Value m.PasswordInput)]) ∧
        m'.Loading = true ∧ m'.State = m.State ∧
        m' = { m with Loading := true, ErrorMsg := "", SuccessMsg := "" }) := by
  rw [Update_key_auth env m "enter" hstate, updateAuth_enter]
  constructor
  · intro hempty
    have hempty' : env.input.Value ({ m with ErrorMsg := "", SuccessMsg := "" } : Model TI).EmailInput
        = "" ∨ env.input.Value ({ m with ErrorMsg := "", SuccessMsg := "" } : Model TI).PasswordInput
        = "" := hempty
    rw [if_pos hempty']
    exact ⟨_, rfl, rfl, rfl, rfl, rfl, rfl, rfl⟩
  · intro hfull
    have hfull' : ¬ (env.input.Value
        ({ m with ErrorMsg := "", SuccessMsg := "" } : Model TI).EmailInput = "" ∨
        env.input.Value ({ m with ErrorMsg := "", SuccessMsg := "" } : Model TI).PasswordInput
        = "") := fun h => h.elim hfull.1 hfull.2
    rw [if_neg hfull']
    by_cases hl : m.State = .StateLogin
    · have hl' : ({ m with ErrorMsg := "", SuccessMsg := "" } : Model TI).State = .StateLogin := hl
      rw [if_pos hl', if_pos hl]
      exact ⟨_, rfl, rfl, rfl, rfl⟩
    · have hl' : ¬ ({ m with ErrorMsg := "", SuccessMsg := "" } : Model TI).State = .StateLogin :=
        hl
      rw [if_neg hl', if_neg hl]
      exact ⟨_, rfl, rfl, rfl, rfl⟩

/-- Claim C16 on the login form: with the password empty, "enter" gives the
validation message and no effect; with both fields filled in, it sets
`Loading` and schedules the login call with the two texts. -/
theorem auth_enter_validates_witness :
    (∃ m' : Model PlainInput,
      (loginModel "a@b.c" "").Update (goEnv 0) (.KeyMsg "enter") = some (m', []) ∧
        m'.ErrorMsg = "Email and password are required" ∧ m'.Loading = false) ∧
    (∃ m' : Model PlainInput,
      (loginModel "a@b.c" "pw").Update (goEnv 0) (.KeyMsg "enter")
        = some (m', [Effect.login "a@b.c" "pw"]) ∧ m'.Loading = true) :=
  ⟨((auth_enter_validates (goEnv 0) (loginModel "a@b.c" "") (Or.inl rfl)).1
      (Or.inr rfl)).imp (fun _ h => ⟨h.1, h.2.1, h.2.2.2.1⟩),
    ((auth_enter_validates (goEnv 0) (loginModel "a@b.c" "pw") (Or.inl rfl)).2
      ⟨by decide, by decide⟩).imp (fun _ h => ⟨h.1, h.2.1⟩)⟩

end models

namespace models
variable {TI : Type}

/-- A key in the state Browse goes to `updateBrowse`, the two status
messages cleared. -/
theorem Update_key_browse (env : Env TI) (m : Model TI) (key : String)
    (hstate : m.State = .StateBrowse) :
    m.Update env (.KeyMsg key)
      = ({ m with ErrorMsg := "", SuccessMsg := "" } : Model TI).updateBrowse env key := by
  simp only [Model.Update, hstate]

/-- What `RandomAnimType` returns is one of the draws, and not the kind it
was given. -/
theorem RandomAnimType_spec (draws : List Int) (lastAnim a : Int)
    (h : RandomAnimType draws lastAnim = some a) : a ∈ draws ∧ a ≠ lastAnim := by
  induction draws with
  | nil => simp [RandomAnimType] at h
  | cons d rest ih =>
    unfold RandomAnimType at h
    by_cases hd : d = lastAnim ∧ AnimCount > 1
    · rw [if_pos hd] at h
      exact ⟨List.mem_cons_of_mem _ (ih h).1, (ih h).2⟩
    · rw [if_neg hd] at h
      have hda : d = a := Option.some.inj h
      subst hda
      refine ⟨List.mem_cons_self _ _, ?_⟩
      intro heq
      exact hd ⟨heq, by decide⟩

/-- The key " " in `updateBrowse` on a selected task that is not done. -/
theorem updateBrowse_space_open (env : Env TI) (m : Model TI) (t : Task) (a : Int)
    (h0 : 0 ≤ m.Cursor) (h1 : m.Cursor < goLen m.Tasks)
    (ht : goIndex m.Tasks m.Cursor = some t) (hs : t.Status ≠ "done")
    (ha : RandomAnimType env.animDraws m.LastAnim = some a) :
    m.updateBrowse env " "
      = some ({ m with
                  Tasks := m.Tasks.set m.Cursor.toNat
                    { t with IsAnimatingCheck := true, AnimStart := env.now, AnimType := a },
                  LastAnim := a },
              [Effect.tick, Effect.updateTaskStatus t.ID "done"]) := by
  unfold Model.updateBrowse
  rw [if_neg (by decide), if_neg (by decide), if_neg (by decide), if_neg (by decide),
    if_neg (by decide), if_neg (by decide), if_neg (by decide), if_neg (by decide),
    if_neg (by decide), if_neg (by decide), if_neg (by decide), if_neg (by decide),
    if_neg (by decide), if_neg (by decide), if_neg (by decide), if_pos rfl,
    if_pos ((hasSelection_iff m).mpr ⟨h0, h1⟩), ht]
  simp only [Option.bind_eq_bind, Option.some_bind, if_neg hs, if_true, ha,
    goSet_of_lt _ _ _ h0 h1, TickCmd]
  rfl

/-- The key " " in `updateBrowse` on a selected task that is done. -/
theorem updateBrowse_space_done (env : Env TI) (m : Model TI) (t : Task)
    (h0 : 0 ≤ m.Cursor) (h1 : m.Cursor < goLen m.Tasks)
    (ht : goIndex m.Tasks m.Cursor = some t) (hs : t.Status = "done") :
    m.updateBrowse env " " = some (m, [Effect.updateTaskStatus t.ID "open"]) := by
  unfold Model.updateBrowse
  rw [if_neg (by decide), if_neg (by decide), if_neg (by decide), if_neg (by decide),
    if_neg (by decide), if_neg (by decide), if_neg (by decide), if_neg (by decide),
    if_neg (by decide), if_neg (by decide), if_neg (by decide), if_neg (by decide),
    if_neg (by decide), if_neg (by decide), if_neg (by decide), if_pos rfl,
    if_pos ((hasSelection_iff m).mpr ⟨h0, h1⟩), ht]
  simp only [Option.bind_eq_bind, Option.some_bind, if_pos hs]
  rw [if_neg (by decide)]

end models

namespace models
variable {TI : Type}

/-- `ValidatePage`, when it returns, has written the page only. -/
theorem ValidatePage_some (m m' : Model TI) (h : m.ValidatePage = some m') :
    m' = { m with Page := m'.Page } := by
  unfold Model.ValidatePage at h
  cases htp : m.TotalPages with
  | none => rw [htp] at h; simp at h
  | some tp =>
    rw [htp] at h
    simp only [Option.bind_eq_bind, Option.some_bind, Option.some.injEq] at h
    rw [← h]
    split_ifs <;> rfl

/-- `EnsureCursorVisible`, when it returns, has written the page only. -/
theorem EnsureCursorVisible_some (m m' : Model TI) (h : m.EnsureCursorVisible = some m') :
    m' = { m with Page := m'.Page } := by
  unfold Model.EnsureCursorVisible at h
  by_cases h0 : goLen m.Tasks = 0
  · rw [if_pos h0] at h
    rw [← Option.some.inj h]
  · rw [if_neg h0] at h
    cases hd : goDiv m.Cursor m.PageSize with
    | none => rw [hd] at h; simp at h
    | some p =>
      rw [hd] at h
      simp only [Option.bind_eq_bind, Option.some_bind] at h
      have := ValidatePage_some _ _ h
      rw [this]

/-- `TotalPages` returns unless the page size is 0 while there are tasks. -/
theorem TotalPages_returns_of_ne (m : Model TI) (h : m.PageSize ≠ 0 ∨ m.Tasks = []) :
    ∃ tp, m.TotalPages = some tp := by
  unfold Model.TotalPages
  by_cases h0 : goLen m.Tasks = 0
  · rw [if_pos h0]; exact ⟨_, rfl⟩
  · rw [if_neg h0]
    have hs : m.PageSize ≠ 0 := by
      rcases h with h | h
      · exact h
      · exact absurd ((goLen_eq_zero_iff _).mpr h) h0
    unfold goDiv goMod
    rw [if_neg hs, if_neg hs]
    simp only [Option.bind_eq_bind, Option.some_bind]
    split_ifs <;> exact ⟨_, rfl⟩

/-- `EnsureCursorVisible` returns unless the page size is 0 while there are
tasks. -/
theorem EnsureCursorVisible_returns (m : Model TI) (h : m.PageSize ≠ 0 ∨ m.Tasks = []) :
    ∃ m', m.EnsureCursorVisible = some m' := by
  unfold Model.EnsureCursorVisible
  by_cases h0 : goLen m.Tasks = 0
  · rw [if_pos h0]; exact ⟨_, rfl⟩
  · rw [if_neg h0]
    have hs : m.PageSize ≠ 0 := by
      rcases h with h | h
      · exact h
      · exact absurd ((goLen_eq_zero_iff _).mpr h) h0
    unfold goDiv
    rw [if_neg hs]
    simp only [Option.bind_eq_bind, Option.some_bind]
    obtain ⟨tp, htp⟩ := TotalPages_returns_of_ne
      ({ m with Page := Int.tdiv m.Cursor m.PageSize } : Model TI) (Or.inl hs)
    unfold Model.ValidatePage
    rw [htp]
    exact ⟨_, rfl⟩

/-- The `TasksLoadedMsg` case with an error, as one expression. -/
theorem Update_tasksLoaded_err (env : Env TI) (m : Model TI) (tasks : List api.Task)
    (e : api.GoError) :
    m.Update env (.TasksLoadedMsg tasks (some e))
      = (({ m with
              Loading := false, ErrorMsg := e.Error,
              State := if e.isUnauthorized = true then .StateLogin else m.State,
              Client := if e.isUnauthorized = true then m.Client.ClearToken else m.Client }
            : Model TI).ValidateCursor.EnsureCursorVisible).bind
          (fun m' => some (m', [])) := by
  cases e with
  | apiError code msg =>
    by_cases h : api.IsUnauthorized code = true
    · simp only [Model.Update, api.GoError.isUnauthorized, h, if_true]
      rfl
    · simp only [Model.Update, api.GoError.isUnauthorized, h, if_false]
      rfl
  | other text =>
    simp only [Model.Update, api.GoError.isUnauthorized, if_false]
    rfl

/-- What a task list that arrives with an error leaves, when `Update`
returns: only `Loading`, `ErrorMsg`, `State`, the client, the cursor and the
page are written. -/
theorem tasksLoaded_err_some (env : Env TI) (m m' : Model TI) (tasks : List api.Task)
    (e : api.GoError) (cmds : Cmd)
    (h : m.Update env (.TasksLoadedMsg tasks (some e)) = some (m', cmds)) :
    cmds = [] ∧ m'.Loading = false ∧ m'.ErrorMsg = e.Error ∧ m'.Tasks = m.Tasks ∧
      m'.Categories = m.Categories ∧ m'.SuccessMsg = m.SuccessMsg ∧
      m'.State = (if e.isUnauthorized = true then .StateLogin else m.State) ∧
      m'.Client = (if e.isUnauthorized = true then m.Client.ClearToken else m.Client) := by
  rw [Update_tasksLoaded_err] at h
  generalize hm1 : ({ m with
      Loading := false, ErrorMsg := e.Error,
      State := if e.isUnauthorized = true then .StateLogin else m.State,
      Client := if e.isUnauthorized = true then m.Client.ClearToken else m.Client }
    : Model TI) = m1 at h
  cases hecv : m1.ValidateCursor.EnsureCursorVisible with
  | none => rw [hecv] at h; simp at h
  | some m2 =>
    rw [hecv] at h
    simp only [Option.bind_eq_bind, Option.some_bind, Option.some.injEq, Prod.mk.injEq] at h
    obtain ⟨h1, h2⟩ := h
    subst h1
    have e2 := EnsureCursorVisible_some _ _ hecv
    have e1 := ValidateCursor_eq m1
    refine ⟨h2.symm, ?_, ?_, ?_, ?_, ?_, ?_, ?_⟩ <;> rw [e2, e1, ← hm1]

/-- A task list that arrives with an error is handled unless the page size
is 0 while there are tasks. -/
theorem tasksLoaded_err_returns (env : Env TI) (m : Model TI) (tasks : List api.Task)
    (e : api.GoError) (hs : m.PageSize ≠ 0 ∨ m.Tasks = []) :
    ∃ m', m.Update env (.TasksLoadedMsg tasks (some e)) = some (m', []) := by
  rw [Update_tasksLoaded_err]
  generalize hm1 : ({ m with
      Loading := false, ErrorMsg := e.Error,
      State := if e.isUnauthorized = true then .StateLogin else m.State,
      Client := if e.isUnauthorized = true then m.Client.ClearToken else m.Client }
    : Model TI) = m1
  have hf := ValidateCursor_frame m1
  have hs1 : m1.ValidateCursor.PageSize ≠ 0 ∨ m1.ValidateCursor.Tasks = [] := by
    rw [hf.1, hf.2.2.1, ← hm1]; exact hs
  obtain ⟨m2, h2⟩ := EnsureCursorVisible_returns _ hs1
  exact ⟨m2, by rw [h2]; rfl⟩

end models

namespace models
variable {TI : Type}

/-- Claim C15. Let a task list arrive with an error, in any state. Whenever
`Update` returns, the returned model has `Loading` false and the task list
of the model before, and no effect is scheduled; if the error is an API
error classified as unauthorized (status code 401), the state is Login and
the token of the client is cleared (the token empty, its file removed,
`HasToken` false); if it is not, the state and the client are as they were.
`Update` returns unless the page size is 0 while there are tasks (`NewModel`
sets the page size to 10 and nothing writes it). -/
theorem tasksLoaded_unauthorized_to_login (env : Env TI) (m : Model TI)
    (tasks : List api.Task) (e : api.GoError) :
    (∀ (m' : Model TI) (cmds : Cmd),
      m.Update env (.TasksLoadedMsg tasks (some e)) = some (m', cmds) →
        cmds = [] ∧ m'.Loading = false ∧ m'.Tasks = m.Tasks ∧
        (e.isUnauthorized = true →
          m'.State = .StateLogin ∧ m'.Client = m.Client.ClearToken ∧ m'.Client.token = "" ∧
          m'.Client.tokenFile = none ∧ m'.Client.HasToken = false) ∧
        (e.isUnauthorized = false → m'.State = m.State ∧ m'.Client = m.Client)) ∧
    (m.PageSize ≠ 0 ∨ m.Tasks = [] →
      ∃ m' : Model TI, m.Update env (.TasksLoadedMsg tasks (some e)) = some (m', [])) ∧
    (e.isUnauthorized = true ↔ ∃ message, e = .apiError 401 message) := by
  refine ⟨?_, tasksLoaded_err_returns env m tasks e, ?_⟩
  · intro m' cmds h
    obtain ⟨h1, h2, -, h4, -, -, h7, h8⟩ := tasksLoaded_err_some env m m' tasks e cmds h
    refine ⟨h1, h2, h4, ?_, ?_⟩
    · intro hu
      rw [if_pos hu] at h7 h8
      refine ⟨h7, h8, ?_, ?_, ?_⟩ <;> rw [h8] <;> rfl
    · intro hu
      rw [if_neg (by rw [hu]; decide)] at h7 h8
      exact ⟨h7, h8⟩
  · cases e with
    | apiError code message =>
      simp only [api.GoError.isUnauthorized, api.IsUnauthorized, beq_iff_eq,
        api.GoError.apiError.injEq]
      constructor
      · intro h; exact ⟨message, h, rfl⟩
      · rintro ⟨_, h, -⟩; exact h
    | other text =>
      simp [api.GoError.isUnauthorized]

/-- Claim C15 on the help screen: a task list that arrives with the error
401 leads to the state Login with the token cleared; with the error 500 the
state stays Help and the token stays. -/
theorem tasksLoaded_unauthorized_to_login_witness :
    (∃ m' : Model PlainInput,
      helpModel.Update (goEnv 0) (.TasksLoadedMsg [] (some (.apiError 401 "Unauthorized")))
        = some (m', []) ∧
      m'.State = .StateLogin ∧ m'.Client.token = "" ∧ m'.Loading = false ∧
      m'.Tasks = helpModel.Tasks) ∧
    (∃ m' : Model PlainInput,
      helpModel.Update (goEnv 0) (.TasksLoadedMsg [] (some (.apiError 500 "Server error")))
        = some (m', []) ∧
      m'.State = .StateHelp ∧ m'.Client.token = "t") :=
  have h1 := tasksLoaded_unauthorized_to_login (goEnv 0) helpModel []
    (.apiError 401 "Unauthorized")
  have h2 := tasksLoaded_unauthorized_to_login (goEnv 0) helpModel []
    (.apiError 500 "Server error")
  ⟨(h1.2.1 (Or.inl (by decide))).elim (fun m' h =>
      ⟨m', h, ((h1.1 m' [] h).2.2.2.1 rfl).1, ((h1.1 m' [] h).2.2.2.1 rfl).2.2.1,
        (h1.1 m' [] h).2.1, (h1.1 m' [] h).2.2.1⟩),
    (h2.2.1 (Or.inl (by decide))).elim (fun m' h =>
      ⟨m', h, ((h2.1 m' [] h).2.2.2.2 rfl).1,
        by rw [((h2.1 m' [] h).2.2.2.2 rfl).2]; rfl⟩)⟩

end models

namespace models
variable {TI : Type}

/-- The `TasksLoadedMsg` case without error, as one expression. -/
theorem Update_tasksLoaded_ok (env : Env TI) (m : Model TI) (tasks : List api.Task) :
    m.Update env (.TasksLoadedMsg tasks none)
      = (({ m with
              Loading := false, ErrorMsg := "",
              Tasks := env.sortSlice (sortLess m.SortMode) (tasks.map Task.ofApi) }
            : Model TI).ValidateCursor.EnsureCursorVisible).bind
          (fun m' => some (m', [])) := by
  simp only [Model.Update, ApplySort_eq]
  rfl

/-- What a task list that arrives without error leaves, when `Update`
returns, of the fields that report on a call. -/
theorem tasksLoaded_ok_some (env : Env TI) (m m' : Model TI) (tasks : List api.Task)
    (cmds : Cmd) (h : m.Update env (.TasksLoadedMsg tasks none) = some (m', cmds)) :
    cmds = [] ∧ m'.Loading = false ∧ m'.ErrorMsg = "" ∧ m'.SuccessMsg = m.SuccessMsg ∧
      m'.Categories = m.Categories := by
  rw [Update_tasksLoaded_ok] at h
  generalize hm1 : ({ m with
      Loading := false, ErrorMsg := "",
      Tasks := env.sortSlice (sortLess m.SortMode) (tasks.map Task.ofApi) } : Model TI) = m1 at h
  cases hecv : m1.ValidateCursor.EnsureCursorVisible with
  | none => rw [hecv] at h; simp at h
  | some m2 =>
    rw [hecv] at h
    simp only [Option.bind_eq_bind, Option.some_bind, Option.some.injEq, Prod.mk.injEq] at h
    obtain ⟨h1, h2⟩ := h
    subst h1
    have e2 := EnsureCursorVisible_some _ _ hecv
    have e1 := ValidateCursor_eq m1
    refine ⟨h2.symm, ?_, ?_, ?_, ?_⟩ <;> rw [e2, e1, ← hm1]

/-- A task list that arrives without error is handled unless the page size
is 0. -/
theorem tasksLoaded_ok_returns (env : Env TI) (m : Model TI) (tasks : List api.Task)
    (hs : m.PageSize ≠ 0) :
    ∃ m', m.Update env (.TasksLoadedMsg tasks none) = some (m', []) := by
  rw [Update_tasksLoaded_ok]
  generalize hm1 : ({ m with
      Loading := false, ErrorMsg := "",
      Tasks := env.sortSlice (sortLess m.SortMode) (tasks.map Task.ofApi) } : Model TI) = m1
  have hf := ValidateCursor_frame m1
  have hs1 : m1.ValidateCursor.PageSize ≠ 0 ∨ m1.ValidateCursor.Tasks = [] := by
    rw [hf.2.2.1, ← hm1]; exact Or.inl hs
  obtain ⟨m2, h2⟩ := EnsureCursorVisible_returns _ hs1
  exact ⟨m2, by rw [h2]; rfl⟩

/-- The `TaskCreatedMsg` case: what it writes of the fields that report on a
call. -/
theorem taskCreated_fields (env : Env TI) (m : Model TI) (task : Option api.Task)
    (err : Option api.GoError) :
    ∃ m' : Model TI, m.Update env (.TaskCreatedMsg task err) = some (m', []) ∧
      m'.Loading = false ∧ m'.Categories = m.Categories ∧
      (∀ e, err = some e →
        m'.ErrorMsg = e.Error ∧ m'.SuccessMsg = m.SuccessMsg ∧ m'.Tasks = m.Tasks) ∧
      (err = none → m'.ErrorMsg = m.ErrorMsg ∧
        (task ≠ none → m'.SuccessMsg = "Task created") ∧
        (task = none → m'.SuccessMsg = m.SuccessMsg)) := by
  cases err with
  | some e =>
    refine ⟨_, rfl, rfl, rfl, ?_, ?_⟩
    · intro e' he
      cases he
      exact ⟨rfl, rfl, rfl⟩
    · intro h; cases h
  | none =>
    cases task with
    | none =>
      refine ⟨_, rfl, rfl, rfl, ?_, ?_⟩
      · intro e' he; cases he
      · intro _; exact ⟨rfl, fun h => absurd rfl h, fun _ => rfl⟩
    | some t =>
      refine ⟨_, rfl, ?_, ?_, ?_, ?_⟩
      · show (Model.ValidateCursor _).Loading = false
        rw [ValidateCursor_eq, ApplySort_eq]
      · show (Model.ValidateCursor _).Categories = _
        rw [ValidateCursor_eq, ApplySort_eq]
      · intro e' he; cases he
      · intro _
        refine ⟨?_, fun _ => ?_, fun h => by cases h⟩
        · show (Model.ValidateCursor _).ErrorMsg = _
          rw [ValidateCursor_eq, ApplySort_eq]
        · show (Model.ValidateCursor _).SuccessMsg = _
          rw [ValidateCursor_eq, ApplySort_eq]

/-- The `TaskUpdatedMsg` case: what it writes of the fields that report on a
call. -/
theorem taskUpdated_fields (env : Env TI) (m : Model TI) (task : Option api.Task)
    (err : Option api.GoError) :
    ∃ m' : Model TI, m.Update env (.TaskUpdatedMsg task err) = some (m', []) ∧
      m'.Loading = false ∧ m'.Categories = m.Categories ∧ m'.SuccessMsg = m.SuccessMsg ∧
      (∀ e, err = some e → m'.ErrorMsg = e.Error ∧ m'.Tasks = m.Tasks) ∧
      (err = none → m'.ErrorMsg = m.ErrorMsg) := by
  cases err with
  | some e =>
    simp only [Model.Update]
    split_ifs
    all_goals
      refine ⟨_, rfl, rfl, rfl, rfl, ?_, ?_⟩
      · intro e' he; cases he; exact ⟨rfl, rfl⟩
      · intro h; cases h
  | none =>
    cases task with
    | none =>
      simp only [Model.Update]
      split_ifs
      all_goals
        refine ⟨_, rfl, rfl, rfl, rfl, ?_, ?_⟩
        · intro e' he; cases he
        · intro _; rfl
    | some u =>
      simp only [Model.Update, ApplySort_eq]
      split_ifs
      all_goals
        refine ⟨_, rfl, rfl, rfl, rfl, ?_, ?_⟩
        · intro e' he; cases he
        · intro _; rfl

/-- The `TaskDeletedMsg` case: what it writes of the fields that report on a
call. -/
theorem taskDeleted_fields (env : Env TI) (m : Model TI) (err : Option api.GoError) :
    ∃ m' : Model TI, m.Update env (.TaskDeletedMsg err) = some (m', []) ∧
      m'.Loading = false ∧ m'.Categories = m.Categories ∧ m'.SuccessMsg = m.SuccessMsg ∧
      (∀ e, err = some e → m'.ErrorMsg = e.Error ∧ m'.Tasks = m.Tasks) ∧
      (err = none → m'.ErrorMsg = m.ErrorMsg) := by
  cases err with
  | some e =>
    refine ⟨_, rfl, ?_, ?_, ?_, ?_, ?_⟩
    · show (Model.ValidateCursor _).Loading = false
      rw [ValidateCursor_eq]
    · show (Model.ValidateCursor _).Categories = _
      rw [ValidateCursor_eq]
    · show (Model.ValidateCursor _).SuccessMsg = _
      rw [ValidateCursor_eq]
    · intro e' he; cases he
      constructor
      · show (Model.ValidateCursor _).ErrorMsg = _
        rw [ValidateCursor_eq]
      · show (Model.ValidateCursor _).Tasks = _
        rw [ValidateCursor_eq]
    · intro h; cases h
  | none =>
    refine ⟨_, Update_deleted env m, ?_, ?_, ?_, ?_, ?_⟩
    · rw [ValidateCursor_eq]
    · rw [ValidateCursor_eq]
    · rw [ValidateCursor_eq]
    · intro e' he; cases he
    · intro _; rw [ValidateCursor_eq]

/-- The `LoginMsg` and `RegisterMsg` cases: what they write of the fields
that report on a call. -/
theorem auth_fields (env : Env TI) (m : Model TI) (err : Option api.GoError) (msg : Msg)
    (hmsg : msg = .LoginMsg err ∨ msg = .RegisterMsg err) :
    ∃ (m' : Model TI) (cmds : Cmd), m.Update env msg = some (m', cmds) ∧
      m'.Loading = false ∧ m'.Categories = m.Categories ∧ m'.Tasks = m.Tasks ∧
      (∀ e, err = some e → m'.ErrorMsg = e.Error ∧ m'.SuccessMsg = m.SuccessMsg) ∧
      (err = none → m'.ErrorMsg = "") := by
  rcases hmsg with rfl | rfl <;> cases err with
  | some e =>
    refine ⟨_, _, rfl, rfl, rfl, rfl, ?_, ?_⟩
    · intro e' he; cases he; exact ⟨rfl, rfl⟩
    · intro h; cases h
  | none =>
    refine ⟨_, _, rfl, rfl, rfl, rfl, ?_, ?_⟩
    · intro e' he; cases he
    · intro _; rfl

/-- The cases of `Update` that write neither status message nor `Loading`:
a resize, a category list, a tick, and a message of another type. -/
theorem quiet_fields (env : Env TI) (m : Model TI) (msg : Msg)
    (hmsg : (∃ w h, msg = .WindowSizeMsg w h) ∨ (∃ cats err, msg = .CategoriesLoadedMsg cats err)
      ∨ msg = .TickMsg ∨ msg = .other) :
    ∃ (m' : Model TI) (cmds : Cmd), m.Update env msg = some (m', cmds) ∧
      m'.Loading = m.Loading ∧ m'.ErrorMsg = m.ErrorMsg ∧ m'.SuccessMsg = m.SuccessMsg := by
  rcases hmsg with ⟨w, h, rfl⟩ | ⟨cats, err, rfl⟩ | rfl | rfl
  · exact ⟨_, _, rfl, rfl, rfl, rfl⟩
  · cases err <;> exact ⟨_, _, rfl, rfl, rfl, rfl⟩
  · exact ⟨_, _, rfl, rfl, rfl, rfl⟩
  · exact ⟨_, _, rfl, rfl, rfl, rfl⟩

end models

namespace models
variable {TI : Type}

/-- Claim C17, amended. For each of `TasksLoadedMsg`, `TaskCreatedMsg`,
`TaskUpdatedMsg`, `TaskDeletedMsg`, `LoginMsg` and `RegisterMsg`, the model
`Update` returns has `Loading` false, and when the event carries an error
its `ErrorMsg` is the text of that error and its task list and category
list are those of the model before; `Update` returns for each of them when
the page size is not 0. A `CategoriesLoadedMsg` is always handled, with no
effect: it leaves `Loading` and the task list as they were, takes over the
categories when it carries no error and keeps the old ones when it carries
one. -/
theorem completion_clears_loading (env : Env TI) (m : Model TI) (msg : Msg)
    (err : Option api.GoError) (hmsg : msg.resultErr = some err) :
    (∀ (m' : Model TI) (cmds : Cmd), m.Update env msg = some (m', cmds) →
      m'.Loading = false ∧
      ∀ e, err = some e →
        m'.ErrorMsg = e.Error ∧ m'.Tasks = m.Tasks ∧ m'.Categories = m.Categories) ∧
    (m.PageSize ≠ 0 → ∃ (m' : Model TI) (cmds : Cmd), m.Update env msg = some (m', cmds)) ∧
    (∀ (cats : List api.Category) (cerr : Option api.GoError),
      ∃ m' : Model TI, m.Update env (.CategoriesLoadedMsg cats cerr) = some (m', []) ∧
        m'.Loading = m.Loading ∧ m'.Tasks = m.Tasks ∧
        (cerr = none → m'.Categories = cats) ∧
        (cerr ≠ none → m'.Categories = m.Categories)) := by
  refine ⟨?_, ?_, ?_⟩
  · cases msg with
    | TasksLoadedMsg tasks err0 =>
      have he : err0 = err := Option.some.inj hmsg
      subst he
      intro m' cmds h
      cases err0 with
      | none =>
        obtain ⟨-, h2, -⟩ := tasksLoaded_ok_some env m m' tasks cmds h
        exact ⟨h2, fun e he => by cases he⟩
      | some e0 =>
        obtain ⟨-, h2, h3, h4, h5, -⟩ := tasksLoaded_err_some env m m' tasks e0 cmds h
        refine ⟨h2, fun e he => ?_⟩
        cases he
        exact ⟨h3, h4, h5⟩
    | TaskCreatedMsg task err0 =>
      have he : err0 = err := Option.some.inj hmsg
      subst he
      intro m' cmds h
      obtain ⟨m1, h1, hl, hc, hε, -⟩ := taskCreated_fields env m task err0
      rw [h1] at h
      obtain ⟨rfl, -⟩ := Prod.mk.inj (Option.some.inj h)
      exact ⟨hl, fun e he => ⟨(hε e he).1, (hε e he).2.2, hc⟩⟩
    | TaskUpdatedMsg task err0 =>
      have he : err0 = err := Option.some.inj hmsg
      subst he
      intro m' cmds h
      obtain ⟨m1, h1, hl, hc, -, hε, -⟩ := taskUpdated_fields env m task err0
      rw [h1] at h
      obtain ⟨rfl, -⟩ := Prod.mk.inj (Option.some.inj h)
      exact ⟨hl, fun e he => ⟨(hε e he).1, (hε e he).2, hc⟩⟩
    | TaskDeletedMsg err0 =>
      have he : err0 = err := Option.some.inj hmsg
      subst he
      intro m' cmds h
      obtain ⟨m1, h1, hl, hc, -, hε, -⟩ := taskDeleted_fields env m err0
      rw [h1] at h
      obtain ⟨rfl, -⟩ := Prod.mk.inj (Option.some.inj h)
      exact ⟨hl, fun e he => ⟨(hε e he).1, (hε e he).2, hc⟩⟩
    | LoginMsg err0 =>
      have he : err0 = err := Option.some.inj hmsg
      subst he
      intro m' cmds h
      obtain ⟨m1, c1, h1, hl, hc, ht, hε, -⟩ := auth_fields env m err0 _ (Or.inl rfl)
      rw [h1] at h
      obtain ⟨rfl, -⟩ := Prod.mk.inj (Option.some.inj h)
      exact ⟨hl, fun e he => ⟨(hε e he).1, ht, hc⟩⟩
    | RegisterMsg err0 =>
      have he : err0 = err := Option.some.inj hmsg
      subst he
      intro m' cmds h
      obtain ⟨m1, c1, h1, hl, hc, ht, hε, -⟩ := auth_fields env m err0 _ (Or.inr rfl)
      rw [h1] at h
      obtain ⟨rfl, -⟩ := Prod.mk.inj (Option.some.inj h)
      exact ⟨hl, fun e he => ⟨(hε e he).1, ht, hc⟩⟩
    | WindowSizeMsg w h => cases hmsg
    | CategoriesLoadedMsg cats e => cases hmsg
    | TickMsg => cases hmsg
    | KeyMsg key => cases hmsg
    | other => cases hmsg
  · intro hs
    cases msg with
    | TasksLoadedMsg tasks err0 =>
      cases err0 with
      | none =>
        obtain ⟨m', h⟩ := tasksLoaded_ok_returns env m tasks hs
        exact ⟨m', [], h⟩
      | some e0 =>
        obtain ⟨m', h⟩ := tasksLoaded_err_returns env m tasks e0 (Or.inl hs)
        exact ⟨m', [], h⟩
    | TaskCreatedMsg task err0 =>
      obtain ⟨m1, h1, -⟩ := taskCreated_fields env m task err0
      exact ⟨m1, [], h1⟩
    | TaskUpdatedMsg task err0 =>
      obtain ⟨m1, h1, -⟩ := taskUpdated_fields env m task err0
      exact ⟨m1, [], h1⟩
    | TaskDeletedMsg err0 =>
      obtain ⟨m1, h1, -⟩ := taskDeleted_fields env m err0
      exact ⟨m1, [], h1⟩
    | LoginMsg err0 =>
      obtain ⟨m1, c1, h1, -⟩ := auth_fields env m err0 _ (Or.inl rfl)
      exact ⟨m1, c1, h1⟩
    | RegisterMsg err0 =>
      obtain ⟨m1, c1, h1, -⟩ := auth_fields env m err0 _ (Or.inr rfl)
      exact ⟨m1, c1, h1⟩
    | WindowSizeMsg w h => cases hmsg
    | CategoriesLoadedMsg cats e => cases hmsg
    | TickMsg => cases hmsg
    | KeyMsg key => cases hmsg
    | other => cases hmsg
  · intro cats cerr
    cases cerr with
    | none => exact ⟨_, rfl, rfl, rfl, fun _ => rfl, fun h => absurd rfl h⟩
    | some e => exact ⟨_, rfl, rfl, rfl, fun h => Option.noConfusion h, fun _ => rfl⟩

/-- Claim C17, amended, on the help screen with a load under way: a delete
result with the error "timeout" clears `Loading` and reports the error. -/
theorem completion_clears_loading_witness :
    ∃ (m' : Model PlainInput) (cmds : Cmd),
      helpModel.Update (goEnv 0) (.TaskDeletedMsg (some (.other "timeout"))) = some (m', cmds) ∧
      m'.Loading = false ∧ m'.ErrorMsg = "timeout" ∧ m'.Tasks = helpModel.Tasks :=
  have h := completion_clears_loading (goEnv 0) helpModel
    (.TaskDeletedMsg (some (.other "timeout"))) (some (.other "timeout")) rfl
  (h.2.1 (by decide)).elim (fun m' hc => hc.elim (fun cmds hu =>
    ⟨m', cmds, hu, (h.1 m' cmds hu).1, ((h.1 m' cmds hu).2 _ rfl).1,
      ((h.1 m' cmds hu).2 _ rfl).2.1⟩))

/-- Claim C17 as stated fails for `CategoriesLoadedMsg`: on the help screen
with `Loading` set and no error message, a category list that arrives with
the error "offline" returns the model as it was, `Loading` still set and
`ErrorMsg` still empty. -/
theorem categoriesLoaded_keeps_loading :
    helpModel.Loading = true ∧ helpModel.ErrorMsg = "" ∧
    helpModel.Update (goEnv 0) (.CategoriesLoadedMsg [] (some (.other "offline")))
      = some (helpModel, []) ∧
    (api.GoError.other "offline").Error = "offline" := by
  refine ⟨by decide, by decide, by decide, by decide⟩

end models

namespace models
variable {TI : Type}

theorem holds_some {Q : Model TI → Prop} {m' : Model TI} {cmds : Cmd} (h : Q m') :
    Holds Q (some (m', cmds)) := by
  intro m1 c1 he
  obtain ⟨rfl, -⟩ := Prod.mk.inj (Option.some.inj he)
  exact h

theorem holds_pair {Q : Model TI → Prop} {r : Model TI × Cmd} (h : Q r.1) :
    Holds Q (some r) := by
  intro m1 c1 he
  have := Option.some.inj he
  rw [this] at h
  exact h

theorem holds_ite {Q : Model TI → Prop} {c : Prop} [Decidable c]
    {a b : Option (Model TI × Cmd)} (ha : c → Holds Q a) (hb : ¬ c → Holds Q b) :
    Holds Q (if c then a else b) := by
  by_cases h : c
  · rw [if_pos h]; exact ha h
  · rw [if_neg h]; exact hb h

theorem holds_bind {Q : Model TI → Prop} {α : Type} {x : Option α}
    {f : α → Option (Model TI × Cmd)} (h : ∀ a, x = some a → Holds Q (f a)) :
    Holds Q (x.bind f) := by
  cases x with
  | none => intro m1 c1 he; simp at he
  | some a => exact h a rfl

theorem holds_mono {Q R : Model TI → Prop} {r : Option (Model TI × Cmd)}
    (h : Holds Q r) (hqr : ∀ m', Q m' → R m') : Holds R r :=
  fun m' cmds he => hqr m' (h m' cmds he)

theorem noStatus_ValidateCursor (m : Model TI) (h : m.NoStatus) : m.ValidateCursor.NoStatus := by
  unfold Model.NoStatus
  rw [ValidateCursor_eq]
  exact h

theorem noStatus_ApplySort (env : Env TI) (m : Model TI) (h : m.NoStatus) :
    (m.ApplySort env).NoStatus := by
  unfold Model.NoStatus
  rw [ApplySort_eq]
  exact h

theorem noStatus_EnsureCursorVisible {m a : Model TI}
    (ha : m.EnsureCursorVisible = some a) (h : m.NoStatus) : a.NoStatus := by
  unfold Model.NoStatus
  rw [EnsureCursorVisible_some m a ha]
  exact h

theorem noStatus_pagePrev (m : Model TI) (h : m.NoStatus) : m.pagePrev.NoStatus := by
  unfold Model.pagePrev
  split_ifs
  · exact h
  · exact h

theorem noStatus_pageNext {m a : Model TI} (ha : m.pageNext = some a) (h : m.NoStatus) :
    a.NoStatus := by
  unfold Model.pageNext at ha
  cases htp : m.TotalPages with
  | none => rw [htp] at ha; simp at ha
  | some tp =>
    rw [htp] at ha
    simp only [Option.bind_eq_bind, Option.some_bind] at ha
    split_ifs at ha
    all_goals
      rw [← Option.some.inj ha]
      exact h

theorem noStatus_updateActiveInput (env : Env TI) (m : Model TI) (key : String)
    (h : m.NoStatus) : (m.updateActiveInput env key).1.NoStatus := by
  unfold Model.updateActiveInput
  split_ifs
  · exact h
  · exact h

/-- The status messages after `updateAuth`, entered without any: none, or
the validation message of the key "enter" on an empty field. -/
theorem updateAuth_status (env : Env TI) (m : Model TI) (key : String) (hm : m.NoStatus) :
    Holds (fun m' => m'.SuccessMsg = "" ∧ (m'.ErrorMsg = "" ∨
        (m'.ErrorMsg = "Email and password are required" ∧ key = "enter" ∧
          (env.input.Value m.EmailInput = "" ∨ env.input.Value m.PasswordInput = ""))))
      (m.updateAuth env key) := by
  unfold Model.updateAuth
  dsimp only
  repeat' first
    | exact holds_some ⟨hm.1, Or.inl hm.2⟩
    | exact holds_some ⟨hm.1, Or.inl rfl⟩
    | exact holds_some ⟨hm.1, Or.inr ⟨rfl, ‹_›, ‹_›⟩⟩
    | (apply holds_some; dsimp only; split_ifs <;> exact ⟨hm.1, Or.inl rfl⟩)
    | (apply holds_ite <;> intro _)

/-- `updateEditing`, entered without status message, leaves none. -/
theorem updateEditing_status (env : Env TI) (m : Model TI) (key : String) (hm : m.NoStatus) :
    Holds Model.NoStatus (m.updateEditing env key) := by
  unfold Model.updateEditing
  dsimp only
  repeat' first
    | exact holds_some hm
    | exact holds_some (noStatus_ValidateCursor _ hm)
    | exact holds_pair (noStatus_updateActiveInput env m key hm)
    | (apply holds_ite <;> intro _)
    | (apply holds_bind; intro a ha)

/-- `updateBrowse`, entered without status message, leaves none. -/
theorem updateBrowse_status (env : Env TI) (m : Model TI) (key : String) (hm : m.NoStatus) :
    Holds Model.NoStatus (m.updateBrowse env key) := by
  unfold Model.updateBrowse
  dsimp only
  repeat' first
    | exact holds_some hm
    | exact holds_some (noStatus_pagePrev m hm)
    | exact holds_some (noStatus_ApplySort env _ hm)
    | exact holds_some (noStatus_EnsureCursorVisible ha hm)
    | exact holds_some (noStatus_pageNext ha hm)
    | (apply holds_ite <;> intro _)
    | (apply holds_bind; intro a ha)

/-- `updateCategorySelect`, entered without status message, leaves none. -/
theorem updateCategorySelect_status (env : Env TI) (m : Model TI) (key : String)
    (hm : m.NoStatus) : Holds Model.NoStatus (m.updateCategorySelect env key) := by
  unfold Model.updateCategorySelect
  dsimp only
  repeat' first
    | exact holds_some hm
    | (apply holds_ite <;> intro _)
    | (apply holds_bind; intro a ha)

/-- The status messages after `updateCategoryCreate`, entered without any:
none, or the validation message of the key "enter" on an empty name. -/
theorem updateCategoryCreate_status (env : Env TI) (m : Model TI) (key : String)
    (hm : m.NoStatus) :
    Holds (fun m' => m'.SuccessMsg = "" ∧ (m'.ErrorMsg = "" ∨
        (m'.ErrorMsg = "Category name is required" ∧ key = "enter" ∧
          env.input.Value m.CategoryInput = "")))
      (m.updateCategoryCreate env key) := by
  unfold Model.updateCategoryCreate
  dsimp only
  repeat' first
    | exact holds_some ⟨hm.1, Or.inl hm.2⟩
    | exact holds_some ⟨hm.1, Or.inr ⟨rfl, ‹_›, ‹_›⟩⟩
    | (apply holds_ite <;> intro _)
    | (apply holds_bind; intro a ha)

/-- `updateTaskDetail`, entered without status message, leaves none. -/
theorem updateTaskDetail_status (env : Env TI) (m : Model TI) (key : String)
    (hm : m.NoStatus) : Holds Model.NoStatus (m.updateTaskDetail env key) := by
  unfold Model.updateTaskDetail
  dsimp only
  repeat' first
    | exact holds_some hm
    | (apply holds_ite <;> intro _)
    | (apply holds_bind; intro a ha)

/-- `updateConfirmDelete`, entered without status message, leaves none. -/
theorem updateConfirmDelete_status (env : Env TI) (m : Model TI) (key : String)
    (hm : m.NoStatus) : Holds Model.NoStatus (m.updateConfirmDelete env key) := by
  unfold Model.updateConfirmDelete
  repeat' first
    | exact holds_some hm
    | (apply holds_ite <;> intro _)
    | (apply holds_bind; intro a ha)

/-- `updateHelp`, entered without status message, leaves none. -/
theorem updateHelp_status (m : Model TI) (key : String) (hm : m.NoStatus) :
    Holds Model.NoStatus (m.updateHelp key) := by
  unfold Model.updateHelp
  dsimp only
  repeat' first
    | exact holds_some hm
    | (apply holds_ite <;> intro _)

end models

namespace models
variable {TI : Type}

theorem returns_some {m' : Model TI} {cmds : Cmd} : Returns (some (m', cmds)) :=
  ⟨m', cmds, rfl⟩

theorem returns_pair {r : Model TI × Cmd} : Returns (some r) := ⟨r.1, r.2, rfl⟩

theorem returns_ite {c : Prop} [Decidable c] {a b : Option (Model TI × Cmd)}
    (ha : c → Returns a) (hb : ¬ c → Returns b) : Returns (if c then a else b) := by
  by_cases h : c
  · rw [if_pos h]; exact ha h
  · rw [if_neg h]; exact hb h

theorem returns_of_keeps {m : Model TI} {r : Option (Model TI × Cmd)} (h : KeepsCursor m r) :
    Returns r := by
  obtain ⟨m', cmds, hr, -⟩ := h
  exact ⟨m', cmds, hr⟩

theorem returns_EnsureCursorVisible (m : Model TI) (cmds : Cmd)
    (h : m.PageSize ≠ 0 ∨ m.Tasks = []) :
    Returns (m.EnsureCursorVisible.bind (fun m' => some (m', cmds))) := by
  obtain ⟨a, ha⟩ := EnsureCursorVisible_returns m h
  rw [ha]
  exact ⟨a, cmds, rfl⟩

theorem returns_pageNext (m : Model TI) (cmds : Cmd) (h : m.PageSize ≠ 0 ∨ m.Tasks = []) :
    Returns (m.pageNext.bind (fun m' => some (m', cmds))) := by
  obtain ⟨tp, htp⟩ := TotalPages_returns_of_ne m h
  unfold Model.pageNext
  rw [htp]
  simp only [Option.bind_eq_bind, Option.some_bind]
  split_ifs <;> exact ⟨_, _, rfl⟩

/-- `updateEditing` returns. -/
theorem updateEditing_returns (env : Env TI) (m : Model TI) (key : String) :
    Returns (m.updateEditing env key) := by
  unfold Model.updateEditing
  by_cases hcur : m.Cursor ≥ 0 ∧ m.Cursor < goLen m.Tasks
  · obtain ⟨t, ht, -⟩ := goIndex_of_lt m.Tasks m.Cursor hcur.1 hcur.2
    simp only [ht, Option.bind_eq_bind, Option.some_bind]
    repeat' first
      | exact returns_some
      | exact returns_pair
      | (apply returns_ite <;> intro _)
  · have c1 : ¬ (m.State = .StateEditing ∧ m.Cursor ≥ 0 ∧ m.Cursor < goLen m.Tasks) :=
      fun hh => hcur hh.2
    have c2 : ¬ (m.State = .StateEditingNotes ∧ m.Cursor ≥ 0 ∧ m.Cursor < goLen m.Tasks) :=
      fun hh => hcur hh.2
    simp only [if_neg c1, if_neg c2]
    repeat' first
      | exact returns_some
      | exact returns_pair
      | (apply returns_ite <;> intro _)

/-- `updateTaskDetail` returns. -/
theorem updateTaskDetail_returns (env : Env TI) (m : Model TI) (key : String) :
    Returns (m.updateTaskDetail env key) := by
  unfold Model.updateTaskDetail
  by_cases hsel : m.selectedInRange = true
  · obtain ⟨h0, h1⟩ := (selectedInRange_iff m).mp hsel
    obtain ⟨t, ht, -⟩ := goIndex_of_lt m.Tasks m.SelectedTaskIdx h0 h1
    simp only [if_pos hsel, ht, Option.bind_eq_bind, Option.some_bind]
    repeat' first
      | exact returns_some
      | (apply returns_ite <;> intro _)
  · simp only [if_neg hsel]
    repeat' first
      | exact returns_some
      | (apply returns_ite <;> intro _)

/-- `updateBrowse` returns when the page size is not 0, the theme index is
not negative and the draws of `RandomAnimType` end. -/
theorem updateBrowse_returns (env : Env TI) (m : Model TI) (key : String)
    (hs : m.PageSize ≠ 0) (hth : 0 ≤ m.ThemeIndex)
    (hdraw : ∃ a, RandomAnimType env.animDraws m.LastAnim = some a) :
    Returns (m.updateBrowse env key) := by
  obtain ⟨idx, th, hmod, hidx⟩ := theme_step m.ThemeIndex hth
  obtain ⟨a, ha⟩ := hdraw
  unfold Model.updateBrowse
  by_cases hsel : m.hasSelection = true
  · obtain ⟨h0, h1⟩ := (hasSelection_iff m).mp hsel
    obtain ⟨t, ht, -⟩ := goIndex_of_lt m.Tasks m.Cursor h0 h1
    simp only [if_pos hsel, ht, hmod, hidx, ha, goSet_of_lt _ _ _ h0 h1, Option.bind_eq_bind,
      Option.some_bind]
    repeat' first
      | exact returns_some
      | exact returns_EnsureCursorVisible _ _ (Or.inl hs)
      | exact returns_pageNext _ _ (Or.inl hs)
      | (apply returns_ite <;> intro _)
  · simp only [if_neg hsel, hmod, hidx, Option.bind_eq_bind, Option.some_bind]
    repeat' first
      | exact returns_some
      | exact returns_EnsureCursorVisible _ _ (Or.inl hs)
      | exact returns_pageNext _ _ (Or.inl hs)
      | (apply returns_ite <;> intro _)

/-- A key in one of the four editing states goes to `updateEditing`. -/
theorem Update_key_editing (env : Env TI) (m : Model TI) (key : String)
    (hstate : m.State = .StateEditing ∨ m.State = .StateCreating ∨
      m.State = .StateEditingNotes ∨ m.State = .StateCreatingNotes) :
    m.Update env (.KeyMsg key)
      = ({ m with ErrorMsg := "", SuccessMsg := "" } : Model TI).updateEditing env key := by
  rcases hstate with h | h | h | h <;> simp only [Model.Update, h]

/-- A key in the state CategorySelect goes to `updateCategorySelect`. -/
theorem Update_key_categorySelect (env : Env TI) (m : Model TI) (key : String)
    (hstate : m.State = .StateCategorySelect) :
    m.Update env (.KeyMsg key)
      = ({ m with ErrorMsg := "", SuccessMsg := "" } : Model TI).updateCategorySelect env key := by
  simp only [Model.Update, hstate]

/-- A key in the state CategoryCreate goes to `updateCategoryCreate`. -/
theorem Update_key_categoryCreate (env : Env TI) (m : Model TI) (key : String)
    (hstate : m.State = .StateCategoryCreate) :
    m.Update env (.KeyMsg key)
      = ({ m with ErrorMsg := "", SuccessMsg := "" } : Model TI).updateCategoryCreate env key := by
  simp only [Model.Update, hstate]

/-- A key in the state ViewTask goes to `updateTaskDetail`. -/
theorem Update_key_taskDetail (env : Env TI) (m : Model TI) (key : String)
    (hstate : m.State = .StateViewTask) :
    m.Update env (.KeyMsg key)
      = ({ m with ErrorMsg := "", SuccessMsg := "" } : Model TI).updateTaskDetail env key := by
  simp only [Model.Update, hstate]

/-- A key in the state Help goes to `updateHelp`. -/
theorem Update_key_help (env : Env TI) (m : Model TI) (key : String)
    (hstate : m.State = .StateHelp) :
    m.Update env (.KeyMsg key)
      = ({ m with ErrorMsg := "", SuccessMsg := "" } : Model TI).updateHelp key := by
  simp only [Model.Update, hstate]

/-- The handlers of the twelve states. -/
theorem state_cases (s : AppState) :
    (s = .StateLogin ∨ s = .StateRegister) ∨ s = .StateBrowse ∨
      (s = .StateEditing ∨ s = .StateCreating ∨ s = .StateEditingNotes ∨
        s = .StateCreatingNotes) ∨
      s = .StateViewTask ∨ s = .StateCategorySelect ∨ s = .StateCategoryCreate ∨
      s = .StateHelp ∨ s = .StateConfirmDelete := by
  cases s <;> simp

/-- What a key leaves of the status messages, whatever they were: no success
message, and no error message but the validation message of the key "enter"
on an empty field of the login form or of the category dialog. -/
theorem Update_key_status (env : Env TI) (m : Model TI) (key : String) :
    Holds (fun m' => m'.SuccessMsg = "" ∧
        (m'.ErrorMsg = "" ∨
          (m'.ErrorMsg = "Email and password are required" ∧ key = "enter" ∧
            (m.State = .StateLogin ∨ m.State = .StateRegister) ∧
            (env.input.Value m.EmailInput = "" ∨ env.input.Value m.PasswordInput = "")) ∨
          (m'.ErrorMsg = "Category name is required" ∧ key = "enter" ∧
            m.State = .StateCategoryCreate ∧ env.input.Value m.CategoryInput = "")))
      (m.Update env (.KeyMsg key)) := by
  have hm0 : ({ m with ErrorMsg := "", SuccessMsg := "" } : Model TI).NoStatus := ⟨rfl, rfl⟩
  have hplain : ∀ r : Option (Model TI × Cmd), Holds Model.NoStatus r →
      Holds (fun m' => m'.SuccessMsg = "" ∧
        (m'.ErrorMsg = "" ∨
          (m'.ErrorMsg = "Email and password are required" ∧ key = "enter" ∧
            (m.State = .StateLogin ∨ m.State = .StateRegister) ∧
            (env.input.Value m.EmailInput = "" ∨ env.input.Value m.PasswordInput = "")) ∨
          (m'.ErrorMsg = "Category name is required" ∧ key = "enter" ∧
            m.State = .StateCategoryCreate ∧ env.input.Value m.CategoryInput = ""))) r :=
    fun r h => holds_mono h (fun m' hq => ⟨hq.1, Or.inl hq.2⟩)
  have hauth : (m.State = .StateLogin ∨ m.State = .StateRegister) →
      Holds (fun m' => m'.SuccessMsg = "" ∧
        (m'.ErrorMsg = "" ∨
          (m'.ErrorMsg = "Email and password are required" ∧ key = "enter" ∧
            (m.State = .StateLogin ∨ m.State = .StateRegister) ∧
            (env.input.Value m.EmailInput = "" ∨ env.input.Value m.PasswordInput = "")) ∨
          (m'.ErrorMsg = "Category name is required" ∧ key = "enter" ∧
            m.State = .StateCategoryCreate ∧ env.input.Value m.CategoryInput = "")))
        (({ m with ErrorMsg := "", SuccessMsg := "" } : Model TI).updateAuth env key) :=
    fun hst => holds_mono (updateAuth_status env _ key hm0) (fun m' hq =>
      ⟨hq.1, hq.2.elim Or.inl (fun h => Or.inr (Or.inl ⟨h.1, h.2.1, hst, h.2.2⟩))⟩)
  rcases state_cases m.State with h | h | h | h | h | h | h | h
  · rw [Update_key_auth env m key h]; exact hauth h
  · rw [Update_key_browse env m key h]; exact hplain _ (updateBrowse_status env _ key hm0)
  · rw [Update_key_editing env m key h]; exact hplain _ (updateEditing_status env _ key hm0)
  · rw [Update_key_taskDetail env m key h]
    exact hplain _ (updateTaskDetail_status env _ key hm0)
  · rw [Update_key_categorySelect env m key h]
    exact hplain _ (updateCategorySelect_status env _ key hm0)
  · rw [Update_key_categoryCreate env m key h]
    exact holds_mono (updateCategoryCreate_status env _ key hm0) (fun m' hq =>
      ⟨hq.1, hq.2.elim Or.inl (fun h' => Or.inr (Or.inr ⟨h'.1, h'.2.1, h, h'.2.2⟩))⟩)
  · rw [Update_key_help env m key h]; exact hplain _ (updateHelp_status _ key hm0)
  · rw [Update_key_confirmDelete env m key h]
    exact hplain _ (updateConfirmDelete_status env _ key hm0)

/-- A key is handled when the page size is not 0, the theme index is not
negative, the draws of `RandomAnimType` end and the colour draw is an index
of the palette. -/
theorem Update_key_returns (env : Env TI) (m : Model TI) (key : String)
    (hs : m.PageSize ≠ 0) (hth : 0 ≤ m.ThemeIndex)
    (hdraw : ∃ a, RandomAnimType env.animDraws m.LastAnim = some a)
    (hcol : 0 ≤ env.colorDraw ∧ env.colorDraw < goLen categoryColors) :
    Returns (m.Update env (.KeyMsg key)) := by
  rcases state_cases m.State with h | h | h | h | h | h | h | h
  · rw [Update_key_auth env m key h]; exact returns_of_keeps (updateAuth_keeps env _ key)
  · rw [Update_key_browse env m key h]; exact updateBrowse_returns env _ key hs hth hdraw
  · rw [Update_key_editing env m key h]; exact updateEditing_returns env _ key
  · rw [Update_key_taskDetail env m key h]; exact updateTaskDetail_returns env _ key
  · rw [Update_key_categorySelect env m key h]
    exact returns_of_keeps (updateCategorySelect_keeps env _ key)
  · rw [Update_key_categoryCreate env m key h]
    exact returns_of_keeps (updateCategoryCreate_keeps env _ key hcol)
  · rw [Update_key_help env m key h]; exact returns_of_keeps (updateHelp_keeps _ key)
  · rw [Update_key_confirmDelete env m key h]
    exact returns_of_keeps (updateConfirmDelete_keeps env _ key)

end models

namespace models
variable {TI : Type}

/-- Claim C20. Whatever the status messages of the model and whatever its
state, the model `Update` returns for a key has no success message, and its
error message is empty, or it is "Email and password are required" and the
key is "enter" on the login or register form with an empty field, or it is
"Category name is required" and the key is "enter" in the category dialog
with an empty name. The old messages have no part in it: the result is the
same whatever they were. `Update` returns for every key when the page size
is not 0, the theme index is not negative, the draws of `RandomAnimType` end
and the colour draw is an index of the palette. -/
theorem key_clears_status (env : Env TI) (m : Model TI) (key : String) :
    (∀ (m' : Model TI) (cmds : Cmd), m.Update env (.KeyMsg key) = some (m', cmds) →
      m'.SuccessMsg = "" ∧
      (m'.ErrorMsg = "" ∨
        (m'.ErrorMsg = "Email and password are required" ∧ key = "enter" ∧
          (m.State = .StateLogin ∨ m.State = .StateRegister) ∧
          (env.input.Value m.EmailInput = "" ∨ env.input.Value m.PasswordInput = "")) ∨
        (m'.ErrorMsg = "Category name is required" ∧ key = "enter" ∧
          m.State = .StateCategoryCreate ∧ env.input.Value m.CategoryInput = ""))) ∧
    (∀ e s : String,
      ({ m with ErrorMsg := e, SuccessMsg := s } : Model TI).Update env (.KeyMsg key)
        = m.Update env (.KeyMsg key)) ∧
    (m.PageSize ≠ 0 → 0 ≤ m.ThemeIndex →
      (∃ a, RandomAnimType env.animDraws m.LastAnim = some a) →
      (0 ≤ env.colorDraw ∧ env.colorDraw < goLen categoryColors) →
      ∃ (m' : Model TI) (cmds : Cmd), m.Update env (.KeyMsg key) = some (m', cmds)) :=
  ⟨Update_key_status env m key, fun _ _ => rfl, Update_key_returns env m key⟩

/-- Claim C20 in the category dialog with both status messages set: the key
"x" leaves neither, and the key "enter" on the empty name leaves the
validation message as the only one. -/
theorem key_clears_status_witness :
    categoryCreateModel.ErrorMsg = "API error 500: down" ∧
    categoryCreateModel.SuccessMsg = "Task created" ∧
    (∃ (m' : Model PlainInput) (cmds : Cmd),
      categoryCreateModel.Update (goEnv 0) (.KeyMsg "x") = some (m', cmds) ∧
      m'.SuccessMsg = "" ∧ m'.ErrorMsg ≠ "API error 500: down") ∧
    categoryCreateModel.Update (goEnv 0) (.KeyMsg "x")
      = some ({ categoryCreateModel with
          ErrorMsg := "", SuccessMsg := "",
          CategoryInput := { emptyInput with value := "x", focus := true, pos := 1 } }, []) ∧
    categoryCreateModel.Update (goEnv 0) (.KeyMsg "enter")
      = some ({ categoryCreateModel with
          ErrorMsg := "Category name is required", SuccessMsg := "" }, []) :=
  have h := key_clears_status (goEnv 0) categoryCreateModel "x"
  ⟨rfl, rfl,
    (h.2.2 (by decide) (by decide) ⟨3, by decide⟩ ⟨by decide, by decide⟩).elim
      (fun m' hc => hc.elim (fun cmds hu =>
        ⟨m', cmds, hu, (h.1 m' cmds hu).1, fun hbad =>
          (h.1 m' cmds hu).2.elim (fun h0 => by rw [h0] at hbad; exact absurd hbad (by decide))
            (fun h1 => h1.elim (fun h2 => absurd h2.2.1 (by decide))
              (fun h2 => absurd h2.2.1 (by decide)))⟩)),
    by decide, by decide⟩

end models

namespace models
variable {TI : Type}

/-- One call of `Update` keeps "at most one status message" when the message
does not collide with the model. -/
theorem atMostOne_step (env : Env TI) (m m' : Model TI) (msg : Msg) (cmds : Cmd)
    (hm : m.AtMostOneStatus) (hc : m.collides msg = false)
    (hu : m.Update env msg = some (m', cmds)) : m'.AtMostOneStatus := by
  unfold Model.AtMostOneStatus at hm ⊢
  have hquiet : ((∃ w h, msg = .WindowSizeMsg w h) ∨
      (∃ cats err, msg = .CategoriesLoadedMsg cats err) ∨ msg = .TickMsg ∨ msg = .other) →
      m'.ErrorMsg = "" ∨ m'.SuccessMsg = "" := by
    intro hq
    obtain ⟨m1, c1, h1, -, he, hs⟩ := quiet_fields env m msg hq
    rw [h1] at hu
    obtain ⟨rfl, -⟩ := Prod.mk.inj (Option.some.inj hu)
    rw [he, hs]; exact hm
  cases msg with
  | WindowSizeMsg w h => exact hquiet (Or.inl ⟨w, h, rfl⟩)
  | CategoriesLoadedMsg cats err => exact hquiet (Or.inr (Or.inl ⟨cats, err, rfl⟩))
  | TickMsg => exact hquiet (Or.inr (Or.inr (Or.inl rfl)))
  | other => exact hquiet (Or.inr (Or.inr (Or.inr rfl)))
  | KeyMsg key => exact Or.inr (Update_key_status env m key m' cmds hu).1
  | TasksLoadedMsg tasks err =>
    cases err with
    | none => exact Or.inl (tasksLoaded_ok_some env m m' tasks cmds hu).2.2.1
    | some e =>
      have hs : m.SuccessMsg = "" := by
        simpa [Model.collides, Msg.resultErr] using hc
      obtain ⟨-, -, -, -, -, h6, -⟩ := tasksLoaded_err_some env m m' tasks e cmds hu
      exact Or.inr (by rw [h6, hs])
  | TaskCreatedMsg task err =>
    obtain ⟨m1, h1, -, -, hε, hok⟩ := taskCreated_fields env m task err
    rw [h1] at hu
    obtain ⟨rfl, -⟩ := Prod.mk.inj (Option.some.inj hu)
    cases err with
    | some e =>
      have hs : m.SuccessMsg = "" := by
        simpa [Model.collides, Msg.resultErr] using hc
      exact Or.inr (by rw [(hε e rfl).2.1, hs])
    | none =>
      cases task with
      | none =>
        rw [(hok rfl).1, (hok rfl).2.2 rfl]; exact hm
      | some t =>
        have he : m.ErrorMsg = "" := by
          simpa [Model.collides, Msg.resultErr] using hc
        exact Or.inl (by rw [(hok rfl).1, he])
  | TaskUpdatedMsg task err =>
    obtain ⟨m1, h1, -, -, hsame, hε, hok⟩ := taskUpdated_fields env m task err
    rw [h1] at hu
    obtain ⟨rfl, -⟩ := Prod.mk.inj (Option.some.inj hu)
    cases err with
    | some e =>
      have hs : m.SuccessMsg = "" := by
        simpa [Model.collides, Msg.resultErr] using hc
      exact Or.inr (by rw [hsame, hs])
    | none => rw [hok rfl, hsame]; exact hm
  | TaskDeletedMsg err =>
    obtain ⟨m1, h1, -, -, hsame, hε, hok⟩ := taskDeleted_fields env m err
    rw [h1] at hu
    obtain ⟨rfl, -⟩ := Prod.mk.inj (Option.some.inj hu)
    cases err with
    | some e =>
      have hs : m.SuccessMsg = "" := by
        simpa [Model.collides, Msg.resultErr] using hc
      exact Or.inr (by rw [hsame, hs])
    | none => rw [hok rfl, hsame]; exact hm
  | LoginMsg err =>
    obtain ⟨m1, c1, h1, -, -, -, hε, hok⟩ := auth_fields env m err _ (Or.inl rfl)
    rw [h1] at hu
    obtain ⟨rfl, -⟩ := Prod.mk.inj (Option.some.inj hu)
    cases err with
    | some e =>
      have hs : m.SuccessMsg = "" := by
        simpa [Model.collides, Msg.resultErr] using hc
      exact Or.inr (by rw [(hε e rfl).2, hs])
    | none => exact Or.inl (hok rfl)
  | RegisterMsg err =>
    obtain ⟨m1, c1, h1, -, -, -, hε, hok⟩ := auth_fields env m err _ (Or.inr rfl)
    rw [h1] at hu
    obtain ⟨rfl, -⟩ := Prod.mk.inj (Option.some.inj hu)
    cases err with
    | some e =>
      have hs : m.SuccessMsg = "" := by
        simpa [Model.collides, Msg.resultErr] using hc
      exact Or.inr (by rw [(hε e rfl).2, hs])
    | none => exact Or.inl (hok rfl)

/-- A run without collision keeps "at most one status message". -/
theorem atMostOne_run (steps : List (Env TI × Msg)) :
    ∀ (m m' : Model TI), m.AtMostOneStatus → m.calm steps = true → m.run steps = some m' →
      m'.AtMostOneStatus := by
  induction steps with
  | nil =>
    intro m m' hm _ hrun
    rw [← Option.some.inj hrun]; exact hm
  | cons step rest ih =>
    intro m m' hm hcalm hrun
    unfold Model.run at hrun
    unfold Model.calm at hcalm
    cases hu : m.Update step.1 step.2 with
    | none => rw [hu] at hrun; simp at hrun
    | some r =>
      rw [hu] at hrun hcalm
      simp only [Option.bind_eq_bind, Option.some_bind] at hrun
      simp only [Bool.and_eq_true, Bool.not_eq_true'] at hcalm
      exact ih r.1 m' (atMostOne_step step.1 m r.1 step.2 r.2 hm hcalm.1 hu) hcalm.2 hrun

/-- Claim C19, amended. Start from a model without status message and let
`Update` handle any finite sequence of messages. If no completion event with
an error is handled while `SuccessMsg` is not empty, and no `TaskCreatedMsg`
with a task and no error while `ErrorMsg` is not empty, then at most one of
`ErrorMsg` and `SuccessMsg` is non-empty in the state reached. Whatever the
sequence, a key handled in the state reached leaves at most one of them
non-empty; and the message line of the login form shows one message at most:
`ErrorMsg` when it is not empty, else `SuccessMsg`. -/
theorem calm_run_one_status (steps : List (Env TI × Msg)) (m m' : Model TI)
    (hE : m.ErrorMsg = "") (_hS : m.SuccessMsg = "") (hrun : m.run steps = some m') :
    (m.calm steps = true → m'.AtMostOneStatus) ∧
    (∀ (env : Env TI) (key : String) (m'' : Model TI) (cmds : Cmd),
      m'.Update env (.KeyMsg key) = some (m'', cmds) → m''.AtMostOneStatus) ∧
    (m'.ErrorMsg ≠ "" → m'.authStatusLine = m'.ErrorMsg) ∧
    (m'.ErrorMsg = "" → m'.authStatusLine = m'.SuccessMsg) := by
  refine ⟨fun hcalm => atMostOne_run steps m m' (Or.inl hE) hcalm hrun, ?_, ?_, ?_⟩
  · intro env key m'' cmds hu
    exact Or.inr (Update_key_status env m' key m'' cmds hu).1
  · intro h
    unfold Model.authStatusLine
    rw [if_pos h]
  · intro h
    unfold Model.authStatusLine
    rw [if_neg (not_not.mpr h)]
    split_ifs with h2
    · rfl
    · exact (not_not.mp h2).symm

/-- Claim C19, amended, on the login form: the login succeeds, a task list
arrives without error, and the state reached has the success message only. -/
theorem calm_run_one_status_witness :
    startModel.run [(goEnv 0, .LoginMsg none),
        (goEnv 0, .TasksLoadedMsg [(sampleTask 1 "A" 0 none).toTask] none)]
      = some { startModel with
          State := .StateBrowse, SuccessMsg := "Login successful",
          Tasks := [sampleTask 1 "A" 0 none] } ∧
    ({ startModel with
          State := .StateBrowse, SuccessMsg := "Login successful",
          Tasks := [sampleTask 1 "A" 0 none] } : Model PlainInput).AtMostOneStatus :=
  ⟨by decide,
    (calm_run_one_status [(goEnv 0, .LoginMsg none),
        (goEnv 0, .TasksLoadedMsg [(sampleTask 1 "A" 0 none).toTask] none)]
      startModel _ rfl rfl (by decide)).1 (by decide)⟩

/-- Claim C19 as stated fails on the login form: the login succeeds, which
sets the success message, and the task list it asks for then arrives with an
error, which sets the error message and keeps the success message. Both are
non-empty in the state reached; the login form shows the error. -/
theorem both_status_messages_set :
    startModel.ErrorMsg = "" ∧ startModel.SuccessMsg = "" ∧
    startModel.run [(goEnv 0, .LoginMsg none),
        (goEnv 0, .TasksLoadedMsg [] (some (.other "connection refused")))]
      = some { startModel with
          State := .StateBrowse, ErrorMsg := "connection refused",
          SuccessMsg := "Login successful" } ∧
    ({ startModel with
          State := .StateBrowse, ErrorMsg := "connection refused",
          SuccessMsg := "Login successful" } : Model PlainInput).ErrorMsg ≠ "" ∧
    ({ startModel with
          State := .StateBrowse, ErrorMsg := "connection refused",
          SuccessMsg := "Login successful" } : Model PlainInput).SuccessMsg ≠ "" ∧
    ({ startModel with
          State := .StateBrowse, ErrorMsg := "connection refused",
          SuccessMsg := "Login successful" } : Model PlainInput).authStatusLine
      = "connection refused" := by
  refine ⟨by decide, by decide, by decide, by decide, by decide, by decide⟩

end models

namespace models
variable {TI : Type}

/-- Claim C21, amended. In the state CreatingNotes the key "enter" returns
the model with `Loading` set and its status messages cleared, still in the
state CreatingNotes, and schedules exactly one effect: the create-task call
with the stored `TempTitle` and the value of the notes input. The request of
that call has this title, and its notes are absent when the value is empty
and are the value otherwise. The state becomes Browse when the
`TaskCreatedMsg` of the call is handled, with or without an error. -/
theorem creatingNotes_enter_creates (env : Env TI) (m : Model TI)
    (hstate : m.State = .StateCreatingNotes) :
    m.Update env (.KeyMsg "enter")
      = some ({ m with ErrorMsg := "", SuccessMsg := "", Loading := true },
          [Effect.createTask m.TempTitle (env.input.Value m.NotesInput)]) ∧
    ({ m with ErrorMsg := "", SuccessMsg := "", Loading := true } : Model TI).State
      = .StateCreatingNotes ∧
    (createTaskRequest m.TempTitle (env.input.Value m.NotesInput)).Title = m.TempTitle ∧
    (env.input.Value m.NotesInput = "" →
      (createTaskRequest m.TempTitle (env.input.Value m.NotesInput)).Notes = none) ∧
    (env.input.Value m.NotesInput ≠ "" →
      (createTaskRequest m.TempTitle (env.input.Value m.NotesInput)).Notes
        = some (env.input.Value m.NotesInput)) ∧
    (∀ (env2 : Env TI) (task : Option api.Task) (err : Option api.GoError),
      ∃ m'' : Model TI,
        ({ m with ErrorMsg := "", SuccessMsg := "", Loading := true } : Model TI).Update env2
          (.TaskCreatedMsg task err) = some (m'', []) ∧
        m''.State = .StateBrowse ∧ m''.Loading = false) := by
  refine ⟨?_, hstate, ?_, ?_, ?_, ?_⟩
  · rw [Update_key_editing env m "enter" (Or.inr (Or.inr (Or.inr hstate)))]
    unfold Model.updateEditing
    have h1 : ¬ ({ m with ErrorMsg := "", SuccessMsg := "" } : Model TI).State
        = .StateCreating := by
      show ¬ m.State = .StateCreating
      rw [hstate]; decide
    have h2 : ({ m with ErrorMsg := "", SuccessMsg := "" } : Model TI).State
        = .StateCreatingNotes := hstate
    rw [if_neg (by decide), if_pos rfl, if_neg h1, if_pos h2]
  · unfold createTaskRequest
    dsimp only
    split_ifs <;> rfl
  · intro h
    unfold createTaskRequest
    dsimp only
    rw [if_neg (not_not.mpr h)]
  · intro h
    unfold createTaskRequest
    dsimp only
    rw [if_pos h]
  · intro env2 task err
    cases err with
    | some e => exact ⟨_, rfl, rfl, rfl⟩
    | none =>
      cases task with
      | none => exact ⟨_, rfl, rfl, rfl⟩
      | some t =>
        refine ⟨_, rfl, rfl, ?_⟩
        show (Model.ValidateCursor _).Loading = false
        rw [ValidateCursor_eq, ApplySort_eq]

/-- Claim C21, amended, on `creatingNotesModel`: "enter" schedules the
create-task call for "Buy milk" with the notes "2 litres". -/
theorem creatingNotes_enter_creates_witness :
    creatingNotesModel.Update (goEnv 0) (.KeyMsg "enter")
      = some ({ creatingNotesModel with Loading := true },
          [Effect.createTask "Buy milk" "2 litres"]) ∧
    (createTaskRequest "Buy milk" "2 litres").Notes = some "2 litres" :=
  have h := creatingNotes_enter_creates (goEnv 0) creatingNotesModel rfl
  ⟨h.1, h.2.2.2.2.1 (by decide)⟩

/-- Claim C21 as stated fails: after "enter" in the state CreatingNotes the
model is still in that state, not in the state Browse. -/
theorem creatingNotes_enter_stays :
    creatingNotesModel.State = .StateCreatingNotes ∧
    (creatingNotesModel.Update (goEnv 0) (.KeyMsg "enter")).map (fun r => r.1.State)
      = some .StateCreatingNotes ∧
    AppState.StateCreatingNotes ≠ AppState.StateBrowse := by
  refine ⟨by decide, by decide, by decide⟩

end models

namespace models
variable {TI : Type}

/-- The search of the category keys finds no category where none has the id. -/
theorem findCategory_absent (id : Int) (cats : List api.Category) (i : Int)
    (h : ∀ c ∈ cats, c.ID ≠ id) : findCategory id cats i = none := by
  induction cats generalizing i with
  | nil => rfl
  | cons c rest ih =>
    have hc : ¬ c.ID = id := h c (List.mem_cons_self _ _)
    simp only [findCategory, if_neg hc]
    exact ih (i + 1) (fun x hx => h x (List.mem_cons_of_mem _ hx))

/-- The search of the category keys finds the first category with the id. -/
theorem findCategory_split (id : Int) (pre : List api.Category) (cat : api.Category)
    (post : List api.Category) (i : Int) (hcat : cat.ID = id) (hpre : ∀ c ∈ pre, c.ID ≠ id) :
    findCategory id (pre ++ cat :: post) i = some (i + (pre.length : Int)) := by
  induction pre generalizing i with
  | nil => simp [findCategory, hcat]
  | cons p pre ih =>
    have hp : ¬ p.ID = id := hpre p (List.mem_cons_self _ _)
    simp only [List.cons_append, findCategory, if_neg hp]
    have hrec := ih (i + 1) (fun x hx => hpre x (List.mem_cons_of_mem _ hx))
    show findCategory id (pre ++ cat :: post) (i + 1) = _
    rw [hrec]
    simp only [List.length_cons]
    push_cast
    congr 1
    ring

/-- The key "c" in `updateBrowse` on a selected task. -/
theorem updateBrowse_c (env : Env TI) (m : Model TI) (t : Task)
    (h0 : 0 ≤ m.Cursor) (h1 : m.Cursor < goLen m.Tasks)
    (ht : goIndex m.Tasks m.Cursor = some t) :
    m.updateBrowse env "c"
      = some ({ m with
                  SelectedTaskIdx := m.Cursor, CategoryCursor := pickerCursor m.Categories t,
                  State := .StateCategorySelect }, []) := by
  unfold Model.updateBrowse
  rw [if_neg (by decide), if_neg (by decide), if_neg (by decide), if_neg (by decide),
    if_neg (by decide), if_neg (by decide), if_neg (by decide), if_neg (by decide),
    if_neg (by decide), if_neg (by decide), if_neg (by decide), if_neg (by decide),
    if_neg (by decide), if_neg (by decide), if_neg (by decide), if_neg (by decide),
    if_neg (by decide), if_pos rfl, if_pos ((hasSelection_iff m).mpr ⟨h0, h1⟩), ht]
  rfl

/-- The key "c" in `updateBrowse` without a selected task. -/
theorem updateBrowse_c_none (env : Env TI) (m : Model TI)
    (h : ¬ (0 ≤ m.Cursor ∧ m.Cursor < goLen m.Tasks)) :
    m.updateBrowse env "c" = some (m, []) := by
  unfold Model.updateBrowse
  rw [if_neg (by decide), if_neg (by decide), if_neg (by decide), if_neg (by decide),
    if_neg (by decide), if_neg (by decide), if_neg (by decide), if_neg (by decide),
    if_neg (by decide), if_neg (by decide), if_neg (by decide), if_neg (by decide),
    if_neg (by decide), if_neg (by decide), if_neg (by decide), if_neg (by decide),
    if_neg (by decide), if_pos rfl, if_neg (fun hs => h ((hasSelection_iff m).mp hs))]

/-- Claim C22. In the state Browse, with the cursor on task `t`, the key
"c" returns, with no effect, the model in the state CategorySelect with
`SelectedTaskIdx` the cursor; `CategoryCursor` is -1 when `t` has no category
id or no category of the list has that id, and is otherwise the index of the
first category of the list with that id. The tasks, the categories and the
cursor are as they were. With the cursor on no task (as with an empty list)
the key returns the model with nothing but the status messages written. -/
theorem categoryKey_opens_picker (env : Env TI) (m : Model TI)
    (hstate : m.State = .StateBrowse) :
    (∀ t : Task, 0 ≤ m.Cursor → m.Cursor < goLen m.Tasks →
      goIndex m.Tasks m.Cursor = some t →
      ∃ m' : Model TI, m.Update env (.KeyMsg "c") = some (m', []) ∧
        m'.State = .StateCategorySelect ∧ m'.SelectedTaskIdx = m.Cursor ∧
        (t.CategoryID = none → m'.CategoryCursor = -1) ∧
        (∀ id, t.CategoryID = some id → (∀ c ∈ m.Categories, c.ID ≠ id) →
          m'.CategoryCursor = -1) ∧
        (∀ (id : Int) (pre : List api.Category) (cat : api.Category)
          (post : List api.Category), t.CategoryID = some id →
          m.Categories = pre ++ cat :: post → cat.ID = id → (∀ c ∈ pre, c.ID ≠ id) →
          m'.CategoryCursor = (pre.length : Int)) ∧
        m'.Tasks = m.Tasks ∧ m'.Categories = m.Categories ∧ m'.Cursor = m.Cursor) ∧
    (¬ (0 ≤ m.Cursor ∧ m.Cursor < goLen m.Tasks) →
      m.Update env (.KeyMsg "c") = some ({ m with ErrorMsg := "", SuccessMsg := "" }, [])) ∧
    (m.Tasks = [] → ¬ (0 ≤ m.Cursor ∧ m.Cursor < goLen m.Tasks)) := by
  rw [Update_key_browse env m "c" hstate]
  refine ⟨?_, ?_, ?_⟩
  · intro t h0 h1 ht
    rw [updateBrowse_c env ({ m with ErrorMsg := "", SuccessMsg := "" } : Model TI) t h0 h1 ht]
    refine ⟨_, rfl, rfl, rfl, ?_, ?_, ?_, rfl, rfl, rfl⟩
    · intro hnone
      show pickerCursor m.Categories t = -1
      unfold pickerCursor
      rw [hnone]
    · intro id hid habs
      show pickerCursor m.Categories t = -1
      unfold pickerCursor
      rw [hid]
      simp only [findCategory_absent id m.Categories 0 habs, Option.getD_none]
    · intro id pre cat post hid hcats hcat hpre
      show pickerCursor m.Categories t = _
      unfold pickerCursor
      rw [hid]
      simp only [hcats, findCategory_split id pre cat post 0 hcat hpre, Option.getD_some,
        zero_add]
  · intro h
    exact updateBrowse_c_none env ({ m with ErrorMsg := "", SuccessMsg := "" } : Model TI) h
  · intro hnil h
    rw [hnil] at h
    have : goLen ([] : List Task) = 0 := rfl
    omega

/-- Claim C22 on `categoryModel`: the task under the cursor has category 9,
which the second and the third category of the list have; the picker opens on
index 1. On the task without category it opens on -1. -/
theorem categoryKey_opens_picker_witness :
    (∃ m' : Model PlainInput, categoryModel.Update (goEnv 0) (.KeyMsg "c") = some (m', []) ∧
      m'.State = .StateCategorySelect ∧ m'.SelectedTaskIdx = 1 ∧ m'.CategoryCursor = 1) ∧
    (∃ m' : Model PlainInput,
      ({ categoryModel with Cursor := 0 } : Model PlainInput).Update (goEnv 0) (.KeyMsg "c")
        = some (m', []) ∧
      m'.State = .StateCategorySelect ∧ m'.SelectedTaskIdx = 0 ∧ m'.CategoryCursor = -1) ∧
    (sampleModel []).Update (goEnv 0) (.KeyMsg "c") = some (sampleModel [], []) :=
  ⟨((categoryKey_opens_picker (goEnv 0) categoryModel rfl).1
      { sampleTask 1 "B" 0 none with CategoryID := some 9 } (by decide) (by decide)
      (by decide)).imp (fun _ h =>
        ⟨h.1, h.2.1, h.2.2.1,
          h.2.2.2.2.2.1 9 [sampleCategory 5 "Home"] (sampleCategory 9 "Work")
            [sampleCategory 9 "Job"] rfl rfl rfl (by decide)⟩),
    ((categoryKey_opens_picker (goEnv 0) ({ categoryModel with Cursor := 0 } : Model PlainInput)
      rfl).1 (sampleTask 0 "A" 0 none) (by decide) (by decide) (by decide)).imp (fun _ h =>
        ⟨h.1, h.2.1, h.2.2.1, h.2.2.2.1 rfl⟩),
    (categoryKey_opens_picker (goEnv 0) (sampleModel []) rfl).2.1 (by decide)⟩

end models

namespace models
variable {TI : Type}

/-- The keys "q" and "ctrl+c" in `updateBrowse`. -/
theorem updateBrowse_quit (env : Env TI) (m : Model TI) (key : String)
    (hk : key = "q" ∨ key = "ctrl+c") : m.updateBrowse env key = some (m, [Effect.quit]) := by
  unfold Model.updateBrowse
  rw [if_pos hk]

/-- The keys "q" and "ctrl+c" in `updateAuth`. -/
theorem updateAuth_quit (env : Env TI) (m : Model TI) (key : String)
    (hk : key = "q" ∨ key = "ctrl+c") : m.updateAuth env key = some (m, [Effect.quit]) := by
  unfold Model.updateAuth
  rw [if_pos hk]

/-- A key `updateAuth` has no case for goes to the focused input. -/
theorem updateAuth_typed (env : Env TI) (m : Model TI) (key : String)
    (h1 : ¬ (key = "q" ∨ key = "ctrl+c")) (h2 : ¬ key = "tab") (h3 : ¬ key = "ctrl+r")
    (h4 : ¬ key = "enter") :
    m.updateAuth env key
      = if m.FocusedField = .FieldEmail then
          some ({ m with EmailInput := (env.input.Update m.EmailInput key).1 },
            (env.input.Update m.EmailInput key).2)
        else
          some ({ m with PasswordInput := (env.input.Update m.PasswordInput key).1 },
            (env.input.Update m.PasswordInput key).2) := by
  unfold Model.updateAuth
  rw [if_neg h1, if_neg h2, if_neg h3, if_neg h4]

/-- A key other than "esc" and "enter" in `updateEditing` goes to the active
input. -/
theorem updateEditing_typed (env : Env TI) (m : Model TI) (key : String)
    (h1 : ¬ key = "esc") (h2 : ¬ key = "enter") :
    m.updateEditing env key = some (m.updateActiveInput env key) := by
  unfold Model.updateEditing
  rw [if_neg h1, if_neg h2]

/-- A key other than "esc" and "enter" in `updateCategoryCreate` goes to the
name input. -/
theorem updateCategoryCreate_typed (env : Env TI) (m : Model TI) (key : String)
    (h1 : ¬ key = "esc") (h2 : ¬ key = "enter") :
    m.updateCategoryCreate env key
      = some ({ m with CategoryInput := (env.input.Update m.CategoryInput key).1 },
          (env.input.Update m.CategoryInput key).2) := by
  unfold Model.updateCategoryCreate
  rw [if_neg h1, if_neg h2]

/-- A key `updateCategorySelect` has no case for changes nothing. -/
theorem updateCategorySelect_ignored (env : Env TI) (m : Model TI) (key : String)
    (h1 : ¬ key = "esc") (h2 : ¬ (key = "up" ∨ key = "k")) (h3 : ¬ (key = "down" ∨ key = "j"))
    (h4 : ¬ key = "enter") (h5 : ¬ key = "C") :
    m.updateCategorySelect env key = some (m, []) := by
  unfold Model.updateCategorySelect
  rw [if_neg h1, if_neg h2, if_neg h3, if_neg h4, if_neg h5]

/-- The keys "esc" and "q" in `updateTaskDetail`. -/
theorem updateTaskDetail_back (env : Env TI) (m : Model TI) (key : String)
    (hk : key = "esc" ∨ key = "q") :
    m.updateTaskDetail env key = some ({ m with State := .StateBrowse }, []) := by
  unfold Model.updateTaskDetail
  rw [if_pos hk]

/-- A key `updateTaskDetail` has no case for changes nothing. -/
theorem updateTaskDetail_ignored (env : Env TI) (m : Model TI) (key : String)
    (h1 : ¬ (key = "esc" ∨ key = "q")) (h2 : ¬ key = "e") (h3 : ¬ key = " ")
    (h4 : ¬ key = "c") (h5 : ¬ key = "b") :
    m.updateTaskDetail env key = some (m, []) := by
  unfold Model.updateTaskDetail
  rw [if_neg h1, if_neg h2, if_neg h3, if_neg h4, if_neg h5]

/-- A key `updateConfirmDelete` has no case for changes nothing. -/
theorem updateConfirmDelete_ignored (env : Env TI) (m : Model TI) (key : String)
    (h1 : ¬ (key = "y" ∨ key = "Y")) (h2 : ¬ (key = "n" ∨ key = "N" ∨ key = "esc")) :
    m.updateConfirmDelete env key = some (m, []) := by
  unfold Model.updateConfirmDelete
  rw [if_neg h1, if_neg h2]

/-- The keys "?", "esc" and "q" in `updateHelp`: back to the previous state,
to Browse when that is Help. -/
theorem updateHelp_close (m : Model TI) (key : String)
    (hk : key = "?" ∨ key = "esc" ∨ key = "q") :
    m.updateHelp key
      = some ({ m with State := if m.PreviousState = .StateHelp then .StateBrowse
                                else m.PreviousState }, []) := by
  unfold Model.updateHelp
  rw [if_pos hk]
  by_cases hp : m.PreviousState = .StateHelp
  · have hp' : ({ m with State := m.PreviousState } : Model TI).State = .StateHelp := hp
    simp only [if_pos hp', if_pos hp]
  · have hp' : ¬ ({ m with State := m.PreviousState } : Model TI).State = .StateHelp := hp
    simp only [if_neg hp', if_neg hp]

/-- A key `updateHelp` has no case for changes nothing. -/
theorem updateHelp_ignored (m : Model TI) (key : String)
    (hk : ¬ (key = "?" ∨ key = "esc" ∨ key = "q")) : m.updateHelp key = some (m, []) := by
  unfold Model.updateHelp
  rw [if_neg hk]

/-- The key "?" in `updateBrowse`. -/
theorem updateBrowse_help (env : Env TI) (m : Model TI) :
    m.updateBrowse env "?"
      = some ({ m with PreviousState := m.State, State := .StateHelp }, []) := by
  unfold Model.updateBrowse
  rw [if_neg (by decide), if_neg (by decide), if_neg (by decide), if_neg (by decide),
    if_neg (by decide), if_neg (by decide), if_neg (by decide), if_neg (by decide),
    if_neg (by decide), if_neg (by decide), if_neg (by decide), if_neg (by decide),
    if_neg (by decide), if_neg (by decide), if_neg (by decide), if_neg (by decide),
    if_neg (by decide), if_neg (by decide), if_neg (by decide), if_neg (by decide),
    if_pos rfl]

/-- The state after `updateActiveInput` is the state before. -/
theorem updateActiveInput_state (env : Env TI) (m : Model TI) (key : String) :
    (m.updateActiveInput env key).1.State = m.State ∧
      (m.updateActiveInput env key).1.PreviousState = m.PreviousState := by
  unfold Model.updateActiveInput
  split_ifs <;> exact ⟨rfl, rfl⟩

end models

namespace models
variable {TI : Type}

/-- Claim C23, amended. The key "?" opens the help from the state Browse
only: there it returns the model in the state Help with Browse recorded as
the previous state, and "?" again returns it in the state Browse. In the
state Help the key returns to the recorded previous state (to Browse when
that is Help). In every other state the key is handled without the state
changing: no help is shown. -/
theorem help_from_browse_only (env : Env TI) (m : Model TI) :
    (m.State = .StateBrowse →
      m.Update env (.KeyMsg "?")
        = some ({ m with
            ErrorMsg := "", SuccessMsg := "", PreviousState := .StateBrowse,
            State := .StateHelp }, []) ∧
      ∀ env2 : Env TI,
        ({ m with
            ErrorMsg := "", SuccessMsg := "", PreviousState := .StateBrowse,
            State := .StateHelp } : Model TI).Update env2 (.KeyMsg "?")
          = some ({ m with
              ErrorMsg := "", SuccessMsg := "", PreviousState := .StateBrowse,
              State := .StateBrowse }, [])) ∧
    (m.State = .StateHelp →
      ∃ m' : Model TI, m.Update env (.KeyMsg "?") = some (m', []) ∧
        m'.State = (if m.PreviousState = .StateHelp then .StateBrowse else m.PreviousState)) ∧
    (m.State ≠ .StateBrowse → m.State ≠ .StateHelp →
      ∃ (m' : Model TI) (cmds : Cmd), m.Update env (.KeyMsg "?") = some (m', cmds) ∧
        m'.State = m.State ∧ m'.State ≠ .StateHelp) := by
  refine ⟨?_, ?_, ?_⟩
  · intro hstate
    constructor
    · rw [Update_key_browse env m "?" hstate, updateBrowse_help]
      have : ({ m with ErrorMsg := "", SuccessMsg := "" } : Model TI).State = .StateBrowse :=
        hstate
      rw [this]
    · intro env2
      rw [Update_key_help env2 _ "?" rfl, updateHelp_close _ "?" (Or.inl rfl)]
      rfl
  · intro hstate
    rw [Update_key_help env m "?" hstate, updateHelp_close _ "?" (Or.inl rfl)]
    exact ⟨_, rfl, rfl⟩
  · intro hb hh
    rcases state_cases m.State with h | h | h | h | h | h | h | h
    · rw [Update_key_auth env m "?" h,
        updateAuth_typed env _ "?" (by decide) (by decide) (by decide) (by decide)]
      split_ifs <;> exact ⟨_, _, rfl, rfl, hh⟩
    · exact absurd h hb
    · rw [Update_key_editing env m "?" h, updateEditing_typed env _ "?" (by decide) (by decide)]
      have hs := (updateActiveInput_state env
        ({ m with ErrorMsg := "", SuccessMsg := "" } : Model TI) "?").1
      exact ⟨(({ m with ErrorMsg := "", SuccessMsg := "" } : Model TI).updateActiveInput env
          "?").1,
        (({ m with ErrorMsg := "", SuccessMsg := "" } : Model TI).updateActiveInput env "?").2,
        rfl, hs, by rw [hs]; exact hh⟩
    · rw [Update_key_taskDetail env m "?" h,
        updateTaskDetail_ignored env _ "?" (by decide) (by decide) (by decide) (by decide)
          (by decide)]
      exact ⟨_, _, rfl, rfl, hh⟩
    · rw [Update_key_categorySelect env m "?" h,
        updateCategorySelect_ignored env _ "?" (by decide) (by decide) (by decide) (by decide)
          (by decide)]
      exact ⟨_, _, rfl, rfl, hh⟩
    · rw [Update_key_categoryCreate env m "?" h,
        updateCategoryCreate_typed env _ "?" (by decide) (by decide)]
      exact ⟨_, _, rfl, rfl, hh⟩
    · exact absurd h hh
    · rw [Update_key_confirmDelete env m "?" h,
        updateConfirmDelete_ignored env _ "?" (by decide) (by decide)]
      exact ⟨_, _, rfl, rfl, hh⟩

/-- Claim C23, amended, from the state Browse: "?" opens the help and "?"
again returns to Browse. -/
theorem help_from_browse_only_witness :
    (sampleModel []).Update (goEnv 0) (.KeyMsg "?")
      = some ({ sampleModel [] with PreviousState := .StateBrowse, State := .StateHelp }, []) ∧
    ({ sampleModel [] with PreviousState := .StateBrowse, State := .StateHelp }
        : Model PlainInput).Update (goEnv 0) (.KeyMsg "?")
      = some ({ sampleModel [] with PreviousState := .StateBrowse }, []) :=
  have h := (help_from_browse_only (goEnv 0) (sampleModel [])).1 rfl
  ⟨h.1, h.2 (goEnv 0)⟩

/-- Claim C23 as stated fails in the detail view of a task: the key "?"
returns the model as it was, in the state ViewTask, and on the login form
the key is typed into the email field. -/
theorem help_key_ignored_in_detail :
    detailModel.State = .StateViewTask ∧
    detailModel.Update (goEnv 0) (.KeyMsg "?") = some (detailModel, []) ∧
    (startModel.Update (goEnv 0) (.KeyMsg "?")).map
        (fun r => (r.1.State, r.1.EmailInput.value)) = some (.StateLogin, "?") := by
  refine ⟨by decide, by decide, by decide⟩

end models

namespace models
variable {TI : Type}

/-- Claim C24, amended. Of the states that are no text-entry state, only
Browse answers the keys "q" and "ctrl+c" with the quit effect. In the detail
view "q" returns to Browse with no effect; in the help "q" returns to the
previous state (to Browse when that is Help) with no effect; in the category
picker and in the delete confirmation "q" changes nothing; and "ctrl+c"
changes nothing in any of these four states. In each case the status
messages are cleared, as for every key. -/
theorem quit_keys_by_state (env : Env TI) (m : Model TI) :
    (m.State = .StateBrowse → ∀ key : String, key = "q" ∨ key = "ctrl+c" →
      m.Update env (.KeyMsg key)
        = some ({ m with ErrorMsg := "", SuccessMsg := "" }, [Effect.quit])) ∧
    (m.State = .StateViewTask →
      m.Update env (.KeyMsg "q")
        = some ({ m with ErrorMsg := "", SuccessMsg := "", State := .StateBrowse }, []) ∧
      m.Update env (.KeyMsg "ctrl+c") = some ({ m with ErrorMsg := "", SuccessMsg := "" }, [])) ∧
    (m.State = .StateHelp →
      m.Update env (.KeyMsg "q")
        = some ({ m with
            ErrorMsg := "", SuccessMsg := "",
            State := if m.PreviousState = .StateHelp then .StateBrowse
                     else m.PreviousState }, []) ∧
      m.Update env (.KeyMsg "ctrl+c") = some ({ m with ErrorMsg := "", SuccessMsg := "" }, [])) ∧
    (m.State = .StateCategorySelect ∨ m.State = .StateConfirmDelete →
      ∀ key : String, key = "q" ∨ key = "ctrl+c" →
        m.Update env (.KeyMsg key) = some ({ m with ErrorMsg := "", SuccessMsg := "" }, [])) := by
  refine ⟨?_, ?_, ?_, ?_⟩
  · intro hstate key hkey
    rw [Update_key_browse env m key hstate, updateBrowse_quit env _ key hkey]
  · intro hstate
    constructor
    · rw [Update_key_taskDetail env m "q" hstate, updateTaskDetail_back env _ "q" (Or.inr rfl)]
    · rw [Update_key_taskDetail env m "ctrl+c" hstate,
        updateTaskDetail_ignored env _ "ctrl+c" (by decide) (by decide) (by decide) (by decide)
          (by decide)]
  · intro hstate
    constructor
    · rw [Update_key_help env m "q" hstate, updateHelp_close _ "q" (Or.inr (Or.inr rfl))]
    · rw [Update_key_help env m "ctrl+c" hstate, updateHelp_ignored _ "ctrl+c" (by decide)]
  · intro hstate key hkey
    rcases hstate with hstate | hstate
    · rw [Update_key_categorySelect env m key hstate]
      rcases hkey with rfl | rfl
      · exact updateCategorySelect_ignored env _ "q" (by decide) (by decide) (by decide)
          (by decide) (by decide)
      · exact updateCategorySelect_ignored env _ "ctrl+c" (by decide) (by decide) (by decide)
          (by decide) (by decide)
    · rw [Update_key_confirmDelete env m key hstate]
      rcases hkey with rfl | rfl
      · exact updateConfirmDelete_ignored env _ "q" (by decide) (by decide)
      · exact updateConfirmDelete_ignored env _ "ctrl+c" (by decide) (by decide)

/-- Claim C24, amended, in the state Browse: "ctrl+c" and "q" schedule the
quit effect. -/
theorem quit_keys_by_state_witness :
    (sampleModel []).Update (goEnv 0) (.KeyMsg "ctrl+c") = some (sampleModel [], [Effect.quit]) ∧
    (sampleModel []).Update (goEnv 0) (.KeyMsg "q") = some (sampleModel [], [Effect.quit]) :=
  have h := (quit_keys_by_state (goEnv 0) (sampleModel [])).1 rfl
  ⟨h "ctrl+c" (Or.inr rfl), h "q" (Or.inl rfl)⟩

/-- Claim C24 as stated fails in the detail view of a task: "ctrl+c"
returns the model as it was with no effect, and "q" returns to Browse with
no effect; neither schedules the quit effect. So it is in the delete
confirmation. -/
theorem quit_keys_without_quit :
    detailModel.State = .StateViewTask ∧
    detailModel.Update (goEnv 0) (.KeyMsg "ctrl+c") = some (detailModel, []) ∧
    detailModel.Update (goEnv 0) (.KeyMsg "q")
      = some ({ detailModel with State := .StateBrowse }, []) ∧
    confirmModel.State = .StateConfirmDelete ∧
    confirmModel.Update (goEnv 0) (.KeyMsg "q") = some (confirmModel, []) := by
  refine ⟨by decide, by decide, by decide, by decide, by decide⟩

end models

namespace models
variable {TI : Type}

/-- Claim C25, amended. In the states Creating and Editing the key "q" goes
to the title input, in the states EditingNotes and CreatingNotes to the notes
input, in the state CategoryCreate to the name input: the model returned is
the model with that input updated by the key (and the status messages
cleared), in the state it was in, and the effects are those the input
returns, among which there is no quit effect as long as the text input
returns none. In the states Login and Register the key "q" is intercepted:
it schedules the quit effect and no input is written. -/
theorem q_typed_in_text_states (env : Env TI) (m : Model TI) :
    (m.State = .StateCreating ∨ m.State = .StateEditing →
      m.Update env (.KeyMsg "q")
        = some ({ m with
            ErrorMsg := "", SuccessMsg := "",
            TitleInput := (env.input.Update m.TitleInput "q").1 },
          (env.input.Update m.TitleInput "q").2)) ∧
    (m.State = .StateEditingNotes ∨ m.State = .StateCreatingNotes →
      m.Update env (.KeyMsg "q")
        = some ({ m with
            ErrorMsg := "", SuccessMsg := "",
            NotesInput := (env.input.Update m.NotesInput "q").1 },
          (env.input.Update m.NotesInput "q").2)) ∧
    (m.State = .StateCategoryCreate →
      m.Update env (.KeyMsg "q")
        = some ({ m with
            ErrorMsg := "", SuccessMsg := "",
            CategoryInput := (env.input.Update m.CategoryInput "q").1 },
          (env.input.Update m.CategoryInput "q").2)) ∧
    ((∀ ti : TI, Effect.quit ∉ (env.input.Update ti "q").2) →
      (m.State = .StateCreating ∨ m.State = .StateEditing ∨ m.State = .StateEditingNotes ∨
        m.State = .StateCreatingNotes ∨ m.State = .StateCategoryCreate) →
      ∃ (m' : Model TI) (cmds : Cmd), m.Update env (.KeyMsg "q") = some (m', cmds) ∧
        Effect.quit ∉ cmds ∧ m'.State = m.State) ∧
    (m.State = .StateLogin ∨ m.State = .StateRegister →
      m.Update env (.KeyMsg "q")
        = some ({ m with ErrorMsg := "", SuccessMsg := "" }, [Effect.quit])) := by
  have htitle : m.State = .StateCreating ∨ m.State = .StateEditing →
      m.Update env (.KeyMsg "q")
        = some ({ m with
            ErrorMsg := "", SuccessMsg := "",
            TitleInput := (env.input.Update m.TitleInput "q").1 },
          (env.input.Update m.TitleInput "q").2) := by
    intro hstate
    have hed : m.State = .StateEditing ∨ m.State = .StateCreating ∨
        m.State = .StateEditingNotes ∨ m.State = .StateCreatingNotes := by
      rcases hstate with h | h
      · exact Or.inr (Or.inl h)
      · exact Or.inl h
    rw [Update_key_editing env m "q" hed, updateEditing_typed env _ "q" (by decide) (by decide)]
    unfold Model.updateActiveInput
    have hc : ({ m with ErrorMsg := "", SuccessMsg := "" } : Model TI).State = .StateCreating ∨
        ({ m with ErrorMsg := "", SuccessMsg := "" } : Model TI).State = .StateEditing := hstate
    rw [if_pos hc]
  have hnotes : m.State = .StateEditingNotes ∨ m.State = .StateCreatingNotes →
      m.Update env (.KeyMsg "q")
        = some ({ m with
            ErrorMsg := "", SuccessMsg := "",
            NotesInput := (env.input.Update m.NotesInput "q").1 },
          (env.input.Update m.NotesInput "q").2) := by
    intro hstate
    have hed : m.State = .StateEditing ∨ m.State = .StateCreating ∨
        m.State = .StateEditingNotes ∨ m.State = .StateCreatingNotes := by
      rcases hstate with h | h
      · exact Or.inr (Or.inr (Or.inl h))
      · exact Or.inr (Or.inr (Or.inr h))
    rw [Update_key_editing env m "q" hed, updateEditing_typed env _ "q" (by decide) (by decide)]
    unfold Model.updateActiveInput
    have hc : ¬ (({ m with ErrorMsg := "", SuccessMsg := "" } : Model TI).State
          = .StateCreating ∨
        ({ m with ErrorMsg := "", SuccessMsg := "" } : Model TI).State = .StateEditing) := by
      show ¬ (m.State = .StateCreating ∨ m.State = .StateEditing)
      rcases hstate with h | h <;> rw [h] <;> decide
    rw [if_neg hc]
  have hcat : m.State = .StateCategoryCreate →
      m.Update env (.KeyMsg "q")
        = some ({ m with
            ErrorMsg := "", SuccessMsg := "",
            CategoryInput := (env.input.Update m.CategoryInput "q").1 },
          (env.input.Update m.CategoryInput "q").2) := by
    intro hstate
    rw [Update_key_categoryCreate env m "q" hstate,
      updateCategoryCreate_typed env _ "q" (by decide) (by decide)]
  refine ⟨htitle, hnotes, hcat, ?_, ?_⟩
  · intro hlib hstate
    rcases hstate with h | h | h | h | h
    · exact ⟨_, _, htitle (Or.inl h), hlib _, rfl⟩
    · exact ⟨_, _, htitle (Or.inr h), hlib _, rfl⟩
    · exact ⟨_, _, hnotes (Or.inl h), hlib _, rfl⟩
    · exact ⟨_, _, hnotes (Or.inr h), hlib _, rfl⟩
    · exact ⟨_, _, hcat h, hlib _, rfl⟩
  · intro hstate
    rw [Update_key_auth env m "q" hstate, updateAuth_quit env _ "q" (Or.inl rfl)]

/-- Claim C25, amended, while a title is edited: the key "q" is put in at the
cursor, after the text "B" of the title input, with no effect. -/
theorem q_typed_in_text_states_witness :
    editingModel.Update (goEnv 0) (.KeyMsg "q")
      = some ({ editingModel with
          TitleInput := { emptyInput with value := "Bq", focus := true, pos := 2 } }, []) :=
  (q_typed_in_text_states (goEnv 0) editingModel).1 (Or.inr rfl)

/-- Claim C25 as stated fails on the login form: with the text "a" in the
email field, the key "q" schedules the quit effect and the field keeps its
text. -/
theorem q_quits_on_login_form :
    (loginModel "a" "").State = .StateLogin ∧
    (loginModel "a" "").Update (goEnv 0) (.KeyMsg "q")
      = some ({ loginModel "a" "" with SuccessMsg := "" }, [Effect.quit]) ∧
    ({ loginModel "a" "" with SuccessMsg := "" } : Model PlainInput).EmailInput.value = "a" := by
  refine ⟨by decide, by decide, by decide⟩

end models

namespace themes

/-- Go `a % 10` for a negative `a` is the negative of `(-a) % 10`. -/
theorem tmod_ten_of_neg (a : Int) (h : a < 0) : Int.tmod a 10 = -((-a) % 10) := by
  obtain ⟨n, rfl⟩ := Int.eq_negSucc_of_lt_zero h
  have : Int.tmod (Int.negSucc n) 10 = -(((n + 1) % 10 : Nat) : Int) := rfl
  rw [this, Int.negSucc_eq]
  push_cast
  omega

/-- `GetTheme` past the guard for an empty table: index by `index % 10`. -/
theorem GetTheme_eq (index : Int) : GetTheme index = goIndex All (Int.tmod index 10) := by
  have hlen : goLen All = 10 := rfl
  unfold GetTheme goMod
  rw [hlen, if_neg (by decide), if_neg (by decide)]
  rfl

/-- Claim C26, where it holds. For every index that is not negative, also one
past the end of the table, `GetTheme(index)` returns, and returns the theme
of `All` at position `index` modulo `len(All)`, which is 10. For a negative
index the wrap-around is missed, the remainder Go's `%` gives there being not
positive: `GetTheme` returns the first theme when the index is a multiple of
10 and panics when it is not. -/
theorem GetTheme_wraps_nonneg (index : Int) :
    goLen All = 10 ∧
    (0 ≤ index →
      ∃ th : Theme, GetTheme index = some th ∧ All[(index % 10).toNat]? = some th ∧
        0 ≤ index % 10 ∧ index % 10 < goLen All) ∧
    (index < 0 → (10 : Int) ∣ index → GetTheme index = All[0]?) ∧
    (index < 0 → ¬ (10 : Int) ∣ index → GetTheme index = none) := by
  have hlen : goLen All = 10 := rfl
  refine ⟨hlen, ?_, ?_, ?_⟩
  · intro h
    have h0 : 0 ≤ index % 10 := Int.emod_nonneg _ (by decide)
    have h1 : index % 10 < goLen All := by rw [hlen]; exact Int.emod_lt_of_pos _ (by decide)
    obtain ⟨th, hth, hget⟩ := models.goIndex_of_lt All (index % 10) h0 h1
    refine ⟨th, ?_, hget, h0, h1⟩
    rw [GetTheme_eq, Int.tmod_eq_emod h (by decide), hth]
  · intro h hd
    rw [GetTheme_eq, tmod_ten_of_neg index h]
    have : -((-index) % 10) = 0 := by omega
    rw [this]
    rfl
  · intro h hd
    rw [GetTheme_eq, tmod_ten_of_neg index h]
    unfold goIndex
    rw [if_neg (by omega)]

/-- Claim C26 at the indices 3, 13 and -10: the fourth theme twice, and the
first. -/
theorem GetTheme_wraps_nonneg_witness :
    (∃ th : Theme, GetTheme 13 = some th ∧ All[3]? = some th) ∧
    GetTheme 3 = GetTheme 13 ∧ (GetTheme 13).map (fun th => th.Name) = some "Dracula" ∧
    GetTheme (-10) = All[0]? :=
  ⟨((GetTheme_wraps_nonneg 13).2.1 (by decide)).imp (fun _ h => ⟨h.1, h.2.1⟩),
    by decide, by decide, (GetTheme_wraps_nonneg (-10)).2.2.1 (by decide) (by decide)⟩

/-- Claim C26 fails for a negative index, which `GetTheme` does not wrap
around as its comment says: `-1 % 10` is `-1` in Go, and indexing `All` with
it panics; so does the index -13. -/
theorem GetTheme_negative_panics :
    Int.tmod (-1) 10 = -1 ∧ GetTheme (-1) = none ∧ GetTheme (-13) = none := by
  refine ⟨by decide, by decide, by decide⟩

end themes

namespace models
variable {TI : Type}

/-- Claim C27 fails on `confirmModel` (tasks 0, 1, 2 with priorities 3, 9, 1,
task 1 chosen for deletion). The key "y" starts the animation, and the tick
after 200 ms schedules the delete of task 1. If the key "s" is handled before
the delete result, the list is sorted by priority (task 1, task 0, task 2),
and the delete result removes the task at the recorded index 1, which now is
task 0: tasks 1 and 2 are left. If instead "up" and "enter" are handled, the
recorded index becomes 0 and the delete result removes task 0 as well. -/
theorem delete_removes_other_task :
    confirmModel.Tasks.map (fun t => t.ID) = [0, 1, 2] ∧
    (confirmModel.run [(goEnv 0, .KeyMsg "y")]).bind
        (fun m => (m.Update (goEnv 200000001) .TickMsg).map (fun r => r.2))
      = some [Effect.deleteTask 1] ∧
    (confirmModel.run [(goEnv 0, .KeyMsg "y"), (goEnv 200000001, .TickMsg),
        (goEnv 200000002, .KeyMsg "s"), (goEnv 200000003, .TaskDeletedMsg none)]).map
        (fun m => m.Tasks.map (fun t => t.ID))
      = some [1, 2] ∧
    (confirmModel.run [(goEnv 0, .KeyMsg "y"), (goEnv 200000001, .TickMsg),
        (goEnv 200000002, .KeyMsg "up"), (goEnv 200000003, .KeyMsg "enter"),
        (goEnv 200000004, .TaskDeletedMsg none)]).map
        (fun m => m.Tasks.map (fun t => t.ID))
      = some [1, 2] := by
  refine ⟨by decide, by decide, by decide, by decide⟩

end models

namespace models
variable {TI : Type}

/-- A tick schedules the delete of every task whose deletion is due, and
leaves such a task as it is but for a finished completion animation. -/
theorem tick_schedules_delete (env : Env TI) (m : Model TI) (t : Task) (ht : t ∈ m.Tasks)
    (hd : t.IsDeleting = true) (hdue : Since env.now t.AnimStart > DeleteAnimDuration) :
    ∃ (m' : Model TI) (cmds : Cmd), m.Update env .TickMsg = some (m', cmds) ∧
      Effect.deleteTask t.ID ∈ cmds ∧ m'.Tasks = m.Tasks.map (settleCheck env.now) ∧
      settleCheck env.now t ∈ m'.Tasks := by
  obtain ⟨h1, h2, -, -⟩ := tickLoop_spec env.now m.Tasks 0 m.SelectedTaskIdx [] false
  have hmem : Effect.deleteTask t.ID ∈
      (tickLoop env.now m.Tasks 0 m.SelectedTaskIdx [] false).cmds := by
    rw [h2]
    simp only [List.nil_append, List.mem_map, List.mem_filter]
    exact ⟨t, ⟨ht, by simp [deleteDue, hd, hdue]⟩, rfl⟩
  refine ⟨_, _, rfl, ?_, h1, ?_⟩
  · show Effect.deleteTask t.ID ∈
      (if (tickLoop env.now m.Tasks 0 m.SelectedTaskIdx [] false).needsTick = true
        then (tickLoop env.now m.Tasks 0 m.SelectedTaskIdx [] false).cmds ++ TickCmd
        else (tickLoop env.now m.Tasks 0 m.SelectedTaskIdx [] false).cmds)
    split_ifs
    · exact List.mem_append_left _ hmem
    · exact hmem
  · show settleCheck env.now t ∈ (tickLoop env.now m.Tasks 0 m.SelectedTaskIdx [] false).Tasks
    rw [h1]
    exact List.mem_map_of_mem _ ht

/-- Claim C28, what the code does. A task in its deletion animation whose
time is up gets its delete effect from every tick: the tick schedules the
effect and leaves `IsDeleting` set, so a tick handled after it, at a later
clock value or the same, schedules the delete of the same id again. -/
theorem tick_reissues_delete (env1 env2 : Env TI) (m : Model TI) (t : Task) (ht : t ∈ m.Tasks)
    (hd : t.IsDeleting = true) (h1 : Since env1.now t.AnimStart > DeleteAnimDuration)
    (h2 : Since env2.now t.AnimStart > DeleteAnimDuration) :
    ∃ (m1 : Model TI) (cmds1 : Cmd) (m2 : Model TI) (cmds2 : Cmd),
      m.Update env1 .TickMsg = some (m1, cmds1) ∧ Effect.deleteTask t.ID ∈ cmds1 ∧
      m1.Update env2 .TickMsg = some (m2, cmds2) ∧ Effect.deleteTask t.ID ∈ cmds2 := by
  obtain ⟨m1, cmds1, hu1, hc1, -, hmem1⟩ := tick_schedules_delete env1 m t ht hd h1
  obtain ⟨e1, e2, e3, -, -⟩ := toTask_settleCheck env1.now t
  obtain ⟨m2, cmds2, hu2, hc2, -, -⟩ := tick_schedules_delete env2 m1 (settleCheck env1.now t)
    hmem1 (by rw [e2]; exact hd) (by rw [e3]; exact h2)
  refine ⟨m1, cmds1, m2, cmds2, hu1, hc1, hu2, ?_⟩
  have hid : (settleCheck env1.now t).ID = t.ID := by rw [e1]
  rw [← hid]
  exact hc2

/-- Claim C28, what the code does, on `deleteCheckModel`: the ticks at 200 ms
and 1 ns and at 250 ms both schedule the delete of task 7. -/
theorem tick_reissues_delete_witness :
    ∃ (m1 : Model PlainInput) (cmds1 : Cmd) (m2 : Model PlainInput) (cmds2 : Cmd),
      deleteCheckModel.Update (goEnv 200000001) .TickMsg = some (m1, cmds1) ∧
      Effect.deleteTask 7 ∈ cmds1 ∧
      m1.Update (goEnv 250000000) .TickMsg = some (m2, cmds2) ∧
      Effect.deleteTask 7 ∈ cmds2 :=
  tick_reissues_delete (goEnv 200000001) (goEnv 250000000) deleteCheckModel
    { sampleTask 7 "A" 0 none with IsDeleting := true, AnimStart := 0 }
    (by decide) rfl (by decide) (by decide)

/-- Claim C28 fails on `deleteCheckModel`, where task 7 is being deleted
since 0 and task 8 is in its completion animation since 100 ms. The tick at
200 ms and 1 ns schedules the delete of task 7 and, task 8 still animating,
another tick; the model it returns is the model before. The next tick, at
250 ms, schedules the delete of task 7 a second time. -/
theorem delete_effect_scheduled_twice :
    deleteCheckModel.Update (goEnv 200000001) .TickMsg
      = some (deleteCheckModel, [Effect.deleteTask 7, Effect.tick]) ∧
    deleteCheckModel.Update (goEnv 250000000) .TickMsg
      = some (deleteCheckModel, [Effect.deleteTask 7, Effect.tick]) := by
  refine ⟨by decide, by decide⟩

end models

namespace models
variable {TI : Type}

/-- Claim C29, what the code does. With the cursor on task `t`, the key
"enter" in the state Editing with a title that is not empty schedules the
title update for the id of `t`, and in the state EditingNotes the notes
update for the id of `t`: the target is the task under the cursor when the
key is handled. `EditingTaskID` is not read. -/
theorem edit_enter_targets_cursor (env : Env TI) (m : Model TI) (t : Task)
    (h0 : 0 ≤ m.Cursor) (h1 : m.Cursor < goLen m.Tasks)
    (ht : goIndex m.Tasks m.Cursor = some t) :
    (m.State = .StateEditing → env.input.Value m.TitleInput ≠ "" →
      m.Update env (.KeyMsg "enter")
        = some ({ m with ErrorMsg := "", SuccessMsg := "", Loading := true },
            [Effect.updateTaskTitle t.ID (env.input.Value m.TitleInput)])) ∧
    (m.State = .StateEditingNotes →
      m.Update env (.KeyMsg "enter")
        = some ({ m with ErrorMsg := "", SuccessMsg := "", Loading := true },
            [Effect.updateTaskNotes t.ID (env.input.Value m.NotesInput)])) := by
  refine ⟨?_, ?_⟩
  · intro hstate hval
    rw [Update_key_editing env m "enter" (Or.inl hstate)]
    unfold Model.updateEditing
    have c1 : ¬ ({ m with ErrorMsg := "", SuccessMsg := "" } : Model TI).State
        = .StateCreating := by
      show ¬ m.State = .StateCreating
      rw [hstate]; decide
    have c2 : ¬ ({ m with ErrorMsg := "", SuccessMsg := "" } : Model TI).State
        = .StateCreatingNotes := by
      show ¬ m.State = .StateCreatingNotes
      rw [hstate]; decide
    have c3 : ¬ (({ m with ErrorMsg := "", SuccessMsg := "" } : Model TI).State = .StateEditing ∧
        env.input.Value ({ m with ErrorMsg := "", SuccessMsg := "" } : Model TI).TitleInput
          = "") := fun h => hval h.2
    have c4 : ({ m with ErrorMsg := "", SuccessMsg := "" } : Model TI).State = .StateEditing ∧
        ({ m with ErrorMsg := "", SuccessMsg := "" } : Model TI).Cursor ≥ 0 ∧
        ({ m with ErrorMsg := "", SuccessMsg := "" } : Model TI).Cursor
          < goLen ({ m with ErrorMsg := "", SuccessMsg := "" } : Model TI).Tasks :=
      ⟨hstate, h0, h1⟩
    have ht' : goIndex ({ m with ErrorMsg := "", SuccessMsg := "" } : Model TI).Tasks
        ({ m with ErrorMsg := "", SuccessMsg := "" } : Model TI).Cursor = some t := ht
    rw [if_neg (by decide), if_pos rfl, if_neg c1, if_neg c2, if_neg c3, if_pos c4, ht']
    rfl
  · intro hstate
    rw [Update_key_editing env m "enter" (Or.inr (Or.inr (Or.inl hstate)))]
    unfold Model.updateEditing
    have c1 : ¬ ({ m with ErrorMsg := "", SuccessMsg := "" } : Model TI).State
        = .StateCreating := by
      show ¬ m.State = .StateCreating
      rw [hstate]; decide
    have c2 : ¬ ({ m with ErrorMsg := "", SuccessMsg := "" } : Model TI).State
        = .StateCreatingNotes := by
      show ¬ m.State = .StateCreatingNotes
      rw [hstate]; decide
    have c3 : ¬ (({ m with ErrorMsg := "", SuccessMsg := "" } : Model TI).State = .StateEditing ∧
        env.input.Value ({ m with ErrorMsg := "", SuccessMsg := "" } : Model TI).TitleInput
          = "") := by
      intro h
      have : m.State = .StateEditing := h.1
      rw [hstate] at this
      exact absurd this (by decide)
    have c4 : ¬ (({ m with ErrorMsg := "", SuccessMsg := "" } : Model TI).State = .StateEditing ∧
        ({ m with ErrorMsg := "", SuccessMsg := "" } : Model TI).Cursor ≥ 0 ∧
        ({ m with ErrorMsg := "", SuccessMsg := "" } : Model TI).Cursor
          < goLen ({ m with ErrorMsg := "", SuccessMsg := "" } : Model TI).Tasks) := by
      intro h
      have : m.State = .StateEditing := h.1
      rw [hstate] at this
      exact absurd this (by decide)
    have c5 : ({ m with ErrorMsg := "", SuccessMsg := "" } : Model TI).State
          = .StateEditingNotes ∧
        ({ m with ErrorMsg := "", SuccessMsg := "" } : Model TI).Cursor ≥ 0 ∧
        ({ m with ErrorMsg := "", SuccessMsg := "" } : Model TI).Cursor
          < goLen ({ m with ErrorMsg := "", SuccessMsg := "" } : Model TI).Tasks :=
      ⟨hstate, h0, h1⟩
    have ht' : goIndex ({ m with ErrorMsg := "", SuccessMsg := "" } : Model TI).Tasks
        ({ m with ErrorMsg := "", SuccessMsg := "" } : Model TI).Cursor = some t := ht
    rw [if_neg (by decide), if_pos rfl, if_neg c1, if_neg c2, if_neg c3, if_neg c4, if_pos c5,
      ht']
    rfl

/-- Claim C29, what the code does, on `editingModel`, where the cursor is on
task 1 and the title input reads "B": "enter" schedules the title update of
task 1; with 7 recorded as `EditingTaskID` it does the same. -/
theorem edit_enter_targets_cursor_witness :
    editingModel.Update (goEnv 0) (.KeyMsg "enter")
      = some ({ editingModel with Loading := true }, [Effect.updateTaskTitle 1 "B"]) ∧
    ({ editingModel with EditingTaskID := 7 } : Model PlainInput).Update (goEnv 0)
        (.KeyMsg "enter")
      = some ({ editingModel with EditingTaskID := 7, Loading := true },
          [Effect.updateTaskTitle 1 "B"]) :=
  ⟨(edit_enter_targets_cursor (goEnv 0) editingModel (sampleTask 1 "" 9 none) (by decide)
      (by decide) (by decide)).1 rfl (by decide),
    (edit_enter_targets_cursor (goEnv 0) ({ editingModel with EditingTaskID := 7 }
      : Model PlainInput) (sampleTask 1 "" 9 none) (by decide) (by decide) (by decide)).1 rfl
      (by decide)⟩

/-- Claim C29 fails on `browseModel` (tasks 3, 2, 1, the cursor on task 2).
The key "e" opens the title of task 2 for editing: `EditingTaskID` is 2 and
the input reads "B". A task list with the new task 4 then arrives without
error; the state is still Editing, the list is 4, 3, 2, 1 and the cursor, at
index 1, is on task 3. The key "enter" schedules the title update for task 3,
not for task 2. -/
theorem edit_enter_updates_other_task :
    (browseModel.run [(goEnv 0, .KeyMsg "e")]).map
        (fun m => (m.State, m.EditingTaskID, m.TitleInput.value))
      = some (.StateEditing, 2, "B") ∧
    (browseModel.run [(goEnv 0, .KeyMsg "e"),
        (goEnv 0, .TasksLoadedMsg [sampleApiTask 4 "D", sampleApiTask 3 "C", sampleApiTask 2 "B",
          sampleApiTask 1 "A"] none)]).map
        (fun m => (m.State, m.EditingTaskID, m.TitleInput.value, m.Cursor,
          m.Tasks.map (fun t => t.ID)))
      = some (.StateEditing, 2, "B", 1, [4, 3, 2, 1]) ∧
    (browseModel.run [(goEnv 0, .KeyMsg "e"),
        (goEnv 0, .TasksLoadedMsg [sampleApiTask 4 "D", sampleApiTask 3 "C", sampleApiTask 2 "B",
          sampleApiTask 1 "A"] none)]).bind
        (fun m => (m.Update (goEnv 0) (.KeyMsg "enter")).map (fun r => r.2))
      = some [Effect.updateTaskTitle 3 "B"] := by
  refine ⟨by decide, by decide, by decide⟩

end models

namespace models
variable {TI : Type}

/-- The `TaskCreatedMsg` case with a task and no error: the list is the
sorted list with the new task, the cursor is its last index, and the page is
not written. -/
theorem taskCreated_result (env : Env TI) (m : Model TI) (c : api.Task) :
    ∃ m' : Model TI, m.Update env (.TaskCreatedMsg (some c) none) = some (m', []) ∧
      m'.Tasks = env.sortSlice (sortLess m.SortMode) (m.Tasks ++ [Task.ofApi c]) ∧
      (m'.Tasks ≠ [] → m'.Cursor = goLen m'.Tasks - 1) ∧ m'.Page = m.Page ∧
      m'.State = .StateBrowse := by
  refine ⟨_, rfl, ?_, ?_, ?_, rfl⟩
  · show (Model.ValidateCursor _).Tasks = _
    rw [(ValidateCursor_frame _).1, ApplySort_eq]
  · have key : ∀ M : Model TI, M.Cursor = goLen M.Tasks - 1 → M.ValidateCursor.Tasks ≠ [] →
        M.ValidateCursor.Cursor = goLen M.ValidateCursor.Tasks - 1 := by
      intro M hc hne
      rw [(ValidateCursor_frame M).1] at hne ⊢
      have hlen : 0 < goLen M.Tasks := by
        have h1 := goLen_nonneg M.Tasks
        have h2 : goLen M.Tasks ≠ 0 := fun h => hne ((goLen_eq_zero_iff M.Tasks).mp h)
        omega
      by_cases hst : M.State = .StateCategorySelect
      · rw [(ValidateCursor_frame M).2.2.2 hst, hc]
      · rw [(ValidateCursor_valid M hst).2 ⟨by rw [hc]; omega, by rw [hc]; omega⟩, hc]
    exact key _ rfl
  · show (Model.ValidateCursor _).Page = _
    rw [ValidateCursor_eq, ApplySort_eq]

/-- The task under a cursor on the last index is the last task. -/
theorem CurrentTask_last (m : Model TI) (hne : m.Tasks ≠ [])
    (hc : m.Cursor = goLen m.Tasks - 1) : m.CurrentTask = m.Tasks.getLast? := by
  have hpos : 0 < m.Tasks.length := List.length_pos.mpr hne
  have h0 : 0 ≤ m.Cursor := by rw [hc]; unfold goLen; omega
  have h1 : m.Cursor < goLen m.Tasks := by rw [hc]; omega
  unfold Model.CurrentTask
  rw [if_pos ⟨h0, h1⟩]
  obtain ⟨x, hx1, hx2⟩ := goIndex_of_lt m.Tasks m.Cursor h0 h1
  rw [hx1, ← hx2, List.getLast?_eq_getElem?]
  congr 1
  rw [hc]
  unfold goLen
  omega

/-- Claim C30, what the code does. Given what `sort.Slice` promises, a
`TaskCreatedMsg` with task `c` and no error returns the model in the state
Browse with the tasks it had and `c`, sorted by the sort mode: one task more,
and `c` exactly once when no task had its id. The cursor is set to the last
index of the sorted list, so `CurrentTask()` is the task the order puts last,
and the page is not written. In creation order, where the greatest id comes
first, a new task with an id greater than those of a non-empty list is not
the task under the cursor. -/
theorem created_cursor_on_last (env : Env TI) (m : Model TI) (c : api.Task)
    (hsort : SliceSorts env.sortSlice) :
    ∃ m' : Model TI, m.Update env (.TaskCreatedMsg (some c) none) = some (m', []) ∧
      m'.Tasks.Perm (m.Tasks ++ [Task.ofApi c]) ∧
      m'.Tasks.Pairwise (modeOrdered m.SortMode) ∧
      m'.Tasks.length = m.Tasks.length + 1 ∧
      ((∀ x ∈ m.Tasks, x.ID ≠ c.ID) → m'.Tasks.count (Task.ofApi c) = 1) ∧
      m'.Cursor = goLen m'.Tasks - 1 ∧ m'.Page = m.Page ∧ m'.State = .StateBrowse ∧
      m'.CurrentTask = m'.Tasks.getLast? ∧
      (m.SortMode = .SortCreated → m.Tasks ≠ [] → (∀ x ∈ m.Tasks, x.ID < c.ID) →
        ∃ x, m'.CurrentTask = some x ∧ x.ID < c.ID) := by
  obtain ⟨m', hu, ht, hcur, hpage, hstate⟩ := taskCreated_result env m c
  have hperm : m'.Tasks.Perm (m.Tasks ++ [Task.ofApi c]) := by
    rw [ht]; exact (hsort _ _).1
  have hord : m'.Tasks.Pairwise (modeOrdered m.SortMode) := by
    rw [ht]
    exact ((hsort (sortLess m.SortMode) _).2 (strictWeak_sortLess m.SortMode)).imp
      (fun {a b} hab => modeOrdered_of_not_less m.SortMode a b hab)
  have hlen : m'.Tasks.length = m.Tasks.length + 1 := by
    rw [hperm.length_eq, List.length_append]; rfl
  have hne : m'.Tasks ≠ [] := by
    intro h
    rw [h] at hlen
    simp at hlen
  have hlast := CurrentTask_last m' hne (hcur hne)
  refine ⟨m', hu, hperm, hord, hlen, ?_, hcur hne, hpage, hstate, hlast, ?_⟩
  · intro hfresh
    rw [hperm.count_eq, List.count_append]
    have hnot : Task.ofApi c ∉ m.Tasks := fun hmem => hfresh _ hmem rfl
    rw [List.count_eq_zero.mpr hnot]
    simp
  · intro hmode hne0 hlt
    rw [hlast, List.getLast?_eq_getLast _ hne]
    refine ⟨_, rfl, ?_⟩
    have hsplit := List.dropLast_append_getLast hne
    have hmemlast : m'.Tasks.getLast hne ∈ m.Tasks ++ [Task.ofApi c] :=
      hperm.mem_iff.mp (List.getLast_mem hne)
    rcases List.mem_append.mp hmemlast with hin | hin
    · exact hlt _ hin
    · exfalso
      have hx : m'.Tasks.getLast hne = Task.ofApi c := List.mem_singleton.mp hin
      obtain ⟨y, hy⟩ := List.exists_mem_of_ne_nil m.Tasks hne0
      have hy' : y ∈ m'.Tasks := hperm.mem_iff.mpr (List.mem_append_left _ hy)
      rw [← hsplit] at hy' hord
      have hyid : y.ID < c.ID := hlt y hy
      rcases List.mem_append.mp hy' with hyin | hyin
      · have hrel := (List.pairwise_append.mp hord).2.2 y hyin _ (List.mem_singleton_self _)
        rw [hmode, hx] at hrel
        have : y.ID ≥ c.ID := hrel
        omega
      · have : y = m'.Tasks.getLast hne := List.mem_singleton.mp hyin
        rw [this, hx] at hyid
        exact absurd hyid (lt_irrefl _)

/-- Claim C30, what the code does, on `browseModel` with merge sort: the new
task 4 is in the list once, the list has four tasks, and the cursor is on the
last index. -/
theorem created_cursor_on_last_witness :
    SliceSorts (mergeEnv 0).sortSlice ∧
    ∃ m' : Model PlainInput,
      browseModel.Update (mergeEnv 0) (.TaskCreatedMsg (some (sampleApiTask 4 "D")) none)
        = some (m', []) ∧
      m'.Tasks.length = 4 ∧ m'.Tasks.count (Task.ofApi (sampleApiTask 4 "D")) = 1 ∧
      m'.Cursor = goLen m'.Tasks - 1 ∧ ∃ x, m'.CurrentTask = some x ∧ x.ID < 4 :=
  ⟨mergeSortSlice_sorts,
    (created_cursor_on_last (mergeEnv 0) browseModel (sampleApiTask 4 "D")
      mergeSortSlice_sorts).imp (fun _ h =>
        ⟨h.1, h.2.2.2.1, h.2.2.2.2.1 (by decide), h.2.2.2.2.2.1,
          h.2.2.2.2.2.2.2.2.2 rfl (by decide) (by decide)⟩)⟩

/-- Claim C30 fails on `browseModel` (tasks 3, 2, 1 in creation order): the
new task 4 is sorted to the front and the cursor is set to index 3, where
task 1 is. On `twelveModel` (tasks 12 to 1, page size 10, page 0) the new
task 13 is sorted to the front, the cursor is set to index 12, and the page
stays 0, whose tasks end before index 10. -/
theorem created_task_not_selected :
    (browseModel.Update (goEnv 0) (.TaskCreatedMsg (some (sampleApiTask 4 "D")) none)).map
        (fun r => (r.1.Tasks.map (fun t => t.ID), r.1.Cursor,
          r.1.CurrentTask.map (fun t => t.ID)))
      = some ([4, 3, 2, 1], 3, some 1) ∧
    (twelveModel.Update (goEnv 0) (.TaskCreatedMsg (some (sampleApiTask 13 "N")) none)).map
        (fun r => (r.1.Tasks.length, r.1.Cursor, r.1.CurrentTask.map (fun t => t.ID),
          r.1.Page, r.1.PageStart, r.1.PageEnd))
      = some (13, 12, some 1, 0, 0, 10) := by
  refine ⟨by decide, by decide⟩

end models

namespace models
variable {TI : Type}

theorem lastAnim_ValidateCursor (m : Model TI) : m.ValidateCursor.LastAnim = m.LastAnim := by
  rw [ValidateCursor_eq]

theorem lastAnim_ApplySort (env : Env TI) (m : Model TI) :
    (m.ApplySort env).LastAnim = m.LastAnim := by
  rw [ApplySort_eq]

theorem lastAnim_EnsureCursorVisible {m a : Model TI} (ha : m.EnsureCursorVisible = some a)
    {c : Int} (h : m.LastAnim = c) : a.LastAnim = c := by
  rw [EnsureCursorVisible_some m a ha]
  exact h

theorem lastAnim_pagePrev (m : Model TI) : m.pagePrev.LastAnim = m.LastAnim := by
  unfold Model.pagePrev
  split_ifs <;> rfl

theorem lastAnim_pageNext {m a : Model TI} (ha : m.pageNext = some a)
    {c : Int} (h : m.LastAnim = c) : a.LastAnim = c := by
  unfold Model.pageNext at ha
  cases htp : m.TotalPages with
  | none => rw [htp] at ha; simp at ha
  | some tp =>
    rw [htp] at ha
    simp only [Option.bind_eq_bind, Option.some_bind] at ha
    split_ifs at ha
    all_goals
      rw [← Option.some.inj ha]
      exact h

theorem lastAnim_updateActiveInput (env : Env TI) (m : Model TI) (key : String) :
    (m.updateActiveInput env key).1.LastAnim = m.LastAnim := by
  unfold Model.updateActiveInput
  split_ifs <;> rfl

/-- `updateAuth` leaves `LastAnim` as it was. -/
theorem updateAuth_lastAnim (env : Env TI) (m : Model TI) (key : String) :
    Holds (fun m' => m'.LastAnim = m.LastAnim) (m.updateAuth env key) := by
  unfold Model.updateAuth
  dsimp only
  repeat' first
    | exact holds_some rfl
    | (apply holds_some; dsimp only; split_ifs <;> rfl)
    | (apply holds_ite <;> intro _)

/-- `updateEditing` leaves `LastAnim` as it was. -/
theorem updateEditing_lastAnim (env : Env TI) (m : Model TI) (key : String) :
    Holds (fun m' => m'.LastAnim = m.LastAnim) (m.updateEditing env key) := by
  unfold Model.updateEditing
  dsimp only
  repeat' first
    | exact holds_some rfl
    | exact holds_some (lastAnim_ValidateCursor _)
    | exact holds_pair (lastAnim_updateActiveInput env m key)
    | (apply holds_ite <;> intro _)
    | (apply holds_bind; intro a ha)

/-- `updateBrowse` leaves `LastAnim` as it was for every key but " ". -/
theorem updateBrowse_lastAnim (env : Env TI) (m : Model TI) (key : String) (hk : key ≠ " ") :
    Holds (fun m' => m'.LastAnim = m.LastAnim) (m.updateBrowse env key) := by
  unfold Model.updateBrowse
  dsimp only
  repeat' first
    | exact holds_some rfl
    | exact absurd ‹key = " "› hk
    | exact holds_some (lastAnim_pagePrev m)
    | exact holds_some (lastAnim_ApplySort env _)
    | exact holds_some (lastAnim_EnsureCursorVisible ha rfl)
    | exact holds_some (lastAnim_pageNext ha rfl)
    | (apply holds_ite <;> intro _)
    | (apply holds_bind; intro a ha)

theorem updateCategorySelect_lastAnim (env : Env TI) (m : Model TI) (key : String) :
    Holds (fun m' => m'.LastAnim = m.LastAnim) (m.updateCategorySelect env key) := by
  unfold Model.updateCategorySelect
  dsimp only
  repeat' first
    | exact holds_some rfl
    | (apply holds_ite <;> intro _)
    | (apply holds_bind; intro a ha)

theorem updateCategoryCreate_lastAnim (env : Env TI) (m : Model TI) (key : String) :
    Holds (fun m' => m'.LastAnim = m.LastAnim) (m.updateCategoryCreate env key) := by
  unfold Model.updateCategoryCreate
  dsimp only
  repeat' first
    | exact holds_some rfl
    | (apply holds_ite <;> intro _)
    | (apply holds_bind; intro a ha)

theorem updateTaskDetail_lastAnim (env : Env TI) (m : Model TI) (key : String) :
    Holds (fun m' => m'.LastAnim = m.LastAnim) (m.updateTaskDetail env key) := by
  unfold Model.updateTaskDetail
  dsimp only
  repeat' first
    | exact holds_some rfl
    | (apply holds_ite <;> intro _)
    | (apply holds_bind; intro a ha)

theorem updateConfirmDelete_lastAnim (env : Env TI) (m : Model TI) (key : String) :
    Holds (fun m' => m'.LastAnim = m.LastAnim) (m.updateConfirmDelete env key) := by
  unfold Model.updateConfirmDelete
  repeat' first
    | exact holds_some rfl
    | (apply holds_ite <;> intro _)
    | (apply holds_bind; intro a ha)

theorem updateHelp_lastAnim (m : Model TI) (key : String) :
    Holds (fun m' => m'.LastAnim = m.LastAnim) (m.updateHelp key) := by
  unfold Model.updateHelp
  dsimp only
  repeat' first
    | exact holds_some rfl
    | (apply holds_ite <;> intro _)

end models

namespace models
variable {TI : Type}

/-- The key " " in `updateBrowse` leaves `LastAnim` as it was unless the
cursor selects a task that is not done. -/
theorem updateBrowse_space_lastAnim (env : Env TI) (m : Model TI)
    (h : m.hasSelection = true → ∀ t, goIndex m.Tasks m.Cursor = some t → t.Status = "done") :
    Holds (fun m' => m'.LastAnim = m.LastAnim) (m.updateBrowse env " ") := by
  unfold Model.updateBrowse
  rw [if_neg (by decide), if_neg (by decide), if_neg (by decide), if_neg (by decide),
    if_neg (by decide), if_neg (by decide), if_neg (by decide), if_neg (by decide),
    if_neg (by decide), if_neg (by decide), if_neg (by decide), if_neg (by decide),
    if_neg (by decide), if_neg (by decide), if_neg (by decide), if_pos rfl]
  apply holds_ite <;> intro hsel
  · apply holds_bind
    intro t ht
    have hs := h hsel t ht
    simp only [hs, if_true]
    rw [if_neg (by decide)]
    exact holds_some rfl
  · exact holds_some rfl

/-- The key " " in `updateBrowse` on a selected task that is not done does
not return when the draws end before `RandomAnimType` does. -/
theorem updateBrowse_space_stuck (env : Env TI) (m : Model TI) (t : Task)
    (h0 : 0 ≤ m.Cursor) (h1 : m.Cursor < goLen m.Tasks)
    (ht : goIndex m.Tasks m.Cursor = some t) (hs : t.Status ≠ "done")
    (ha : RandomAnimType env.animDraws m.LastAnim = none) :
    m.updateBrowse env " " = none := by
  unfold Model.updateBrowse
  rw [if_neg (by decide), if_neg (by decide), if_neg (by decide), if_neg (by decide),
    if_neg (by decide), if_neg (by decide), if_neg (by decide), if_neg (by decide),
    if_neg (by decide), if_neg (by decide), if_neg (by decide), if_neg (by decide),
    if_neg (by decide), if_neg (by decide), if_neg (by decide), if_pos rfl,
    if_pos ((hasSelection_iff m).mpr ⟨h0, h1⟩), ht]
  simp only [Option.bind_eq_bind, Option.some_bind, if_neg hs, if_true, ha, Option.none_bind]

/-- What `armsCheck` tests. -/
theorem armsCheck_iff (m : Model TI) (msg : Msg) :
    m.armsCheck msg = true ↔
      msg = .KeyMsg " " ∧ m.State = .StateBrowse ∧ m.hasSelection = true ∧
        ∃ t, goIndex m.Tasks m.Cursor = some t ∧ t.Status ≠ "done" := by
  cases msg with
  | KeyMsg key =>
    unfold Model.armsCheck
    cases hg : goIndex m.Tasks m.Cursor with
    | none => simp
    | some t =>
      simp only [Bool.and_eq_true, decide_eq_true_eq, Msg.KeyMsg.injEq, Option.some.injEq,
        exists_eq_left']
      tauto
  | _ => simp [Model.armsCheck]

/-- Every message that arms no completion animation leaves `LastAnim` as it
was. -/
theorem Update_lastAnim (env : Env TI) (m : Model TI) (msg : Msg)
    (h : m.armsCheck msg = false) :
    Holds (fun m' => m'.LastAnim = m.LastAnim) (m.Update env msg) := by
  cases msg with
  | WindowSizeMsg w hgt => exact holds_some rfl
  | CategoriesLoadedMsg cats err => cases err <;> exact holds_some rfl
  | TickMsg => exact holds_some rfl
  | other => exact holds_some rfl
  | LoginMsg err => cases err <;> exact holds_some rfl
  | RegisterMsg err => cases err <;> exact holds_some rfl
  | TasksLoadedMsg tasks err =>
    cases err with
    | none =>
      rw [Update_tasksLoaded_ok]
      apply holds_bind
      intro a ha
      exact holds_some (lastAnim_EnsureCursorVisible ha (lastAnim_ValidateCursor _))
    | some e =>
      rw [Update_tasksLoaded_err]
      apply holds_bind
      intro a ha
      exact holds_some (lastAnim_EnsureCursorVisible ha (lastAnim_ValidateCursor _))
  | TaskCreatedMsg task err =>
    cases err with
    | some e => exact holds_some rfl
    | none =>
      cases task with
      | none => exact holds_some rfl
      | some t =>
        apply holds_some
        show (Model.ValidateCursor _).LastAnim = m.LastAnim
        rw [lastAnim_ValidateCursor]
        show (Model.ApplySort env _).LastAnim = m.LastAnim
        rw [lastAnim_ApplySort]
  | TaskUpdatedMsg task err =>
    simp only [Model.Update]
    apply holds_ite <;> intro _ <;> apply holds_some <;>
      cases err <;> cases task <;>
        first
          | rfl
          | (show (Model.ApplySort env _).LastAnim = m.LastAnim
             rw [lastAnim_ApplySort])
  | TaskDeletedMsg err =>
    apply holds_some
    show (Model.ValidateCursor _).LastAnim = m.LastAnim
    rw [lastAnim_ValidateCursor]
    cases err with
    | some e => rfl
    | none =>
      show (if _ then _ else _ : Model TI).LastAnim = m.LastAnim
      split_ifs <;> rfl
  | KeyMsg key =>
    rcases state_cases m.State with hst | hst | hst | hst | hst | hst | hst | hst
    · rw [Update_key_auth env m key hst]
      exact updateAuth_lastAnim env _ key
    · rw [Update_key_browse env m key hst]
      by_cases hk : key = " "
      · subst hk
        apply updateBrowse_space_lastAnim env ({ m with ErrorMsg := "", SuccessMsg := "" })
        intro hsel t ht
        by_contra hs
        have : m.armsCheck (.KeyMsg " ") = true :=
          (armsCheck_iff m _).mpr ⟨rfl, hst, hsel, t, ht, hs⟩
        rw [this] at h
        exact Bool.noConfusion h
      · exact updateBrowse_lastAnim env _ key hk
    · rw [Update_key_editing env m key hst]
      exact updateEditing_lastAnim env _ key
    · rw [Update_key_taskDetail env m key hst]
      exact updateTaskDetail_lastAnim env _ key
    · rw [Update_key_categorySelect env m key hst]
      exact updateCategorySelect_lastAnim env _ key
    · rw [Update_key_categoryCreate env m key hst]
      exact updateCategoryCreate_lastAnim env _ key
    · rw [Update_key_help env m key hst]
      exact updateHelp_lastAnim _ key
    · rw [Update_key_confirmDelete env m key hst]
      exact updateConfirmDelete_lastAnim env _ key

/-- A message that arms a completion animation gives the task at the cursor
a kind that is not the `LastAnim` of the model before, and records it as the
new `LastAnim`. -/
theorem Update_arms (env : Env TI) (m m' : Model TI) (msg : Msg) (cmds : Cmd)
    (h : m.armsCheck msg = true) (hu : m.Update env msg = some (m', cmds)) :
    ∃ t, goIndex m'.Tasks m.Cursor = some t ∧ t.AnimType = m'.LastAnim ∧
      m'.LastAnim ≠ m.LastAnim := by
  obtain ⟨rfl, hst, hsel, t, ht, hs⟩ := (armsCheck_iff m msg).mp h
  obtain ⟨h0, h1⟩ := (hasSelection_iff m).mp hsel
  rw [Update_key_browse env m " " hst] at hu
  cases ha : RandomAnimType env.animDraws m.LastAnim with
  | none =>
    rw [updateBrowse_space_stuck env ({ m with ErrorMsg := "", SuccessMsg := "" } : Model TI) t
      h0 h1 ht hs ha] at hu
    exact Option.noConfusion hu
  | some a =>
    rw [updateBrowse_space_open env ({ m with ErrorMsg := "", SuccessMsg := "" } : Model TI) t a
      h0 h1 ht hs ha] at hu
    obtain ⟨rfl, -⟩ := Prod.mk.inj (Option.some.inj hu)
    have hlt : m.Cursor.toNat < m.Tasks.length := by unfold goLen at h1; omega
    refine ⟨{ t with IsAnimatingCheck := true, AnimStart := env.now, AnimType := a }, ?_, rfl,
      (RandomAnimType_spec _ _ _ ha).2⟩
    show goIndex (m.Tasks.set m.Cursor.toNat _) m.Cursor = _
    obtain ⟨x, hx1, hx2⟩ := goIndex_of_lt (m.Tasks.set m.Cursor.toNat
      { t with IsAnimatingCheck := true, AnimStart := env.now, AnimType := a }) m.Cursor h0
      (by unfold goLen at h1 ⊢; rw [List.length_set]; exact h1)
    rw [hx1, ← hx2, List.getElem?_set, if_pos rfl, if_pos hlt]

/-- Along a run, the kinds armed one after the other, the `LastAnim` of the
start before them, never repeat from one to the next. -/
theorem armedKinds_chain (steps : List (Env TI × Msg)) :
    ∀ (m : Model TI) (kinds : List Int), m.armedKinds steps = some kinds →
      List.Chain (fun x y => x ≠ y) m.LastAnim kinds := by
  induction steps with
  | nil =>
    intro m kinds hk
    rw [← Option.some.inj hk]
    exact List.Chain.nil
  | cons step rest ih =>
    intro m kinds hk
    unfold Model.armedKinds at hk
    cases hu : m.Update step.1 step.2 with
    | none => rw [hu] at hk; exact Option.noConfusion hk
    | some r =>
      rw [hu] at hk
      simp only [Option.bind_eq_bind, Option.some_bind] at hk
      by_cases harm : m.armsCheck step.2 = true
      · rw [if_pos harm] at hk
        obtain ⟨t, ht, hta, hne⟩ := Update_arms step.1 m r.1 step.2 r.2 harm hu
        rw [ht] at hk
        simp only [Option.some_bind] at hk
        cases hrest : Model.armedKinds rest r.1 with
        | none => rw [hrest] at hk; exact Option.noConfusion hk
        | some ks =>
          rw [hrest] at hk
          rw [← Option.some.inj hk]
          refine List.Chain.cons ?_ ?_
          · rw [hta]; exact fun e => hne e.symm
          · rw [hta]; exact ih r.1 ks hrest
      · rw [if_neg harm] at hk
        have hfalse : m.armsCheck step.2 = false := by
          cases hb : m.armsCheck step.2
          · rfl
          · exact absurd hb harm
        have := Update_lastAnim step.1 m step.2 hfalse r.1 r.2 hu
        rw [← this]
        exact ih r.1 kinds hk

/-- The kinds armed along a run are defined whenever the run returns. -/
theorem armedKinds_returns (steps : List (Env TI × Msg)) :
    ∀ (m m'' : Model TI), m.run steps = some m'' → ∃ kinds, m.armedKinds steps = some kinds := by
  induction steps with
  | nil => intro m m'' _; exact ⟨[], rfl⟩
  | cons step rest ih =>
    intro m m'' hrun
    unfold Model.run at hrun
    unfold Model.armedKinds
    cases hu : m.Update step.1 step.2 with
    | none => rw [hu] at hrun; exact Option.noConfusion hrun
    | some r =>
      rw [hu] at hrun
      simp only [Option.bind_eq_bind, Option.some_bind] at hrun ⊢
      obtain ⟨ks, hks⟩ := ih r.1 m'' hrun
      by_cases harm : m.armsCheck step.2 = true
      · rw [if_pos harm]
        obtain ⟨t, ht, -, -⟩ := Update_arms step.1 m r.1 step.2 r.2 harm hu
        rw [ht, hks]
        exact ⟨_, rfl⟩
      · rw [if_neg harm]
        exact ⟨ks, hks⟩

end models

namespace models
variable {TI : Type}

/-- Claim C18. In the state Browse with the cursor on task `t`, let the
draws of the random source lie in `[0, AnimCount)`. If `t` is not done and
`RandomAnimType` returns kind `a`, the key " " returns the model in which the
task at the cursor is `t` with `IsAnimatingCheck` set, `AnimStart` the
current time and `AnimType` the kind `a`, every other task as it was; `a`
lies in `[0, AnimCount)` and is not the `LastAnim` of the model before, and
`LastAnim` now is `a`, so that whatever the next call of `RandomAnimType`
draws, the kind it returns is not `a`. The status of the task is as it was,
and the effects are a tick and the status update to "done" for the id of
`t`. Over any sequence of messages that follows (ticks, completion events,
keys, further toggles, each in its own environment), as long as `Update`
returns: the kinds of the animations armed, `a` first, are defined and no two
consecutive ones are equal; and a message that arms no animation leaves
`LastAnim` at `a`. If `t` is done, the key returns the model with nothing but
the status messages written, and the one effect is the status update to
"open". -/
theorem space_arms_animation (env : Env TI) (m : Model TI) (t : Task)
    (hstate : m.State = .StateBrowse)
    (h0 : 0 ≤ m.Cursor) (h1 : m.Cursor < goLen m.Tasks)
    (ht : goIndex m.Tasks m.Cursor = some t)
    (hdraws : ∀ d ∈ env.animDraws, 0 ≤ d ∧ d < AnimCount) :
    (t.Status ≠ "done" → ∀ a : Int, RandomAnimType env.animDraws m.LastAnim = some a →
      ∃ m' : Model TI,
        m.Update env (.KeyMsg " ")
          = some (m', [Effect.tick, Effect.updateTaskStatus t.ID "done"]) ∧
        m'.Tasks = m.Tasks.set m.Cursor.toNat
          { t with IsAnimatingCheck := true, AnimStart := env.now, AnimType := a } ∧
        goIndex m'.Tasks m.Cursor
          = some { t with IsAnimatingCheck := true, AnimStart := env.now, AnimType := a } ∧
        (∀ j : Nat, j ≠ m.Cursor.toNat → m'.Tasks[j]? = m.Tasks[j]?) ∧
        m'.Tasks.map (fun x => x.Status) = m.Tasks.map (fun x => x.Status) ∧
        0 ≤ a ∧ a < AnimCount ∧ a ≠ m.LastAnim ∧ m'.LastAnim = a ∧
        (∀ (draws : List Int) (b : Int), RandomAnimType draws m'.LastAnim = some b → b ≠ a) ∧
        m'.State = .StateBrowse ∧ m'.Cursor = m.Cursor ∧
        (∀ steps : List (Env TI × Msg),
          (m.run ((env, .KeyMsg " ") :: steps)).isSome = true →
          ∃ kinds : List Int,
            m.armedKinds ((env, .KeyMsg " ") :: steps) = some (a :: kinds) ∧
            List.Chain' (fun x y => x ≠ y) (a :: kinds)) ∧
        (∀ (env2 : Env TI) (msg : Msg) (m2 : Model TI) (cmds : Cmd),
          m'.armsCheck msg = false → m'.Update env2 msg = some (m2, cmds) →
          m2.LastAnim = a)) ∧
    (t.Status = "done" →
      m.Update env (.KeyMsg " ")
        = some ({ m with ErrorMsg := "", SuccessMsg := "" },
            [Effect.updateTaskStatus t.ID "open"])) := by
  have hkey := Update_key_browse env m " " hstate
  constructor
  · intro hs a ha
    have hopen := updateBrowse_space_open env
      ({ m with ErrorMsg := "", SuccessMsg := "" } : Model TI) t a h0 h1 ht hs ha
    have hu := hkey.trans hopen
    obtain ⟨hmem, hne⟩ := RandomAnimType_spec _ _ _ ha
    have hlt : m.Cursor.toNat < m.Tasks.length := by unfold goLen at h1; omega
    have hget : m.Tasks[m.Cursor.toNat]? = some t := by
      obtain ⟨x, hx1, hx2⟩ := goIndex_of_lt m.Tasks m.Cursor h0 h1
      rw [hx2, ← hx1, ht]
    have hidx : goIndex (m.Tasks.set m.Cursor.toNat
        { t with IsAnimatingCheck := true, AnimStart := env.now, AnimType := a }) m.Cursor
        = some { t with IsAnimatingCheck := true, AnimStart := env.now, AnimType := a } := by
      obtain ⟨x, hx1, hx2⟩ := goIndex_of_lt (m.Tasks.set m.Cursor.toNat
        { t with IsAnimatingCheck := true, AnimStart := env.now, AnimType := a }) m.Cursor h0
        (by unfold goLen at h1 ⊢; rw [List.length_set]; exact h1)
      rw [hx1, ← hx2, List.getElem?_set, if_pos rfl, if_pos hlt]
    have harm : m.armsCheck (.KeyMsg " ") = true :=
      (armsCheck_iff m _).mpr ⟨rfl, hstate, (hasSelection_iff m).mpr ⟨h0, h1⟩, t, ht, hs⟩
    refine ⟨_, hu, rfl, hidx, ?_, ?_, (hdraws a hmem).1, (hdraws a hmem).2, hne, rfl, ?_,
      hstate, rfl, ?_, ?_⟩
    · intro j hj
      show (m.Tasks.set m.Cursor.toNat _)[j]? = _
      rw [List.getElem?_set, if_neg (fun h => hj h.symm)]
    · show (m.Tasks.set m.Cursor.toNat _).map _ = _
      apply List.ext_getElem?
      intro j
      simp only [List.getElem?_map, List.getElem?_set]
      by_cases hj : m.Cursor.toNat = j
      · rw [if_pos hj, if_pos hlt, ← hj, hget]; rfl
      · rw [if_neg hj]
    · intro draws b hb
      exact (RandomAnimType_spec draws a b hb).2
    · intro steps hrun
      unfold Model.run at hrun
      unfold Model.armedKinds
      simp only [hu, Option.bind_eq_bind, Option.some_bind] at hrun ⊢
      obtain ⟨m'', hm''⟩ := Option.isSome_iff_exists.mp hrun
      obtain ⟨ks, hks⟩ := armedKinds_returns steps _ m'' hm''
      have hchain := armedKinds_chain steps _ ks hks
      rw [if_pos harm, hidx]
      simp only [Option.some_bind, hks, Option.map_some']
      exact ⟨ks, rfl, hchain⟩
    · intro env2 msg m2 cmds hno hu2
      exact Update_lastAnim env2 _ msg hno m2 cmds hu2
  · intro hs
    rw [hkey]
    exact updateBrowse_space_done env ({ m with ErrorMsg := "", SuccessMsg := "" } : Model TI) t
      h0 h1 ht hs

/-- Claim C18 on `toggleModel`, where the draws are 3 and 7 and the last kind
was 3: the key " " on task 2 arms kind 7 and schedules the tick and the
update to "done"; the result of the update, the key "up" and the key " " on
task 3 then arm kind 3, and so do a tick, the key "up" and the key " "; on
task 1, which is done, the key schedules the update to "open" only. -/
theorem space_arms_animation_witness :
    (∃ m' : Model PlainInput,
      toggleModel.Update (goEnv 5) (.KeyMsg " ")
        = some (m', [Effect.tick, Effect.updateTaskStatus 2 "done"]) ∧
      m'.Tasks = toggleModel.Tasks.set 1
        { sampleTask 2 "B" 0 none with IsAnimatingCheck := true, AnimStart := 5, AnimType := 7 } ∧
      m'.LastAnim = 7) ∧
    (∃ kinds : List Int,
      toggleModel.armedKinds [(goEnv 5, .KeyMsg " "),
          (goEnv 7, .TaskUpdatedMsg (some { sampleApiTask 2 "B" with Status := "done" }) none),
          (goEnv 8, .KeyMsg "up"), (goEnv 9, .KeyMsg " ")] = some (7 :: kinds) ∧
      List.Chain' (fun x y => x ≠ y) (7 :: kinds)) ∧
    toggleModel.armedKinds [(goEnv 5, .KeyMsg " "),
        (goEnv 7, .TaskUpdatedMsg (some { sampleApiTask 2 "B" with Status := "done" }) none),
        (goEnv 8, .KeyMsg "up"), (goEnv 9, .KeyMsg " ")] = some [7, 3] ∧
    toggleModel.armedKinds [(goEnv 5, .KeyMsg " "), (goEnv 6, .TickMsg),
        (goEnv 8, .KeyMsg "up"), (goEnv 9, .KeyMsg " ")] = some [7, 3] ∧
    ({ toggleModel with Cursor := 2 } : Model PlainInput).Update (goEnv 5) (.KeyMsg " ")
      = some ({ toggleModel with Cursor := 2 }, [Effect.updateTaskStatus 1 "open"]) :=
  ⟨((space_arms_animation (goEnv 5) toggleModel (sampleTask 2 "B" 0 none) rfl (by decide)
      (by decide) (by decide) (by decide)).1 (by decide) 7 (by decide)).imp
      (fun _ h => ⟨h.1, h.2.1, h.2.2.2.2.2.2.2.2.1⟩),
    ((space_arms_animation (goEnv 5) toggleModel (sampleTask 2 "B" 0 none) rfl (by decide)
      (by decide) (by decide) (by decide)).1 (by decide) 7 (by decide)).elim
      (fun _ h => h.2.2.2.2.2.2.2.2.2.2.2.2.1
        [(goEnv 7, .TaskUpdatedMsg (some { sampleApiTask 2 "B" with Status := "done" }) none),
          (goEnv 8, .KeyMsg "up"), (goEnv 9, .KeyMsg " ")] (by decide)),
    by decide, by decide,
    (space_arms_animation (goEnv 5) ({ toggleModel with Cursor := 2 } : Model PlainInput)
      { sampleTask 1 "A" 0 none with Status := "done" } rfl (by decide) (by decide) (by decide)
      (by decide)).2 (by decide)⟩

end models
